import Mathlib

/-!
# go-onlinelabs: the request executor, the resource client and the server envelope

A shallow embedding of `api/http.go`, `api/client.go` and `api/server.go`, with the parts of
the Go standard library they rest on: `fmt.Sprintf`, `net/http` requests and headers,
`strings.TrimSpace` with `unicode/utf8`, and `encoding/json` for the structs of `server.go`.

* Go `string` and `[]byte` values are byte sequences (`Bytes`).
* A nil-able Go result is an `Option`; a Go `error` is `Option GoError`, `none` being `nil`.
* The network is explicit state: every function that can reach `client.Do` takes the list of
  requests handed to the transport so far and returns the extended list.
* `log.Debugf` calls are left out: they only write to the debug log.
* In string literals the braces of a JSON text are written `\x7b` and `\x7d`: the format
  `{"action": "%s"}` of client.go reads `"\x7b\"action\": \"%s\"\x7d"`.
* Loops of the standard library are recursive functions with a bound on the number of rounds
  as first argument; each caller passes a bound computed from the length of its input.

The definitions come first, the theorems after them.
-/

set_option maxRecDepth 100000

namespace OnlineLabs

/-! ## Strings, errors and formatting -/

/-- Go `string` and `[]byte` values: finite sequences of bytes. -/
abbrev Bytes := List UInt8

/-- The bytes (UTF-8) of a literal of the source text. -/
def str (s : String) : Bytes := s.data.flatMap String.utf8EncodeChar

/-- A non-nil Go `error`, identified with the text of its `Error()` method. -/
structure GoError where
  msg : Bytes
deriving DecidableEq, Repr

/-- An operand of `fmt.Sprintf`: the client passes strings, ints and bools. -/
inductive Arg where
  | str (s : Bytes)
  | int (i : Int)
  | bool (b : Bool)
deriving DecidableEq, Repr

/-- Decimal text of a Go `int`, as `strconv.Itoa` and the verb `%d` print it. -/
def itoa : Int → Bytes
  | Int.ofNat n => str (Nat.repr n)
  | Int.negSucc n => str "-" ++ str (Nat.repr (n + 1))

/-- Go's name of the operand's type, used in the diagnostics of `fmt`. -/
def Arg.typeName : Arg → Bytes
  | Arg.str _ => OnlineLabs.str "string"
  | Arg.int _ => OnlineLabs.str "int"
  | Arg.bool _ => OnlineLabs.str "bool"

/-- The operand under the verb `%v`: a string as it is, an int in decimal, a bool as
`true` or `false`. -/
def Arg.value : Arg → Bytes
  | Arg.str s => s
  | Arg.int i => itoa i
  | Arg.bool true => OnlineLabs.str "true"
  | Arg.bool false => OnlineLabs.str "false"

/-- The text `fmt` prints for a verb that does not fit its operand: `%!d(string=abc)`. -/
def badVerb (verb : UInt8) (a : Arg) : Bytes :=
  str "%!" ++ [verb] ++ str "(" ++ a.typeName ++ str "=" ++ a.value ++ str ")"

/-- One directive `%verb` applied to one operand. `%s` takes a string, `%d` an int, `%t` a
bool, `%v` anything. Other verbs, flags and widths do not occur in the formats of this
package's requests and errors and are not modelled: they are treated like a verb that does
not fit. -/
def formatVerb (verb : UInt8) (a : Arg) : Bytes :=
  if verb = 115 then
    match a with
    | Arg.str s => s
    | _ => badVerb verb a
  else if verb = 100 then
    match a with
    | Arg.int i => itoa i
    | _ => badVerb verb a
  else if verb = 116 then
    match a with
    | Arg.bool _ => a.value
    | _ => badVerb verb a
  else if verb = 118 then a.value
  else badVerb verb a

/-- The text `fmt` appends for operands no directive consumed. -/
def extraArgs : List Arg → Bytes
  | [] => []
  | a :: as =>
    str "%!(EXTRA " ++ (a.typeName ++ str "=" ++ a.value)
      ++ (as.map (fun x => str ", " ++ x.typeName ++ str "=" ++ x.value)).flatten ++ str ")"

/-- `fmt.Sprintf(format, args...)` on the directives of `formatVerb`: bytes other than `%`
are copied, `%%` prints `%`, a directive consumes the next operand. -/
def Sprintf : Bytes → List Arg → Bytes
  | [], args => extraArgs args
  | c :: rest, args =>
    if c = 37 then
      match rest, args with
      | [], args => str "%!(NOVERB)" ++ extraArgs args
      | v :: rest', [] =>
        if v = 37 then 37 :: Sprintf rest' []
        else str "%!" ++ [v] ++ str "(MISSING)" ++ Sprintf rest' []
      | v :: rest', a :: args' =>
        if v = 37 then 37 :: Sprintf rest' (a :: args')
        else formatVerb v a ++ Sprintf rest' args'
    else c :: Sprintf rest args

/-- `fmt.Errorf(format, args...)`: the error whose text is the formatted string. -/
def Errorf (format : Bytes) (args : List Arg) : GoError := ⟨Sprintf format args⟩

/-! ## unicode/utf8, unicode and strings.TrimSpace

Runes are natural numbers. The masks and shifts of `unicode/utf8` are written with `%` and
`*`: `b & 0x3F` is `b % 64` and `x<<6 | y` with `y < 64` is `x * 64 + y`. -/

/-- The rune `utf8.RuneError`, U+FFFD. -/
def RuneError : Nat := 0xFFFD

/-- The bound `utf8.RuneSelf`: bytes below it are runes of their own. -/
def RuneSelf : Nat := 0x80

/-- The table `first` of `unicode/utf8`: for a leading byte, `0xF0` for ASCII, `0xF1` for an
invalid leading byte, and otherwise the index of the accept range in the high nibble with the
length of the encoding in the low one. -/
def first (b : Nat) : Nat :=
  if b < 0x80 then 0xF0
  else if b < 0xC2 then 0xF1
  else if b < 0xE0 then 0x02
  else if b = 0xE0 then 0x13
  else if b < 0xED then 0x03
  else if b = 0xED then 0x23
  else if b < 0xF0 then 0x03
  else if b = 0xF0 then 0x34
  else if b < 0xF4 then 0x04
  else if b = 0xF4 then 0x44
  else 0xF1

/-- The table `acceptRanges` of `unicode/utf8`: the bounds of the second byte. -/
def acceptRanges (i : Nat) : Nat × Nat :=
  match i with
  | 0 => (0x80, 0xBF)
  | 1 => (0xA0, 0xBF)
  | 2 => (0x80, 0x9F)
  | 3 => (0x90, 0xBF)
  | _ => (0x80, 0x8F)

/-- `utf8.DecodeRuneInString(s)`: the first rune of `s` and its width in bytes; `(RuneError, 0)`
for the empty string and `(RuneError, 1)` for an invalid encoding. -/
def DecodeRuneInString (s : Bytes) : Nat × Nat :=
  match s with
  | [] => (RuneError, 0)
  | c0 :: t0 =>
    let s0 := c0.toNat
    let x := first s0
    if x ≥ 0xF0 then (if x = 0xF0 then s0 else RuneError, 1)
    else
      let sz := x % 8
      let accept := acceptRanges (x / 16)
      if s.length < sz then (RuneError, 1)
      else
        match t0 with
        | [] => (RuneError, 1)
        | c1 :: t1 =>
          let s1 := c1.toNat
          if s1 < accept.1 ∨ accept.2 < s1 then (RuneError, 1)
          else if sz ≤ 2 then (s0 % 32 * 64 + s1 % 64, 2)
          else
            match t1 with
            | [] => (RuneError, 1)
            | c2 :: t2 =>
              let s2 := c2.toNat
              if s2 < 0x80 ∨ 0xBF < s2 then (RuneError, 1)
              else if sz ≤ 3 then (s0 % 16 * 4096 + s1 % 64 * 64 + s2 % 64, 3)
              else
                match t2 with
                | [] => (RuneError, 1)
                | c3 :: _ =>
                  let s3 := c3.toNat
                  if s3 < 0x80 ∨ 0xBF < s3 then (RuneError, 1)
                  else (s0 % 8 * 262144 + s1 % 64 * 4096 + s2 % 64 * 64 + s3 % 64, 4)

/-- `utf8.RuneStart(b)`: the byte is not a continuation byte. -/
def RuneStart (b : UInt8) : Bool := decide (b.toNat / 64 ≠ 2)

/-- The backwards loop of `utf8.DecodeLastRuneInString`, entered with the loop variable at
`start`: it runs down while `start >= lim` and stops at the first byte that starts a rune;
the result is the loop variable after the loop (an integer, it can be `-1`). -/
def scanRuneStart (s : Bytes) (lim : Nat) : Nat → Int
  | 0 => if 0 < lim then 0 else if RuneStart (s.getD 0 0) then 0 else -1
  | start + 1 =>
    if start + 1 < lim then ((start + 1 : Nat) : Int)
    else if RuneStart (s.getD (start + 1) 0) then ((start + 1 : Nat) : Int)
    else scanRuneStart s lim start

/-- `utf8.DecodeLastRuneInString(s)`: the last rune of `s` and its width. -/
def DecodeLastRuneInString (s : Bytes) : Nat × Nat :=
  -- `stop` is the variable `end` of the Go source
  let stop := s.length
  if stop = 0 then (RuneError, 0)
  else
    let r := (s.getD (stop - 1) 0).toNat
    if r < RuneSelf then (r, 1)
    else
      let lim := stop - 4
      let start : Int := if stop - 1 = 0 then -1 else scanRuneStart s lim (stop - 2)
      let start : Nat := if start < 0 then 0 else start.toNat
      let d := DecodeRuneInString ((s.drop start).take (stop - start))
      if start + d.2 ≠ stop then (RuneError, 1) else d

/-- `unicode.IsSpace(r)`: the Latin-1 spaces and the other runes of the property
White_Space. -/
def IsSpace (r : Nat) : Bool :=
  if r ≤ 0xFF then
    decide (r = 0x09 ∨ r = 0x0A ∨ r = 0x0B ∨ r = 0x0C ∨ r = 0x0D ∨ r = 0x20 ∨ r = 0x85 ∨ r = 0xA0)
  else
    decide (r = 0x1680 ∨ (0x2000 ≤ r ∧ r ≤ 0x200A) ∨ r = 0x2028 ∨ r = 0x2029 ∨ r = 0x202F
      ∨ r = 0x205F ∨ r = 0x3000)

/-- The loop of `strings.indexFunc(s, f, false)` from byte offset `start` on, on the rest
`s[start:]`: the offset of the first rune that does not satisfy `f`, `none` for Go's `-1`.
The first argument bounds the number of rounds; the length of the rest is enough. -/
def indexFuncFalse (f : Nat → Bool) : Nat → Bytes → Nat → Option Nat
  | 0, _, _ => none
  | fuel + 1, rest, start =>
    match rest with
    | [] => none
    | c :: _ =>
      let d := if c.toNat ≥ RuneSelf then DecodeRuneInString rest else (c.toNat, 1)
      if f d.1 = false then some start
      else indexFuncFalse f fuel (rest.drop d.2) (start + d.2)

/-- `strings.TrimLeftFunc(s, f)`. -/
def TrimLeftFunc (s : Bytes) (f : Nat → Bool) : Bytes :=
  match indexFuncFalse f s.length s 0 with
  | none => []
  | some i => s.drop i

/-- The loop of `strings.lastIndexFunc(s, f, false)` with loop variable `i`: the offset of the
last rune of `s[0:i]` that does not satisfy `f`, `none` for `-1`. The first argument bounds
the number of rounds. -/
def lastIndexFuncFalse (f : Nat → Bool) (s : Bytes) : Nat → Nat → Option Nat
  | 0, _ => none
  | fuel + 1, i =>
    if i = 0 then none
    else
      let d := DecodeLastRuneInString (s.take i)
      let i := i - d.2
      if f d.1 = false then some i
      else lastIndexFuncFalse f s fuel i

/-- `strings.TrimRightFunc(s, f)`. -/
def TrimRightFunc (s : Bytes) (f : Nat → Bool) : Bytes :=
  match lastIndexFuncFalse f s s.length s.length with
  | some i =>
    if (s.getD i 0).toNat ≥ RuneSelf then s.take (i + (DecodeRuneInString (s.drop i)).2)
    else s.take (i + 1)
  | none => s.take 0

/-- `strings.TrimFunc(s, f)`. -/
def TrimFunc (s : Bytes) (f : Nat → Bool) : Bytes :=
  TrimRightFunc (TrimLeftFunc s f) f

/-- `strings.TrimSpace(s)`: `s` without its leading and trailing white space. -/
def TrimSpace (s : Bytes) : Bytes := TrimFunc s IsSpace

/-- `utf8.EncodeRune`: the UTF-8 encoding of the rune, that of U+FFFD for a surrogate or a
value above U+10FFFF. -/
def EncodeRune (r : Nat) : Bytes :=
  if r < 0x80 then [UInt8.ofNat r]
  else if r ≤ 0x7FF then [UInt8.ofNat (0xC0 + r / 64), UInt8.ofNat (0x80 + r % 64)]
  else if r > 0x10FFFF ∨ (0xD800 ≤ r ∧ r ≤ 0xDFFF) then [0xEF, 0xBF, 0xBD]
  else if r ≤ 0xFFFF then
    [UInt8.ofNat (0xE0 + r / 4096), UInt8.ofNat (0x80 + r / 64 % 64), UInt8.ofNat (0x80 + r % 64)]
  else
    [UInt8.ofNat (0xF0 + r / 262144), UInt8.ofNat (0x80 + r / 4096 % 64),
      UInt8.ofNat (0x80 + r / 64 % 64), UInt8.ofNat (0x80 + r % 64)]

/-- The rune is a Unicode scalar value: below U+D800, or from U+E000 to U+10FFFF. -/
def ValidRune (r : Nat) : Prop := r < 0xD800 ∨ (0xE000 ≤ r ∧ r ≤ 0x10FFFF)

/-- The loop of `utf8.ValidString`: no rune of the rest decodes to the error answer
`(RuneError, 1)`. The first argument bounds the number of rounds. -/
def validLoop : Nat → Bytes → Bool
  | 0, s => decide (s = [])
  | fuel + 1, s =>
    match s with
    | [] => true
    | _ :: _ =>
      let d := DecodeRuneInString s
      if d.1 = RuneError ∧ d.2 = 1 then false else validLoop fuel (s.drop d.2)

/-- `utf8.ValidString(s)`: the string is well-formed UTF-8. -/
def ValidString (s : Bytes) : Bool := validLoop s.length s

/-! ## net/http -/

/-- An `http.Header`: for each key the list of its values. -/
abbrev Header := List (Bytes × List Bytes)

/-- `h.Set(key, value)`: the entry of `key` becomes the single value `value`. Both keys the
package sets, `X-Auth-Token` and `Content-Type`, are in canonical MIME form already, so the
canonicalisation of the key changes nothing. -/
def Header.Set (h : Header) (key value : Bytes) : Header :=
  (key, [value]) :: h.filter (fun e => decide (e.1 ≠ key))

/-- `h[key]`: the values stored under `key`, `none` when the key is absent. -/
def Header.lookup (h : Header) (key : Bytes) : Option (List Bytes) :=
  (h.find? (fun e => decide (e.1 = key))).map Prod.snd

/-- `h.Get(key)`: the first value stored under `key`, the empty string when there is none. -/
def Header.Get (h : Header) (key : Bytes) : Bytes :=
  match h.lookup key with
  | some (v :: _) => v
  | _ => []

/-- An `*http.Request`: verb, target, headers and the optional body. -/
structure Request where
  Method : Bytes
  URL : Bytes
  Header : Header
  Body : Option Bytes
deriving DecidableEq, Repr

/-- An `*http.Response` as the executor sees it: the status code and what
`ioutil.ReadAll(resp.Body)` returns, the bytes read and the read error. -/
structure Response where
  StatusCode : Int
  Body : Bytes × Option GoError
deriving DecidableEq, Repr

/-- The network sessions's record: the requests handed to the transport, oldest first. -/
abbrev Net := List Request

/-- An `*http.Client`: what `Do` answers to a request, given the requests made before. -/
structure Client where
  Do : Net → Request → Except GoError Response

/-- What the package reads from the outside world besides the network: `url.Parse` (through
`http.NewRequest`) and `ioutil.ReadFile`. -/
structure Env where
  /-- The error of `url.Parse`, `none` when the URL parses. -/
  parseURL : Bytes → Option GoError
  ReadFile : Bytes → Except GoError Bytes

/-- `http.NewRequest(method, url, body)`: fails when the URL does not parse; the new request
has an empty header. The four verbs of the package are valid methods. -/
def NewRequest (env : Env) (method url : Bytes) (body : Option Bytes) :
    Except GoError Request :=
  match env.parseURL url with
  | some err => Except.error err
  | none => Except.ok { Method := method, URL := url, Header := [], Body := body }

/-! ## http.go -/

/-- The request of `performAPIRequest` after the two `Header.Set` calls (http.go 27-28). -/
def withAuth (req : Request) (token : Bytes) : Request :=
  let h := req.Header.Set (str "X-Auth-Token") token
  { req with Header := h.Set (str "Content-Type") (str "application/json") }

/-- The function `performAPIRequest` of http.go, lines 26-42. -/
def performAPIRequest (client : Client) (req : Request) (token : Bytes) (net : Net) :
    (Option Bytes × Option GoError) × Net :=
  let req := withAuth req token
  match client.Do net req with
  | Except.error err => ((none, some err), net ++ [req])
  | Except.ok resp =>
    let b := resp.Body.1
    let msg := b
    if resp.StatusCode > 299 then
      ((none, some (Errorf (str "[%d] %s") [Arg.int resp.StatusCode, Arg.str msg])),
        net ++ [req])
    else ((some b, none), net ++ [req])

/-- The function `getAPIResource` of http.go, lines 44-63. -/
def getAPIResource (env : Env) (client : Client) (token url : Bytes) (net : Net) :
    (Option Bytes × Option GoError) × Net :=
  match NewRequest env (str "GET") url none with
  | Except.error err => ((none, some err), net)
  | Except.ok req => performAPIRequest client req token net

/-- The function `postAPIResource` of http.go, lines 83-90. -/
def postAPIResource (env : Env) (client : Client) (token url json : Bytes) (net : Net) :
    (Option Bytes × Option GoError) × Net :=
  match NewRequest env (str "POST") url (some json) with
  | Except.error err => ((none, some err), net)
  | Except.ok req => performAPIRequest client req token net

/-- The function `deleteAPIResource` of http.go, lines 115-122. -/
def deleteAPIResource (env : Env) (client : Client) (token url : Bytes) (net : Net) :
    (Option Bytes × Option GoError) × Net :=
  match NewRequest env (str "DELETE") url none with
  | Except.error err => ((none, some err), net)
  | Except.ok req => performAPIRequest client req token net

/-- The function `patchAPIResource` of http.go, lines 142-149. -/
def patchAPIResource (env : Env) (client : Client) (token url json : Bytes) (net : Net) :
    (Option Bytes × Option GoError) × Net :=
  match NewRequest env (str "PATCH") url (some json) with
  | Except.error err => ((none, some err), net)
  | Except.ok req => performAPIRequest client req token net

/-! ## client.go -/

/-- The constant `computeURL` of client.go. -/
def computeURL : Bytes := str "https://api.cloud.online.net"

/-- The constant `accountURL` of client.go. -/
def accountURL : Bytes := str "https://account.cloud.online.net"

/-- The struct `OnlineLabsClient` of client.go. -/
structure OnlineLabsClient where
  UserID : Bytes
  Token : Bytes
  Organization : Bytes
  Client : Client
  ComputeURL : Bytes
  AccountURL : Bytes

/-- The function `NewClient` of client.go; `client` stands for the fresh `&http.Client{}`. -/
def NewClient (client : Client) (userid token organization : Bytes) : OnlineLabsClient :=
  { UserID := userid, Token := token, Organization := organization, Client := client,
    ComputeURL := computeURL, AccountURL := accountURL }

/-- A result type of the client (`UserResponse`, `TokenResponse`, ...) as far as the methods
use it: its zero value, which `var data T` declares, and `json.Unmarshal(b, &data)`, which
returns the updated value and the error. -/
structure Decoder (R : Type) where
  zero : R
  Unmarshal : Bytes → R → R × Option GoError

/-- Modelled from the spec: the last step of the helpers `getAPIResource`, `postAPIResource`
and `patchAPIResource` as client.go calls them, with a result pointer as last argument and
only an error returned; http.go holds the helpers that return the raw bytes. By section 4.2
of the spec the helper delegates to the request executor, deserializes the response bytes into
the result and returns the first error met. The delete methods pass a nil result pointer to
`deleteAPIResource`: nothing is decoded there and the error of the request is returned. -/
def decodeInto {R : Type} (dec : Decoder R) (data : R) (r : Option Bytes × Option GoError) :
    R × Option GoError :=
  match r with
  | (_, some err) => (data, some err)
  | (some b, none) => dec.Unmarshal b data
  | (none, none) => (data, none)

/-- The method `GetUserInformations` of client.go, lines 59-67. -/
def OnlineLabsClient.GetUserInformations {R : Type} (c : OnlineLabsClient) (env : Env)
    (dec : Decoder R) (userID : Bytes) (net : Net) : (R × Option GoError) × Net :=
  let data := dec.zero
  let r := getAPIResource env c.Client c.Token
    (Sprintf (str "%s/users/%s") [Arg.str c.AccountURL, Arg.str userID]) net
  (decodeInto dec data r.1, r.2)

/-- The method `GetUserOrganizations` of client.go, lines 70-78. -/
def OnlineLabsClient.GetUserOrganizations {R : Type} (c : OnlineLabsClient) (env : Env)
    (dec : Decoder R) (net : Net) : (R × Option GoError) × Net :=
  let data := dec.zero
  let r := getAPIResource env c.Client c.Token
    (Sprintf (str "%s/organizations") [Arg.str c.AccountURL]) net
  (decodeInto dec data r.1, r.2)

/-- The method `GetUserTokens` of client.go, lines 81-89. -/
def OnlineLabsClient.GetUserTokens {R : Type} (c : OnlineLabsClient) (env : Env)
    (dec : Decoder R) (net : Net) : (R × Option GoError) × Net :=
  let data := dec.zero
  let r := getAPIResource env c.Client c.Token
    (Sprintf (str "%s/tokens") [Arg.str c.AccountURL]) net
  (decodeInto dec data r.1, r.2)

/-- The method `GetUserToken` of client.go, lines 92-100. -/
def OnlineLabsClient.GetUserToken {R : Type} (c : OnlineLabsClient) (env : Env)
    (dec : Decoder R) (tokenID : Bytes) (net : Net) : (R × Option GoError) × Net :=
  let data := dec.zero
  let r := getAPIResource env c.Client c.Token
    (Sprintf (str "%s/tokens/%s") [Arg.str c.AccountURL, Arg.str tokenID]) net
  (decodeInto dec data r.1, r.2)

/-- The request body of `CreateToken`, client.go lines 109-110. -/
def CreateTokenBody (email password : Bytes) (expires : Bool) : Bytes :=
  Sprintf (str "\x7b\"email\": \"%s\", \"password\": \"%s\", \"expires\": %t\x7d")
    [Arg.str email, Arg.str password, Arg.bool expires]

/-- The method `CreateToken` of client.go, lines 107-118. -/
def OnlineLabsClient.CreateToken {R : Type} (c : OnlineLabsClient) (env : Env)
    (dec : Decoder R) (email password : Bytes) (expires : Bool) (net : Net) :
    (R × Option GoError) × Net :=
  let data := dec.zero
  let json := CreateTokenBody email password expires
  let r := postAPIResource env c.Client c.Token
    (Sprintf (str "%s/tokens") [Arg.str c.AccountURL]) json net
  (decodeInto dec data r.1, r.2)

/-- The method `DeleteToken` of client.go, lines 122-128. The result pointer is nil: nothing
is decoded and the error is the one of the request. -/
def OnlineLabsClient.DeleteToken (c : OnlineLabsClient) (env : Env) (tokenID : Bytes)
    (net : Net) : Option GoError × Net :=
  let r := deleteAPIResource env c.Client c.Token
    (Sprintf (str "%s/tokens/%s") [Arg.str c.AccountURL, Arg.str tokenID]) net
  (r.1.2, r.2)

/-- The method `UpdateToken` of client.go, lines 132-142. -/
def OnlineLabsClient.UpdateToken {R : Type} (c : OnlineLabsClient) (env : Env)
    (dec : Decoder R) (tokenID : Bytes) (net : Net) : (R × Option GoError) × Net :=
  let data := dec.zero
  let json := str "\x7b\"expires\": true\x7d"
  let r := patchAPIResource env c.Client c.Token
    (Sprintf (str "%s/tokens/%s") [Arg.str c.AccountURL, Arg.str tokenID]) json net
  (decodeInto dec data r.1, r.2)

/-- The request body of `CreateServer`, client.go lines 150-151. -/
def CreateServerBody (name organization image : Bytes) : Bytes :=
  Sprintf
    (str "\x7b\"name\": \"%s\", \"organization\": \"%s\", \"image\": \"%s\", \"tags\": [\"docker-machine\"]\x7d")
    [Arg.str name, Arg.str organization, Arg.str image]

/-- The method `CreateServer` of client.go, lines 148-159. -/
def OnlineLabsClient.CreateServer {R : Type} (c : OnlineLabsClient) (env : Env)
    (dec : Decoder R) (name organization image : Bytes) (net : Net) :
    (R × Option GoError) × Net :=
  let data := dec.zero
  let json := CreateServerBody name organization image
  let r := postAPIResource env c.Client c.Token
    (Sprintf (str "%s/servers") [Arg.str c.ComputeURL]) json net
  (decodeInto dec data r.1, r.2)

/-- The method `DeleteServer` of client.go, lines 163-169. -/
def OnlineLabsClient.DeleteServer (c : OnlineLabsClient) (env : Env) (serverID : Bytes)
    (net : Net) : Option GoError × Net :=
  let r := deleteAPIResource env c.Client c.Token
    (Sprintf (str "%s/servers/%s") [Arg.str c.ComputeURL, Arg.str serverID]) net
  (r.1.2, r.2)

/-- The method `GetServer` of client.go, lines 173-181. -/
def OnlineLabsClient.GetServer {R : Type} (c : OnlineLabsClient) (env : Env)
    (dec : Decoder R) (serverID : Bytes) (net : Net) : (R × Option GoError) × Net :=
  let data := dec.zero
  let r := getAPIResource env c.Client c.Token
    (Sprintf (str "%s/servers/%s") [Arg.str c.ComputeURL, Arg.str serverID]) net
  (decodeInto dec data r.1, r.2)

/-- The method `GetServers` of client.go, lines 184-192. -/
def OnlineLabsClient.GetServers {R : Type} (c : OnlineLabsClient) (env : Env)
    (dec : Decoder R) (net : Net) : (R × Option GoError) × Net :=
  let data := dec.zero
  let r := getAPIResource env c.Client c.Token
    (Sprintf (str "%s/servers") [Arg.str c.ComputeURL]) net
  (decodeInto dec data r.1, r.2)

/-- The method `PerformServerAction` of client.go, lines 197-207. -/
def OnlineLabsClient.PerformServerAction {R : Type} (c : OnlineLabsClient) (env : Env)
    (dec : Decoder R) (serverID action : Bytes) (net : Net) : (R × Option GoError) × Net :=
  let data := dec.zero
  let json := Sprintf (str "\x7b\"action\": \"%s\"\x7d") [Arg.str action]
  let r := postAPIResource env c.Client c.Token
    (Sprintf (str "%s/servers/%s/action") [Arg.str c.ComputeURL, Arg.str serverID]) json net
  (decodeInto dec data r.1, r.2)

/-- The method `GetVolume` of client.go, lines 211-219. -/
def OnlineLabsClient.GetVolume {R : Type} (c : OnlineLabsClient) (env : Env)
    (dec : Decoder R) (volumeID : Bytes) (net : Net) : (R × Option GoError) × Net :=
  let data := dec.zero
  let r := getAPIResource env c.Client c.Token
    (Sprintf (str "%s/volumes/%s") [Arg.str c.ComputeURL, Arg.str volumeID]) net
  (decodeInto dec data r.1, r.2)

/-- The method `DeleteVolume` of client.go, lines 223-229. -/
def OnlineLabsClient.DeleteVolume (c : OnlineLabsClient) (env : Env) (volumeID : Bytes)
    (net : Net) : Option GoError × Net :=
  let r := deleteAPIResource env c.Client c.Token
    (Sprintf (str "%s/volumes/%s") [Arg.str c.ComputeURL, Arg.str volumeID]) net
  (r.1.2, r.2)

/-- The method `CreateVolume` of client.go, lines 236-247. -/
def OnlineLabsClient.CreateVolume {R : Type} (c : OnlineLabsClient) (env : Env)
    (dec : Decoder R) (name organization volume_type : Bytes) (size : Int) (net : Net) :
    (R × Option GoError) × Net :=
  let data := dec.zero
  let json := Sprintf
    (str "\x7b\"name\": \"%s\", \"organization\": \"%s\", \"volume_type\": \"%s\", \"size\": %d\x7d")
    [Arg.str name, Arg.str organization, Arg.str volume_type, Arg.int size]
  let r := postAPIResource env c.Client c.Token
    (Sprintf (str "%s/volumes") [Arg.str c.ComputeURL]) json net
  (decodeInto dec data r.1, r.2)

/-- The method `GetVolumes` of client.go, lines 250-258. -/
def OnlineLabsClient.GetVolumes {R : Type} (c : OnlineLabsClient) (env : Env)
    (dec : Decoder R) (net : Net) : (R × Option GoError) × Net :=
  let data := dec.zero
  let r := getAPIResource env c.Client c.Token
    (Sprintf (str "%s/volumes") [Arg.str c.ComputeURL]) net
  (decodeInto dec data r.1, r.2)

/-- The method `GetImages` of client.go, lines 261-269. -/
def OnlineLabsClient.GetImages {R : Type} (c : OnlineLabsClient) (env : Env)
    (dec : Decoder R) (net : Net) : (R × Option GoError) × Net :=
  let data := dec.zero
  let r := getAPIResource env c.Client c.Token
    (Sprintf (str "%s/images") [Arg.str c.ComputeURL]) net
  (decodeInto dec data r.1, r.2)

/-- The method `GetImage` of client.go, lines 273-281. -/
def OnlineLabsClient.GetImage {R : Type} (c : OnlineLabsClient) (env : Env)
    (dec : Decoder R) (volumeID : Bytes) (net : Net) : (R × Option GoError) × Net :=
  let data := dec.zero
  let r := getAPIResource env c.Client c.Token
    (Sprintf (str "%s/images/%s") [Arg.str c.ComputeURL, Arg.str volumeID]) net
  (decodeInto dec data r.1, r.2)

/-- The method `DeleteImage` of client.go, lines 285-291. -/
def OnlineLabsClient.DeleteImage (c : OnlineLabsClient) (env : Env) (imageID : Bytes)
    (net : Net) : Option GoError × Net :=
  let r := deleteAPIResource env c.Client c.Token
    (Sprintf (str "%s/images/%s") [Arg.str c.ComputeURL, Arg.str imageID]) net
  (r.1.2, r.2)

/-- The request body of `UploadPublicKey` for the content of the key file, client.go lines
302-303. -/
def UploadPublicKeyBody (publicKey : Bytes) : Bytes :=
  Sprintf (str "\x7b\"ssh_public_keys\": [\x7b\"key\": \"%s\"\x7d]\x7d") [Arg.str (TrimSpace publicKey)]

/-- The method `UploadPublicKey` of client.go, lines 296-311. -/
def OnlineLabsClient.UploadPublicKey {R : Type} (c : OnlineLabsClient) (env : Env)
    (dec : Decoder R) (userid keyPath : Bytes) (net : Net) : (R × Option GoError) × Net :=
  let data := dec.zero
  match env.ReadFile keyPath with
  | Except.error err => ((data, some err), net)
  | Except.ok publicKey =>
    let json := UploadPublicKeyBody publicKey
    let r := patchAPIResource env c.Client c.Token
      (Sprintf (str "%s/users/%s") [Arg.str c.AccountURL, Arg.str userid]) json net
    (decodeInto dec data r.1, r.2)

/-! ## encoding/json: reading -/

/-- A JSON text as a tree. Strings and keys are held decoded, numbers as their literal. -/
inductive JSON where
  | null
  | bool (b : Bool)
  | num (lit : Bytes)
  | str (s : Bytes)
  | arr (xs : List JSON)
  | obj (kvs : List (Bytes × JSON))
deriving Repr

/-- The white space of JSON: blank, tab, carriage return and line feed. -/
def isSpaceJSON (c : UInt8) : Bool := c = 32 || c = 9 || c = 13 || c = 10

/-- The input without its leading white space. -/
def skipSpace : Bytes → Bytes
  | [] => []
  | c :: t => if isSpaceJSON c then skipSpace t else c :: t

/-- The value of a hexadecimal digit. -/
def hexVal (c : UInt8) : Option Nat :=
  let n := c.toNat
  if 48 ≤ n ∧ n ≤ 57 then some (n - 48)
  else if 97 ≤ n ∧ n ≤ 102 then some (n - 87)
  else if 65 ≤ n ∧ n ≤ 70 then some (n - 55)
  else none

/-- The function `getu4` of decode.go: the number written by `\uXXXX` at the front of the
input, `none` (Go's `-1`) when the input does not start so. -/
def getu4 : Bytes → Option Nat
  | 92 :: 117 :: a :: b :: c :: d :: _ =>
    match hexVal a, hexVal b, hexVal c, hexVal d with
    | some x, some y, some z, some w => some (x * 4096 + y * 256 + z * 16 + w)
    | _, _, _, _ => none
  | _ => none

/-- The rest of a string literal after its opening quote, read as the scanner and
`unquote` of decode.go do: the decoded string and the input after the closing quote, `none`
for a literal that is not well formed. `acc` holds the bytes decoded so far, the first
argument bounds the number of rounds. -/
def parseString : Nat → Bytes → Bytes → Option (Bytes × Bytes)
  | 0, _, _ => none
  | fuel + 1, input, acc =>
    match input with
    | [] => none
    | c :: t =>
      if c = 34 then some (acc, t)
      else if c = 92 then
        match t with
        | [] => none
        | e :: t' =>
          if e = 34 ∨ e = 92 ∨ e = 47 then parseString fuel t' (acc ++ [e])
          else if e = 98 then parseString fuel t' (acc ++ [8])
          else if e = 102 then parseString fuel t' (acc ++ [12])
          else if e = 110 then parseString fuel t' (acc ++ [10])
          else if e = 114 then parseString fuel t' (acc ++ [13])
          else if e = 116 then parseString fuel t' (acc ++ [9])
          else if e = 117 then
            match getu4 input with
            | none => none
            | some rr =>
              let after := input.drop 6
              if 0xD800 ≤ rr ∧ rr < 0xE000 then
                match getu4 after with
                | some rr1 =>
                  if rr < 0xDC00 ∧ 0xDC00 ≤ rr1 ∧ rr1 < 0xE000 then
                    parseString fuel (after.drop 6)
                      (acc ++ EncodeRune ((rr - 0xD800) * 1024 + (rr1 - 0xDC00) + 0x10000))
                  else parseString fuel after (acc ++ EncodeRune RuneError)
                | none => parseString fuel after (acc ++ EncodeRune RuneError)
              else parseString fuel after (acc ++ EncodeRune rr)
          else none
      else if c.toNat < 32 then none
      else if c.toNat < RuneSelf then parseString fuel t (acc ++ [c])
      else
        let d := DecodeRuneInString input
        parseString fuel (input.drop d.2) (acc ++ EncodeRune d.1)

/-- The digits at the front of the input and the rest. -/
def spanDigits : Bytes → Bytes × Bytes
  | [] => ([], [])
  | c :: t =>
    if 48 ≤ c.toNat ∧ c.toNat ≤ 57 then (c :: (spanDigits t).1, (spanDigits t).2)
    else ([], c :: t)

/-- The exponent of a number literal, if the input starts with one: `e` or `E`, an optional
sign, digits. `some` of the text read (empty when there is no exponent) and the rest; `none`
when an exponent starts and is not well formed. -/
def parseExponent : Bytes → Option (Bytes × Bytes)
  | [] => some ([], [])
  | c :: t =>
    if c = 101 ∨ c = 69 then
      match t with
      | [] => none
      | s :: t' =>
        if s = 43 ∨ s = 45 then
          match spanDigits t' with
          | ([], _) => none
          | (ds, rest) => some (c :: s :: ds, rest)
        else
          match spanDigits t with
          | ([], _) => none
          | (ds, rest) => some (c :: ds, rest)
    else some ([], c :: t)

/-- The fraction of a number literal, if the input starts with one: a point and digits. -/
def parseFraction : Bytes → Option (Bytes × Bytes)
  | [] => some ([], [])
  | c :: t =>
    if c = 46 then
      match spanDigits t with
      | ([], _) => none
      | (ds, rest) => some (c :: ds, rest)
    else some ([], c :: t)

/-- The number literal after its optional sign: `0` or a digit from 1 to 9 with more digits,
then the optional fraction and exponent. -/
def parseUnsigned : Bytes → Option (Bytes × Bytes)
  | [] => none
  | c :: t =>
    if c = 48 then
      match parseFraction t with
      | none => none
      | some (fr, r1) =>
        match parseExponent r1 with
        | none => none
        | some (ex, r2) => some (c :: fr ++ ex, r2)
    else if 49 ≤ c.toNat ∧ c.toNat ≤ 57 then
      match parseFraction (spanDigits t).2 with
      | none => none
      | some (fr, r1) =>
        match parseExponent r1 with
        | none => none
        | some (ex, r2) => some (c :: (spanDigits t).1 ++ fr ++ ex, r2)
    else none

/-- A number literal at the front of the input: its text and the rest. -/
def parseNumber : Bytes → Option (Bytes × Bytes)
  | [] => none
  | c :: t =>
    if c = 45 then
      match parseUnsigned t with
      | none => none
      | some (lit, rest) => some (c :: lit, rest)
    else parseUnsigned (c :: t)

/-- The input after the given literal text, `none` when it does not start with it. -/
def expect : Bytes → Bytes → Option Bytes
  | [], input => some input
  | _ :: _, [] => none
  | l :: lit, c :: t => if l = c then expect lit t else none

/-- The elements of an array from the first one on, up to the closing bracket; `value` reads
one value. The first argument bounds the number of elements. -/
def parseElements (value : Bytes → Option (JSON × Bytes)) :
    Nat → Bytes → Option (List JSON × Bytes)
  | 0, _ => none
  | n + 1, input =>
    match value input with
    | none => none
    | some (x, rest) =>
      match skipSpace rest with
      | [] => none
      | c :: t =>
        if c = 44 then
          match parseElements value n t with
          | none => none
          | some (xs, rest') => some (x :: xs, rest')
        else if c = 93 then some ([x], t)
        else none

/-- The members of an object from the first key on, up to the closing brace; `value` reads
one value. The first argument bounds the number of members. -/
def parseMembers (value : Bytes → Option (JSON × Bytes)) :
    Nat → Bytes → Option (List (Bytes × JSON) × Bytes)
  | 0, _ => none
  | n + 1, input =>
    match skipSpace input with
    | [] => none
    | q :: t =>
      if q = 34 then
        match parseString (t.length + 1) t [] with
        | none => none
        | some (key, rest) =>
          match skipSpace rest with
          | [] => none
          | c :: t1 =>
            if c = 58 then
              match value t1 with
              | none => none
              | some (v, rest1) =>
                match skipSpace rest1 with
                | [] => none
                | c2 :: t2 =>
                  if c2 = 44 then
                    match parseMembers value n t2 with
                    | none => none
                    | some (kvs, rest2) => some ((key, v) :: kvs, rest2)
                  else if c2 = 125 then some ([(key, v)], t2)
                  else none
            else none
      else none

/-- A JSON value at the front of the input, after optional white space: the tree and the
rest of the input, `none` for a syntax error. The grammar is the one the scanner of
encoding/json accepts; its limit on the depth of nesting (10000 levels) is not modelled. The
first argument bounds the depth of nesting; the elements of an array and the members of an
object are bounded by the length of the input. -/
def parseValue : Nat → Bytes → Option (JSON × Bytes)
  | 0, _ => none
  | fuel + 1, input =>
    match skipSpace input with
    | [] => none
    | c :: t =>
      if c = 123 then
        match skipSpace t with
        | [] => none
        | c' :: t' =>
          if c' = 125 then some (JSON.obj [], t')
          else
            match parseMembers (parseValue fuel) (c' :: t').length (c' :: t') with
            | none => none
            | some (kvs, rest) => some (JSON.obj kvs, rest)
      else if c = 91 then
        match skipSpace t with
        | [] => none
        | c' :: t' =>
          if c' = 93 then some (JSON.arr [], t')
          else
            match parseElements (parseValue fuel) (c' :: t').length (c' :: t') with
            | none => none
            | some (xs, rest) => some (JSON.arr xs, rest)
      else if c = 34 then
        match parseString (t.length + 1) t [] with
        | none => none
        | some (s, rest) => some (JSON.str s, rest)
      else if c = 116 then (expect (str "rue") t).map (fun rest => (JSON.bool true, rest))
      else if c = 102 then (expect (str "alse") t).map (fun rest => (JSON.bool false, rest))
      else if c = 110 then (expect (str "ull") t).map (fun rest => (JSON.null, rest))
      else
        match parseNumber (c :: t) with
        | none => none
        | some (lit, rest) => some (JSON.num lit, rest)

/-- The whole input as one JSON value with white space around it, as `checkValid` of
encoding/json demands; `none` for a syntax error. A text cannot nest deeper than it is
long. -/
def parseJSON (data : Bytes) : Option JSON :=
  match parseValue (data.length + 1) data with
  | none => none
  | some (v, rest) => if skipSpace rest = [] then some v else none

/-! ## encoding/json: writing -/

/-- The digit `hex[n]` of encode.go. -/
def hexDigit (n : Nat) : UInt8 :=
  if n < 10 then UInt8.ofNat (48 + n) else UInt8.ofNat (87 + n)

/-- The table `htmlSafeSet` of encoding/json: the ASCII bytes that are written as they are,
all from the blank on but the double quote, the backslash, `&`, `<` and `>`. -/
def htmlSafe (b : UInt8) : Bool :=
  decide (32 ≤ b.toNat) && !(b = 34 || b = 92 || b = 38 || b = 60 || b = 62)

/-- The loop of `appendString` of encode.go (as in Go 1.22) with HTML escaping, as
`json.Marshal` uses it: the text between the quotes for the rest `s` of the string. The first
argument bounds the number of rounds; the length of `s` is enough. -/
def escapeString : Nat → Bytes → Bytes
  | 0, _ => []
  | fuel + 1, s =>
    match s with
    | [] => []
    | b :: t =>
      if b.toNat < RuneSelf then
        if htmlSafe b then b :: escapeString fuel t
        else if b = 92 ∨ b = 34 then 92 :: b :: escapeString fuel t
        else if b = 8 then 92 :: 98 :: escapeString fuel t
        else if b = 12 then 92 :: 102 :: escapeString fuel t
        else if b = 10 then 92 :: 110 :: escapeString fuel t
        else if b = 13 then 92 :: 114 :: escapeString fuel t
        else if b = 9 then 92 :: 116 :: escapeString fuel t
        else
          92 :: 117 :: 48 :: 48 :: hexDigit (b.toNat / 16) :: hexDigit (b.toNat % 16)
            :: escapeString fuel t
      else
        let d := DecodeRuneInString s
        if d.1 = RuneError ∧ d.2 = 1 then
          str "\\ufffd" ++ escapeString fuel (s.drop d.2)
        else if d.1 = 0x2028 ∨ d.1 = 0x2029 then
          str "\\u202" ++ hexDigit (d.1 % 16) :: escapeString fuel (s.drop d.2)
        else s.take d.2 ++ escapeString fuel (s.drop d.2)

/-- A Go string as a JSON string literal (`appendString`). -/
def quote (s : Bytes) : Bytes := 34 :: escapeString s.length s ++ [34]

/-- The texts joined by commas. -/
def joinComma : List Bytes → Bytes
  | [] => []
  | [x] => x
  | x :: y :: rest => x ++ 44 :: joinComma (y :: rest)

/-- A member `"key":value` of an object. -/
def member (key value : Bytes) : Bytes := quote key ++ 58 :: value

/-- A string field with the option `omitempty`: left out when the string is empty. -/
def stringField (key s : Bytes) : List Bytes :=
  if s = [] then [] else [member key (quote s)]

/-! ## server.go -/

/-- The struct `PublicIP` of server.go. -/
structure PublicIP where
  ID : Bytes
  Dynamic : Bool
  Address : Bytes
deriving DecidableEq, Repr

/-- The struct `Server` of server.go. A slice is the list of its elements: the nil slice and
the empty slice are both `[]`. -/
structure Server where
  ID : Bytes
  Name : Bytes
  Organization : Bytes
  CreationDate : Bytes
  ModificationDate : Bytes
  Arch : Bytes
  PublicIP : PublicIP
  State : Bytes
  Tags : List Bytes
deriving DecidableEq, Repr

/-- The struct `ServerResponse` of server.go. -/
structure ServerResponse where
  Server : Server
deriving DecidableEq, Repr

/-- The struct `ServersResponse` of server.go. -/
structure ServersResponse where
  Servers : List Server
deriving DecidableEq, Repr

/-- The zero value of `PublicIP`. -/
def PublicIP.zero : PublicIP := { ID := [], Dynamic := false, Address := [] }

/-- The zero value of `Server`. -/
def Server.zero : Server :=
  { ID := [], Name := [], Organization := [], CreationDate := [], ModificationDate := [],
    Arch := [], PublicIP := PublicIP.zero, State := [], Tags := [] }

/-- The zero value of `ServerResponse`. -/
def ServerResponse.zero : ServerResponse := { Server := Server.zero }

/-- The zero value of `ServersResponse`. -/
def ServersResponse.zero : ServersResponse := { Servers := [] }

/-- `json.Marshal` of a `PublicIP`, by the field tags of server.go lines 24-26: every field
has `omitempty`. -/
def marshalPublicIP (p : PublicIP) : Bytes :=
  123 :: joinComma (stringField (str "id") p.ID
    ++ (if p.Dynamic then [member (str "dynamic") (str "true")] else [])
    ++ stringField (str "address") p.Address) ++ [125]

/-- `json.Marshal` of a slice of strings that is not empty. -/
def marshalStrings (xs : List Bytes) : Bytes := 91 :: joinComma (xs.map quote) ++ [93]

/-- `json.Marshal` of a `Server`, by the field tags of server.go lines 31-39: `omitempty`
leaves out an empty string and an empty slice, and never a struct. -/
def marshalServer (s : Server) : Bytes :=
  123 :: joinComma (stringField (str "id") s.ID
    ++ stringField (str "name") s.Name
    ++ stringField (str "organization") s.Organization
    ++ stringField (str "creation_date") s.CreationDate
    ++ stringField (str "modification_date") s.ModificationDate
    ++ stringField (str "arch") s.Arch
    ++ [member (str "public_ip") (marshalPublicIP s.PublicIP)]
    ++ stringField (str "state") s.State
    ++ (if s.Tags = [] then [] else [member (str "tags") (marshalStrings s.Tags)])) ++ [125]

/-- `json.Marshal` of a `ServerResponse`, by the field tag of server.go line 44. -/
def marshalServerResponse (r : ServerResponse) : Bytes :=
  123 :: member (str "server") (marshalServer r.Server) ++ [125]

/-! ## encoding/json: decoding into the structs of server.go -/

/-- The error of `json.Unmarshal` for a text that is not JSON. The texts of the errors of
encoding/json are not modelled: there is one error for each kind. -/
def syntaxError : GoError := ⟨str "json: syntax error"⟩

/-- The error of `json.Unmarshal` for a JSON value that does not fit the Go type. -/
def typeError : GoError := ⟨str "json: cannot unmarshal value into Go value"⟩

/-- The method `saveError` of decode.go: the earliest error is the one reported. -/
def saveError (saved : Option GoError) (err : GoError) : Option GoError :=
  match saved with
  | some e => some e
  | none => some err

/-- The folding of a key for the match that ignores case (`foldName`): ASCII letters in upper
case, the long s (U+017F) as `S` and the Kelvin sign (U+212A) as `K`; the folding of other
runes above ASCII is not modelled, they are kept, which is enough against the ASCII names of
the fields. The first argument bounds the number of rounds. -/
def foldName : Nat → Bytes → Bytes
  | 0, _ => []
  | fuel + 1, s =>
    match s with
    | [] => []
    | c :: t =>
      if c.toNat < RuneSelf then
        (if 97 ≤ c.toNat ∧ c.toNat ≤ 122 then UInt8.ofNat (c.toNat - 32) else c)
          :: foldName fuel t
      else
        let d := DecodeRuneInString s
        (if d.1 = 0x17F then [83] else if d.1 = 0x212A then [75] else EncodeRune d.1)
          ++ foldName fuel (s.drop d.2)

/-- The field a key of an object stands for: the index, among the JSON names of the struct's
fields, of the name equal to the key, or else of the first name equal to it when case is
ignored. -/
def fieldIndex (names : List Bytes) (key : Bytes) : Option Nat :=
  match names.indexOf? key with
  | some i => some i
  | none =>
    (names.map (fun n => foldName n.length n)).indexOf? (foldName key.length key)

/-- Decoding a JSON value into a Go string that holds `cur`: a string is stored, `null`
changes nothing, any other value is a type error and changes nothing. -/
def decodeString (v : JSON) (cur : Bytes) (saved : Option GoError) :
    Bytes × Option GoError :=
  match v with
  | JSON.str s => (s, saved)
  | JSON.null => (cur, saved)
  | _ => (cur, saveError saved typeError)

/-- Decoding a JSON value into a Go bool that holds `cur`. -/
def decodeBool (v : JSON) (cur : Bool) (saved : Option GoError) : Bool × Option GoError :=
  match v with
  | JSON.bool b => (b, saved)
  | JSON.null => (cur, saved)
  | _ => (cur, saveError saved typeError)

/-- The elements of a JSON array decoded one by one into the elements of a slice: `mem` is
the array behind the slice from the element for the next value on, as far as it was written
before; an element beyond it starts from the zero value. -/
def decodeElements {α : Type} (zero : α)
    (decode : JSON → α → Option GoError → α × Option GoError) :
    List JSON → List α → Option GoError → List α × Option GoError
  | [], _, saved => ([], saved)
  | x :: xs, mem, saved =>
    let r := decode x (mem.headD zero) saved
    let rest := decodeElements zero decode xs mem.tail r.2
    (r.1 :: rest.1, rest.2)

/-- A slice while it is decoded into: its elements and, in `spare`, the elements of the array
behind it beyond its length, which an earlier longer value of the slice has left there. -/
structure Slice (α : Type) where
  elems : List α
  spare : List α

/-- Decoding a JSON value into a slice: an array is decoded element by element into the array
behind the slice, and the slice gets the length of the array, a fresh empty slice for the
empty array; `null` makes the slice nil; any other value is a type error. -/
def decodeSlice {α : Type} (zero : α)
    (decode : JSON → α → Option GoError → α × Option GoError)
    (v : JSON) (cur : Slice α) (saved : Option GoError) : Slice α × Option GoError :=
  match v with
  | JSON.arr [] => ({ elems := [], spare := [] }, saved)
  | JSON.arr xs =>
    let r := decodeElements zero decode xs (cur.elems ++ cur.spare) saved
    ({ elems := r.1, spare := (cur.elems ++ cur.spare).drop xs.length }, r.2)
  | JSON.null => ({ elems := [], spare := [] }, saved)
  | _ => (cur, saveError saved typeError)

/-- The members of a JSON object decoded in their order into a struct: `field i v` decodes the
value `v` into the field with index `i`; a key that names no field is skipped. -/
def decodeMembers {σ : Type} (names : List Bytes)
    (field : Nat → JSON → σ → Option GoError → σ × Option GoError) :
    List (Bytes × JSON) → σ → Option GoError → σ × Option GoError
  | [], cur, saved => (cur, saved)
  | (key, v) :: kvs, cur, saved =>
    match fieldIndex names key with
    | some i =>
      let r := field i v cur saved
      decodeMembers names field kvs r.1 r.2
    | none => decodeMembers names field kvs cur saved

/-- Decoding a JSON value into a struct: an object is decoded member by member, `null` changes
nothing, any other value is a type error and changes nothing. -/
def decodeStruct {σ : Type} (names : List Bytes)
    (field : Nat → JSON → σ → Option GoError → σ × Option GoError)
    (v : JSON) (cur : σ) (saved : Option GoError) : σ × Option GoError :=
  match v with
  | JSON.obj kvs => decodeMembers names field kvs cur saved
  | JSON.null => (cur, saved)
  | _ => (cur, saveError saved typeError)

/-- The JSON names of the fields of `PublicIP`, server.go lines 24-26. -/
def publicIPNames : List Bytes := [str "id", str "dynamic", str "address"]

/-- Decoding into the field of `PublicIP` with the given index. -/
def publicIPField (i : Nat) (v : JSON) (cur : PublicIP) (saved : Option GoError) :
    PublicIP × Option GoError :=
  match i with
  | 0 => let r := decodeString v cur.ID saved; ({ cur with ID := r.1 }, r.2)
  | 1 => let r := decodeBool v cur.Dynamic saved; ({ cur with Dynamic := r.1 }, r.2)
  | _ => let r := decodeString v cur.Address saved; ({ cur with Address := r.1 }, r.2)

/-- A `Server` while it is decoded into: the struct and what the array behind `Tags` holds
beyond the length of the slice. -/
structure ServerCell where
  server : Server
  spareTags : List Bytes

/-- The cell of a zero `Server`. -/
def ServerCell.zero : ServerCell := { server := Server.zero, spareTags := [] }

/-- The JSON names of the fields of `Server`, server.go lines 31-39. -/
def serverNames : List Bytes :=
  [str "id", str "name", str "organization", str "creation_date", str "modification_date",
    str "arch", str "public_ip", str "state", str "tags"]

/-- Decoding into the field of `Server` with the given index. -/
def serverField (i : Nat) (v : JSON) (cur : ServerCell) (saved : Option GoError) :
    ServerCell × Option GoError :=
  let s := cur.server
  match i with
  | 0 => let r := decodeString v s.ID saved; ({ cur with server := { s with ID := r.1 } }, r.2)
  | 1 =>
    let r := decodeString v s.Name saved
    ({ cur with server := { s with Name := r.1 } }, r.2)
  | 2 =>
    let r := decodeString v s.Organization saved
    ({ cur with server := { s with Organization := r.1 } }, r.2)
  | 3 =>
    let r := decodeString v s.CreationDate saved
    ({ cur with server := { s with CreationDate := r.1 } }, r.2)
  | 4 =>
    let r := decodeString v s.ModificationDate saved
    ({ cur with server := { s with ModificationDate := r.1 } }, r.2)
  | 5 =>
    let r := decodeString v s.Arch saved
    ({ cur with server := { s with Arch := r.1 } }, r.2)
  | 6 =>
    let r := decodeStruct publicIPNames publicIPField v s.PublicIP saved
    ({ cur with server := { s with PublicIP := r.1 } }, r.2)
  | 7 =>
    let r := decodeString v s.State saved
    ({ cur with server := { s with State := r.1 } }, r.2)
  | _ =>
    let r := decodeSlice [] decodeString v { elems := s.Tags, spare := cur.spareTags } saved
    ({ server := { s with Tags := r.1.elems }, spareTags := r.1.spare }, r.2)

/-- Decoding a JSON value into a `Server`. -/
def decodeServer (v : JSON) (cur : ServerCell) (saved : Option GoError) :
    ServerCell × Option GoError :=
  decodeStruct serverNames serverField v cur saved

/-- `json.Unmarshal(b, &response)` for a zero `ServerResponse`: the value of `response`
afterwards and the error. A text that is not JSON leaves `response` as it is. -/
def unmarshalServerResponse (b : Bytes) : ServerResponse × Option GoError :=
  match parseJSON b with
  | none => (ServerResponse.zero, some syntaxError)
  | some v =>
    let r := decodeStruct [str "server"] (fun _ v cur saved => decodeServer v cur saved) v
      ServerCell.zero none
    ({ Server := r.1.server }, r.2)

/-- `json.Unmarshal(b, &response)` for a zero `ServersResponse`; the field has no tag, its
JSON name is `Servers`. -/
def unmarshalServersResponse (b : Bytes) : ServersResponse × Option GoError :=
  match parseJSON b with
  | none => (ServersResponse.zero, some syntaxError)
  | some v =>
    let r := decodeStruct [str "Servers"]
      (fun _ v cur saved => decodeSlice ServerCell.zero decodeServer v cur saved) v
      { elems := [], spare := [] } none
    ({ Servers := r.1.elems.map (fun c => c.server) }, r.2)

/-- The function `GetServerFromJSON` of server.go, lines 53-61. -/
def GetServerFromJSON (b : Bytes) : Option ServerResponse × Option GoError :=
  let r := unmarshalServerResponse b
  match r.2 with
  | some err => (none, some err)
  | none => (some r.1, none)

/-- The function `GetServersFromJSON` of server.go, lines 64-71. -/
def GetServersFromJSON (b : Bytes) : Option ServersResponse × Option GoError :=
  let r := unmarshalServersResponse b
  match r.2 with
  | some err => (none, some err)
  | none => (some r.1, none)

/-! ## Predicates of the statements and of their proofs -/

/-- The request a helper builds for verb, URL and body, as the transport receives it. -/
def built (verb url : Bytes) (body : Option Bytes) (token : Bytes) : Request :=
  withAuth { Method := verb, URL := url, Header := [], Body := body } token

/-- The call went from network record `net` to `net'` by exactly one request, of the given
verb, URL and body. -/
def IssuesOne (net net' : Net) (verb url : Bytes) (body : Option Bytes) : Prop :=
  ∃ req : Request, net' = net ++ [req] ∧ req.Method = verb ∧ req.URL = url ∧ req.Body = body

/-- The call went from network record `net` to `net'` as the endpoint table says: when the URL
parses, by exactly one request, of the given verb and URL; when it does not, by none. -/
def Calls (env : Env) (net net' : Net) (verb url : Bytes) : Prop :=
  (env.parseURL url = none →
      ∃ req : Request, net' = net ++ [req] ∧ req.Method = verb ∧ req.URL = url)
    ∧ (env.parseURL url ≠ none → net' = net)

/-- The shape of a decoding: what `DecodeRuneInString` returned and from which bytes. -/
inductive Decoded : Bytes → Nat → Nat → Prop
  | empty : Decoded [] RuneError 0
  | ascii (c0 : UInt8) (t : Bytes) : c0.toNat < 0x80 → Decoded (c0 :: t) c0.toNat 1
  | invalid (c0 : UInt8) (t : Bytes) : 0x80 ≤ c0.toNat → Decoded (c0 :: t) RuneError 1
  | two (c0 c1 : UInt8) (t : Bytes) : 0xC2 ≤ c0.toNat → c0.toNat < 0xE0 →
      0x80 ≤ c1.toNat → c1.toNat ≤ 0xBF →
      Decoded (c0 :: c1 :: t) (c0.toNat % 32 * 64 + c1.toNat % 64) 2
  | three (c0 c1 c2 : UInt8) (t : Bytes) : 0xE0 ≤ c0.toNat → c0.toNat < 0xF0 →
      0x80 ≤ c1.toNat → c1.toNat ≤ 0xBF → (c0.toNat = 0xE0 → 0xA0 ≤ c1.toNat) →
      (c0.toNat = 0xED → c1.toNat ≤ 0x9F) → 0x80 ≤ c2.toNat → c2.toNat ≤ 0xBF →
      Decoded (c0 :: c1 :: c2 :: t) (c0.toNat % 16 * 4096 + c1.toNat % 64 * 64 + c2.toNat % 64) 3
  | four (c0 c1 c2 c3 : UInt8) (t : Bytes) : 0xF0 ≤ c0.toNat → c0.toNat ≤ 0xF4 →
      0x80 ≤ c1.toNat → c1.toNat ≤ 0xBF → (c0.toNat = 0xF0 → 0x90 ≤ c1.toNat) →
      (c0.toNat = 0xF4 → c1.toNat ≤ 0x8F) → 0x80 ≤ c2.toNat → c2.toNat ≤ 0xBF →
      0x80 ≤ c3.toNat → c3.toNat ≤ 0xBF →
      Decoded (c0 :: c1 :: c2 :: c3 :: t)
        (c0.toNat % 8 * 262144 + c1.toNat % 64 * 4096 + c2.toNat % 64 * 64 + c3.toNat % 64) 4

/-- The bytes are the UTF-8 encoding of a sequence of white space runes. -/
def SpaceText (bs : Bytes) : Prop :=
  ∃ rs : List Nat, (∀ r ∈ rs, IsSpace r = true) ∧ bs = rs.flatMap EncodeRune

/-- The bytes are read by `parseValue` as the tree `v`, whatever follows them, with fuel from
their length on. -/
def Reads (bytes : Bytes) (v : JSON) : Prop :=
  ∀ (fuel : Nat) (rest : Bytes), bytes.length ≤ fuel →
    parseValue fuel (bytes ++ rest) = some (v, rest)

/-- The bytes start with a byte that is neither white space nor a closing bracket. -/
def StartsValue (bytes : Bytes) : Prop :=
  ∃ c t, bytes = c :: t ∧ isSpaceJSON c = false ∧ c ≠ 93

/-- A member of an object as it is written and read: the key, the text of the value and the
tree of the value. -/
abbrev Entry := Bytes × Bytes × JSON

/-- The text of an entry. -/
def Entry.text (m : Entry) : Bytes := member m.1 m.2.1

/-- The key and tree of an entry. -/
def Entry.tree (m : Entry) : Bytes × JSON := (m.1, m.2.2)

/-- The entry of a string field with `omitempty`. -/
def stringEntry (key s : Bytes) : List Entry :=
  if s = [] then [] else [(key, quote s, JSON.str s)]

/-- The entries of a `PublicIP`. -/
def publicIPEntries (p : PublicIP) : List Entry :=
  stringEntry (str "id") p.ID
    ++ (if p.Dynamic then [(str "dynamic", str "true", JSON.bool true)] else [])
    ++ stringEntry (str "address") p.Address

/-- The tree of a `PublicIP`. -/
def publicIPTree (p : PublicIP) : JSON := JSON.obj ((publicIPEntries p).map Entry.tree)

/-- The entries of a `Server`. -/
def serverEntries (s : Server) : List Entry :=
  stringEntry (str "id") s.ID
    ++ stringEntry (str "name") s.Name
    ++ stringEntry (str "organization") s.Organization
    ++ stringEntry (str "creation_date") s.CreationDate
    ++ stringEntry (str "modification_date") s.ModificationDate
    ++ stringEntry (str "arch") s.Arch
    ++ [(str "public_ip", marshalPublicIP s.PublicIP, publicIPTree s.PublicIP)]
    ++ stringEntry (str "state") s.State
    ++ (if s.Tags = [] then []
        else [(str "tags", marshalStrings s.Tags, JSON.arr (s.Tags.map JSON.str))])

/-- The tree of a `Server`. -/
def serverTree (s : Server) : JSON := JSON.obj ((serverEntries s).map Entry.tree)

/-- The tree of a `ServerResponse`. -/
def serverResponseTree (r : ServerResponse) : JSON :=
  JSON.obj [(str "server", serverTree r.Server)]

/-- The strings of a `PublicIP` are well-formed UTF-8. -/
def PublicIP.Valid (p : PublicIP) : Prop :=
  ValidString p.ID = true ∧ ValidString p.Address = true

/-- The strings of a `Server` are well-formed UTF-8. -/
def Server.Valid (s : Server) : Prop :=
  ValidString s.ID = true ∧ ValidString s.Name = true ∧ ValidString s.Organization = true
    ∧ ValidString s.CreationDate = true ∧ ValidString s.ModificationDate = true
    ∧ ValidString s.Arch = true ∧ s.PublicIP.Valid ∧ ValidString s.State = true
    ∧ ∀ t ∈ s.Tags, ValidString t = true

/-! ## Sample worlds for the concrete statements -/

/-- A world in which every URL parses and no key file can be read. -/
def noFileEnv : Env :=
  { parseURL := fun _ => none
    ReadFile := fun _ => Except.error ⟨str "open id_rsa.pub: no such file or directory"⟩ }

/-- A world in which every URL parses and every key file holds `ssh-rsa AAAA...` and a
newline. -/
def keyFileEnv : Env :=
  { parseURL := fun _ => none
    ReadFile := fun _ => Except.ok (str "ssh-rsa AAAA...\n") }

/-- A remote end that answers every request with the given status and body, the body being
read to its end. -/
def cannedClient (status : Int) (body : Bytes) : Client :=
  { Do := fun _ _ => Except.ok ⟨status, (body, none)⟩ }

/-- A remote end whose answer has status 200 and a body that breaks off after `par`: the read
returns these bytes and an error. -/
def brokenBodyClient : Client :=
  { Do := fun _ _ => Except.ok ⟨200, (str "par", some ⟨str "unexpected EOF"⟩)⟩ }

/-- A transport that never gets a response. -/
def refusedClient : Client :=
  { Do := fun _ _ => Except.error ⟨str "dial tcp: connection refused"⟩ }

/-- A result type without content, for the calls whose result is not looked at. -/
def unitDecoder : Decoder Unit :=
  { zero := (), Unmarshal := fun _ _ => ((), none) }

/-- A GET request for `/x` that already carries both headers with other values. -/
def staleRequest : Request :=
  { Method := str "GET", URL := str "/x",
    Header := [(str "X-Auth-Token", [str "old"]), (str "Content-Type", [str "text/plain"])],
    Body := none }

/-- A server with every field populated, for the concrete statements. -/
def sampleServer : ServerResponse :=
  { Server :=
    { ID := str "741db378", Name := str "box \"1\" <é>\n", Organization := str "org123",
      CreationDate := str "2015-01-01T10:00:00+00:00",
      ModificationDate := str "2015-01-02T10:00:00+00:00", Arch := str "arm",
      PublicIP := { ID := str "ip-1", Dynamic := true, Address := str "212.47.1.2" },
      State := str "running", Tags := [str "docker-machine", str ""] } }

/-- A server whose name is the single byte `0xFF`, which is not UTF-8. -/
def badNameServer : ServerResponse :=
  { Server := { Server.zero with Name := [0xFF] } }

/-! # Theorems

## Formatting -/

theorem Sprintf_status (s : Int) (b : Bytes) :
    Sprintf (str "[%d] %s") [Arg.int s, Arg.str b] = str "[" ++ itoa s ++ str "] " ++ b := by
  have h : Sprintf (str "[%d] %s") [Arg.int s, Arg.str b]
      = str "[" ++ (itoa s ++ (str "] " ++ (b ++ []))) := rfl
  rw [h, List.append_nil]
  simp only [List.append_assoc]

theorem CreateServerBody_eq (name organization image : Bytes) :
    CreateServerBody name organization image =
      str "\x7b\"name\": \"" ++ name ++ str "\", \"organization\": \"" ++ organization
        ++ str "\", \"image\": \"" ++ image ++ str "\", \"tags\": [\"docker-machine\"]\x7d" := by
  simp only [List.append_assoc]
  rfl

theorem CreateTokenBody_eq (email password : Bytes) (expires : Bool) :
    CreateTokenBody email password expires =
      str "\x7b\"email\": \"" ++ email ++ str "\", \"password\": \"" ++ password
        ++ str "\", \"expires\": " ++ (if expires then str "true" else str "false")
        ++ str "\x7d" := by
  simp only [List.append_assoc]
  cases expires <;> rfl

theorem UploadPublicKeyBody_eq (publicKey : Bytes) :
    UploadPublicKeyBody publicKey =
      str "\x7b\"ssh_public_keys\": [\x7b\"key\": \"" ++ TrimSpace publicKey ++ str "\"\x7d]\x7d" := by
  simp only [List.append_assoc]
  rfl

theorem url_servers (a : Bytes) : Sprintf (str "%s/servers") [Arg.str a] = a ++ str "/servers" :=
  rfl

theorem url_volumes (a : Bytes) : Sprintf (str "%s/volumes") [Arg.str a] = a ++ str "/volumes" :=
  rfl

theorem url_images (a : Bytes) : Sprintf (str "%s/images") [Arg.str a] = a ++ str "/images" :=
  rfl

theorem url_tokens (a : Bytes) : Sprintf (str "%s/tokens") [Arg.str a] = a ++ str "/tokens" :=
  rfl

theorem url_organizations (a : Bytes) :
    Sprintf (str "%s/organizations") [Arg.str a] = a ++ str "/organizations" :=
  rfl

theorem url_users_id (a b : Bytes) :
    Sprintf (str "%s/users/%s") [Arg.str a, Arg.str b] = a ++ str "/users/" ++ b := by
  have h : Sprintf (str "%s/users/%s") [Arg.str a, Arg.str b]
      = a ++ (str "/users/" ++ (b ++ [])) := rfl
  rw [h, List.append_nil, List.append_assoc]

theorem url_tokens_id (a b : Bytes) :
    Sprintf (str "%s/tokens/%s") [Arg.str a, Arg.str b] = a ++ str "/tokens/" ++ b := by
  have h : Sprintf (str "%s/tokens/%s") [Arg.str a, Arg.str b]
      = a ++ (str "/tokens/" ++ (b ++ [])) := rfl
  rw [h, List.append_nil, List.append_assoc]

theorem url_servers_id (a b : Bytes) :
    Sprintf (str "%s/servers/%s") [Arg.str a, Arg.str b] = a ++ str "/servers/" ++ b := by
  have h : Sprintf (str "%s/servers/%s") [Arg.str a, Arg.str b]
      = a ++ (str "/servers/" ++ (b ++ [])) := rfl
  rw [h, List.append_nil, List.append_assoc]

theorem url_volumes_id (a b : Bytes) :
    Sprintf (str "%s/volumes/%s") [Arg.str a, Arg.str b] = a ++ str "/volumes/" ++ b := by
  have h : Sprintf (str "%s/volumes/%s") [Arg.str a, Arg.str b]
      = a ++ (str "/volumes/" ++ (b ++ [])) := rfl
  rw [h, List.append_nil, List.append_assoc]

theorem url_images_id (a b : Bytes) :
    Sprintf (str "%s/images/%s") [Arg.str a, Arg.str b] = a ++ str "/images/" ++ b := by
  have h : Sprintf (str "%s/images/%s") [Arg.str a, Arg.str b]
      = a ++ (str "/images/" ++ (b ++ [])) := rfl
  rw [h, List.append_nil, List.append_assoc]

theorem url_servers_id_action (a b : Bytes) :
    Sprintf (str "%s/servers/%s/action") [Arg.str a, Arg.str b]
      = a ++ str "/servers/" ++ b ++ str "/action" := by
  simp only [List.append_assoc]
  rfl

/-! ## The request executor -/

theorem performAPIRequest_net (client : Client) (req : Request) (token : Bytes) (net : Net) :
    (performAPIRequest client req token net).2 = net ++ [withAuth req token] := by
  unfold performAPIRequest
  simp only
  split
  · rfl
  · split <;> rfl

theorem Header.lookup_Set_same (h : Header) (key value : Bytes) :
    (h.Set key value).lookup key = some [value] := by
  simp [Header.Set, Header.lookup, List.find?]

theorem Header.find_filter_ne (key key2 : Bytes) (hne : key ≠ key2) (h : Header) :
    (h.filter (fun e => decide (e.1 ≠ key))).find? (fun e => decide (e.1 = key2))
      = h.find? (fun e => decide (e.1 = key2)) := by
  induction h with
  | nil => rfl
  | cons e t ih =>
    by_cases he : e.1 = key
    · have h2 : e.1 ≠ key2 := by rw [he]; exact hne
      rw [List.filter_cons_of_neg (by simpa using he),
        List.find?_cons_of_neg _ (by simpa using h2), ih]
    · rw [List.filter_cons_of_pos (by simpa using he)]
      by_cases h2 : e.1 = key2
      · rw [List.find?_cons_of_pos _ (by simpa using h2),
          List.find?_cons_of_pos _ (by simpa using h2)]
      · rw [List.find?_cons_of_neg _ (by simpa using h2),
          List.find?_cons_of_neg _ (by simpa using h2), ih]

theorem Header.lookup_Set_other (h : Header) (key key2 value : Bytes) (hne : key ≠ key2) :
    (h.Set key value).lookup key2 = h.lookup key2 := by
  unfold Header.Set Header.lookup
  rw [List.find?_cons_of_neg _ (by simpa using hne), Header.find_filter_ne key key2 hne]

/-- C1. When the transport delivers a response with status `s` whose body was read to its end
as `b`, `performAPIRequest` returns an error exactly when `s ≥ 300`; the error then has the
text `[s] b` (the status in decimal, a blank, the body bytes unchanged) and the returned bytes
are nil; for `s < 300` it returns exactly `b` and a nil error. -/
theorem performAPIRequest_status (client : Client) (req : Request) (token : Bytes) (net : Net)
    (s : Int) (b : Bytes)
    (hdo : client.Do net (withAuth req token) = Except.ok ⟨s, (b, none)⟩) :
    ((performAPIRequest client req token net).1.2 ≠ none ↔ s ≥ 300)
    ∧ (s ≥ 300 → (performAPIRequest client req token net).1
          = (none, some ⟨str "[" ++ itoa s ++ str "] " ++ b⟩))
    ∧ (s < 300 → (performAPIRequest client req token net).1 = (some b, none)) := by
  have hge : s ≥ 300 → (performAPIRequest client req token net).1
      = (none, some ⟨str "[" ++ itoa s ++ str "] " ++ b⟩) := by
    intro hs
    have h299 : s > 299 := by omega
    simp only [performAPIRequest, hdo, h299, if_true, Errorf, Sprintf_status]
  have hlt : s < 300 → (performAPIRequest client req token net).1 = (some b, none) := by
    intro hs
    have h299 : ¬ s > 299 := by omega
    simp only [performAPIRequest, hdo, h299, if_false]
  refine ⟨⟨fun hne => ?_, fun hs => ?_⟩, hge, hlt⟩
  · by_contra hlt300
    exact hne (by rw [hlt (by omega)])
  · rw [hge hs]; simp

/-- Witness of C1: status 404 with body `not found` gives the error `[404] not found` and nil
bytes. -/
theorem performAPIRequest_status_witness :
    (cannedClient 404 (str "not found")).Do [] (withAuth staleRequest (str "tok"))
        = Except.ok ⟨404, (str "not found", none)⟩
    ∧ (performAPIRequest (cannedClient 404 (str "not found")) staleRequest (str "tok") []).1
        = (none, some ⟨str "[404] not found"⟩) :=
  ⟨rfl, by
    have h := (performAPIRequest_status (cannedClient 404 (str "not found")) staleRequest
      (str "tok") [] 404 (str "not found") rfl).2.1 (by decide)
    rw [h]; decide⟩

/-- C7. The request `performAPIRequest` hands to the transport carries `X-Auth-Token` with the
given token as its only value and `Content-Type` with the only value `application/json`,
whatever the header held before; verb, URL and body are those of the request passed in. -/
theorem performAPIRequest_headers (client : Client) (req : Request) (token : Bytes)
    (net : Net) :
    ∃ sent : Request,
      (performAPIRequest client req token net).2 = net ++ [sent]
      ∧ sent.Header.lookup (str "X-Auth-Token") = some [token]
      ∧ sent.Header.Get (str "X-Auth-Token") = token
      ∧ sent.Header.lookup (str "Content-Type") = some [str "application/json"]
      ∧ sent.Header.Get (str "Content-Type") = str "application/json"
      ∧ sent.Method = req.Method ∧ sent.URL = req.URL ∧ sent.Body = req.Body := by
  refine ⟨withAuth req token, performAPIRequest_net client req token net, ?_⟩
  have hne : str "Content-Type" ≠ str "X-Auth-Token" := by decide
  have h1 : (withAuth req token).Header.lookup (str "X-Auth-Token") = some [token] := by
    simp only [withAuth]
    rw [Header.lookup_Set_other _ _ _ _ hne, Header.lookup_Set_same]
  have h2 : (withAuth req token).Header.lookup (str "Content-Type")
      = some [str "application/json"] := by
    simp only [withAuth]
    rw [Header.lookup_Set_same]
  refine ⟨h1, ?_, h2, ?_, rfl, rfl, rfl⟩
  · simp only [Header.Get, h1]
  · simp only [Header.Get, h2]

/-- C8, the failing input. The response has status 200 and its body breaks off after `par`
with a read error: `performAPIRequest` returns the partial bytes `par` and a nil error. -/
theorem performAPIRequest_read_error_swallowed :
    brokenBodyClient.Do [] (withAuth staleRequest (str "tok"))
        = Except.ok ⟨200, (str "par", some ⟨str "unexpected EOF"⟩)⟩
    ∧ (performAPIRequest brokenBodyClient staleRequest (str "tok") []).1
        = (some (str "par"), none) := by
  exact ⟨rfl, by decide⟩

/-- The transport half of C8: when the transport fails to obtain a response,
`performAPIRequest` returns that very error and nil bytes. -/
theorem performAPIRequest_transport_error (client : Client) (req : Request) (token : Bytes)
    (net : Net) (err : GoError)
    (hdo : client.Do net (withAuth req token) = Except.error err) :
    (performAPIRequest client req token net).1 = (none, some err) := by
  simp only [performAPIRequest, hdo]

/-- Witness of the transport half of C8. -/
theorem performAPIRequest_transport_error_witness :
    (performAPIRequest refusedClient staleRequest (str "tok") []).1
      = (none, some ⟨str "dial tcp: connection refused"⟩) :=
  performAPIRequest_transport_error refusedClient staleRequest (str "tok") [] _ rfl

/-! ## The four helpers of http.go -/

theorem getAPIResource_net (env : Env) (client : Client) (token url : Bytes) (net : Net)
    (h : env.parseURL url = none) :
    (getAPIResource env client token url net).2 = net ++ [built (str "GET") url none token] := by
  simp only [getAPIResource, NewRequest, h, performAPIRequest_net, built]

theorem postAPIResource_net (env : Env) (client : Client) (token url json : Bytes) (net : Net)
    (h : env.parseURL url = none) :
    (postAPIResource env client token url json net).2
      = net ++ [built (str "POST") url (some json) token] := by
  simp only [postAPIResource, NewRequest, h, performAPIRequest_net, built]

theorem deleteAPIResource_net (env : Env) (client : Client) (token url : Bytes) (net : Net)
    (h : env.parseURL url = none) :
    (deleteAPIResource env client token url net).2
      = net ++ [built (str "DELETE") url none token] := by
  simp only [deleteAPIResource, NewRequest, h, performAPIRequest_net, built]

theorem patchAPIResource_net (env : Env) (client : Client) (token url json : Bytes) (net : Net)
    (h : env.parseURL url = none) :
    (patchAPIResource env client token url json net).2
      = net ++ [built (str "PATCH") url (some json) token] := by
  simp only [patchAPIResource, NewRequest, h, performAPIRequest_net, built]

theorem getAPIResource_unbuilt (env : Env) (client : Client) (token url : Bytes) (net : Net)
    (err : GoError) (h : env.parseURL url = some err) :
    getAPIResource env client token url net = ((none, some err), net) := by
  simp only [getAPIResource, NewRequest, h]

theorem postAPIResource_unbuilt (env : Env) (client : Client) (token url json : Bytes)
    (net : Net) (err : GoError) (h : env.parseURL url = some err) :
    postAPIResource env client token url json net = ((none, some err), net) := by
  simp only [postAPIResource, NewRequest, h]

theorem deleteAPIResource_unbuilt (env : Env) (client : Client) (token url : Bytes) (net : Net)
    (err : GoError) (h : env.parseURL url = some err) :
    deleteAPIResource env client token url net = ((none, some err), net) := by
  simp only [deleteAPIResource, NewRequest, h]

theorem patchAPIResource_unbuilt (env : Env) (client : Client) (token url json : Bytes)
    (net : Net) (err : GoError) (h : env.parseURL url = some err) :
    patchAPIResource env client token url json net = ((none, some err), net) := by
  simp only [patchAPIResource, NewRequest, h]

theorem built_fields (verb url : Bytes) (body : Option Bytes) (token : Bytes) :
    (built verb url body token).Method = verb ∧ (built verb url body token).URL = url
      ∧ (built verb url body token).Body = body :=
  ⟨rfl, rfl, rfl⟩

/-! ## The resource client -/

theorem IssuesOne_built (net : Net) (verb url : Bytes) (body : Option Bytes) (token : Bytes) :
    IssuesOne net (net ++ [built verb url body token]) verb url body :=
  ⟨_, rfl, rfl, rfl, rfl⟩

/-- Counterexample to C2 as stated: for the example of the spec, `("box","org123","img456")`,
the body of the request `CreateServer` issues is not the compact text without blanks. -/
theorem CreateServer_compact_body_differs :
    ((NewClient (cannedClient 200 (str "\x7b\x7d")) (str "u") (str "tok") (str "org123")).CreateServer
        noFileEnv unitDecoder (str "box") (str "org123") (str "img456") []).2.map
        (fun r => r.Body)
      ≠ [some (str
        "\x7b\"name\":\"box\",\"organization\":\"org123\",\"image\":\"img456\",\"tags\":[\"docker-machine\"]\x7d")] := by
  decide

/-- C2, amended. `CreateServer` builds the body from the format of the source, which puts one
blank after every colon and comma, and inserts the three arguments as they are; when the URL
`ComputeURL + "/servers"` parses, exactly one request is issued, a POST to that URL with this
body. For `("box","org123","img456")` the body is
`{"name": "box", "organization": "org123", "image": "img456", "tags": ["docker-machine"]}`. -/
theorem CreateServer_request {R : Type} (c : OnlineLabsClient) (env : Env) (dec : Decoder R)
    (name organization image : Bytes) (net : Net)
    (hurl : env.parseURL (c.ComputeURL ++ str "/servers") = none) :
    IssuesOne net (c.CreateServer env dec name organization image net).2 (str "POST")
        (c.ComputeURL ++ str "/servers")
        (some (str "\x7b\"name\": \"" ++ name ++ str "\", \"organization\": \"" ++ organization
          ++ str "\", \"image\": \"" ++ image ++ str "\", \"tags\": [\"docker-machine\"]\x7d"))
    ∧ CreateServerBody (str "box") (str "org123") (str "img456") = str
        "\x7b\"name\": \"box\", \"organization\": \"org123\", \"image\": \"img456\", \"tags\": [\"docker-machine\"]\x7d" := by
  constructor
  · simp only [OnlineLabsClient.CreateServer, url_servers]
    rw [postAPIResource_net _ _ _ _ _ _ hurl, CreateServerBody_eq]
    exact IssuesOne_built _ _ _ _ _
  · decide

/-- Witness of C2: the call of the spec's example against a server that answers 200. -/
theorem CreateServer_request_witness :
    IssuesOne []
      ((NewClient (cannedClient 200 (str "\x7b\x7d")) (str "u") (str "tok") (str "org123")).CreateServer
        noFileEnv unitDecoder (str "box") (str "org123") (str "img456") []).2
      (str "POST") (str "https://api.cloud.online.net/servers")
      (some (str
        "\x7b\"name\": \"box\", \"organization\": \"org123\", \"image\": \"img456\", \"tags\": [\"docker-machine\"]\x7d")) :=
  (CreateServer_request (NewClient (cannedClient 200 (str "\x7b\x7d")) (str "u") (str "tok")
    (str "org123")) noFileEnv unitDecoder (str "box") (str "org123") (str "img456") [] rfl).1

/-- Counterexample to C3 as stated: for the example of the spec, `("a@b.com","pw",true)`, the
body of the request `CreateToken` issues is not the compact text without blanks. -/
theorem CreateToken_compact_body_differs :
    ((NewClient (cannedClient 200 (str "\x7b\x7d")) (str "u") (str "tok") (str "org123")).CreateToken
        noFileEnv unitDecoder (str "a@b.com") (str "pw") true []).2.map (fun r => r.Body)
      ≠ [some (str "\x7b\"email\":\"a@b.com\",\"password\":\"pw\",\"expires\":true\x7d")] := by
  decide

/-- C3, amended. `CreateToken` builds the body from the format of the source, which puts one
blank after every colon and comma, inserts email and password as they are and renders
`expires` as `true` or `false`; when the URL `AccountURL + "/tokens"` parses, exactly one
request is issued, a POST to that URL with this body. For `("a@b.com","pw",true)` the body is
`{"email": "a@b.com", "password": "pw", "expires": true}`. -/
theorem CreateToken_request {R : Type} (c : OnlineLabsClient) (env : Env) (dec : Decoder R)
    (email password : Bytes) (expires : Bool) (net : Net)
    (hurl : env.parseURL (c.AccountURL ++ str "/tokens") = none) :
    IssuesOne net (c.CreateToken env dec email password expires net).2 (str "POST")
        (c.AccountURL ++ str "/tokens")
        (some (str "\x7b\"email\": \"" ++ email ++ str "\", \"password\": \"" ++ password
          ++ str "\", \"expires\": " ++ (if expires then str "true" else str "false")
          ++ str "\x7d"))
    ∧ CreateTokenBody (str "a@b.com") (str "pw") true
        = str "\x7b\"email\": \"a@b.com\", \"password\": \"pw\", \"expires\": true\x7d" := by
  constructor
  · simp only [OnlineLabsClient.CreateToken, url_tokens]
    rw [postAPIResource_net _ _ _ _ _ _ hurl, CreateTokenBody_eq]
    exact IssuesOne_built _ _ _ _ _
  · decide

/-- Witness of C3: the call of the spec's example against a server that answers 200. -/
theorem CreateToken_request_witness :
    IssuesOne []
      ((NewClient (cannedClient 200 (str "\x7b\x7d")) (str "u") (str "tok") (str "org123")).CreateToken
        noFileEnv unitDecoder (str "a@b.com") (str "pw") true []).2
      (str "POST") (str "https://account.cloud.online.net/tokens")
      (some (str "\x7b\"email\": \"a@b.com\", \"password\": \"pw\", \"expires\": true\x7d")) :=
  (CreateToken_request (NewClient (cannedClient 200 (str "\x7b\x7d")) (str "u") (str "tok")
    (str "org123")) noFileEnv unitDecoder (str "a@b.com") (str "pw") true [] rfl).1

/-- C5. When reading the key file fails, `UploadPublicKey` returns the zero-valued result with
that read error and the network record is unchanged: no request was built or executed. -/
theorem UploadPublicKey_read_error {R : Type} (c : OnlineLabsClient) (env : Env)
    (dec : Decoder R) (userid keyPath : Bytes) (net : Net) (err : GoError)
    (hread : env.ReadFile keyPath = Except.error err) :
    c.UploadPublicKey env dec userid keyPath net = ((dec.zero, some err), net) := by
  simp only [OnlineLabsClient.UploadPublicKey, hread]

/-- Witness of C5: a path without a file, on a fresh network record. -/
theorem UploadPublicKey_read_error_witness :
    (NewClient (cannedClient 200 (str "\x7b\x7d")) (str "u") (str "tok") (str "o")).UploadPublicKey
        noFileEnv unitDecoder (str "u") (str "/nonexistent") []
      = (((), some ⟨str "open id_rsa.pub: no such file or directory"⟩), []) :=
  UploadPublicKey_read_error _ noFileEnv unitDecoder (str "u") (str "/nonexistent") [] _ rfl

theorem getAPIResource_calls (env : Env) (client : Client) (token url : Bytes) (net : Net) :
    Calls env net (getAPIResource env client token url net).2 (str "GET") url := by
  refine ⟨fun h => ⟨_, getAPIResource_net env client token url net h, rfl, rfl⟩, fun h => ?_⟩
  cases hp : env.parseURL url with
  | none => exact absurd hp h
  | some err => rw [getAPIResource_unbuilt env client token url net err hp]

theorem postAPIResource_calls (env : Env) (client : Client) (token url json : Bytes)
    (net : Net) :
    Calls env net (postAPIResource env client token url json net).2 (str "POST") url := by
  refine ⟨fun h => ⟨_, postAPIResource_net env client token url json net h, rfl, rfl⟩,
    fun h => ?_⟩
  cases hp : env.parseURL url with
  | none => exact absurd hp h
  | some err => rw [postAPIResource_unbuilt env client token url json net err hp]

theorem deleteAPIResource_calls (env : Env) (client : Client) (token url : Bytes) (net : Net) :
    Calls env net (deleteAPIResource env client token url net).2 (str "DELETE") url := by
  refine ⟨fun h => ⟨_, deleteAPIResource_net env client token url net h, rfl, rfl⟩,
    fun h => ?_⟩
  cases hp : env.parseURL url with
  | none => exact absurd hp h
  | some err => rw [deleteAPIResource_unbuilt env client token url net err hp]

theorem patchAPIResource_calls (env : Env) (client : Client) (token url json : Bytes)
    (net : Net) :
    Calls env net (patchAPIResource env client token url json net).2 (str "PATCH") url := by
  refine ⟨fun h => ⟨_, patchAPIResource_net env client token url json net h, rfl, rfl⟩,
    fun h => ?_⟩
  cases hp : env.parseURL url with
  | none => exact absurd hp h
  | some err => rw [patchAPIResource_unbuilt env client token url json net err hp]

/-- Counterexample to C6 as stated: `UploadPublicKey` on a key file that cannot be read leaves
the network record empty, so this method does not issue exactly one request. -/
theorem UploadPublicKey_issues_none :
    ((NewClient (cannedClient 200 (str "\x7b\x7d")) (str "u") (str "tok") (str "o")).UploadPublicKey
        noFileEnv unitDecoder (str "u") (str "id_rsa.pub") []).2 = []
    ∧ ¬ ∃ req : Request,
        ((NewClient (cannedClient 200 (str "\x7b\x7d")) (str "u") (str "tok")
          (str "o")).UploadPublicKey noFileEnv unitDecoder (str "u") (str "id_rsa.pub") []).2
          = [] ++ [req] := by
  have h : ((NewClient (cannedClient 200 (str "\x7b\x7d")) (str "u") (str "tok")
      (str "o")).UploadPublicKey noFileEnv unitDecoder (str "u") (str "id_rsa.pub") []).2 = [] :=
    rfl
  refine ⟨h, ?_⟩
  rintro ⟨req, hreq⟩
  rw [h] at hreq
  simp at hreq

/-- C6, amended. Every resource method issues exactly one request whenever its request can be
built, that is when the URL parses and, for `UploadPublicKey`, the key file was read, and none
when the URL does not parse; verb and URL follow the endpoint table, with the account base for
user, organization and token operations and the compute base for server, volume and image
operations, the identifier inserted unchanged. -/
theorem endpoint_table {R : Type} (c : OnlineLabsClient) (env : Env) (dec : Decoder R)
    (id x y z : Bytes) (flag : Bool) (size : Int) (net : Net) :
    Calls env net (c.GetUserInformations env dec id net).2 (str "GET")
        (c.AccountURL ++ str "/users/" ++ id)
    ∧ (∀ key : Bytes, env.ReadFile x = Except.ok key →
        Calls env net (c.UploadPublicKey env dec id x net).2 (str "PATCH")
          (c.AccountURL ++ str "/users/" ++ id))
    ∧ Calls env net (c.GetUserOrganizations env dec net).2 (str "GET")
        (c.AccountURL ++ str "/organizations")
    ∧ Calls env net (c.GetUserTokens env dec net).2 (str "GET") (c.AccountURL ++ str "/tokens")
    ∧ Calls env net (c.CreateToken env dec x y flag net).2 (str "POST")
        (c.AccountURL ++ str "/tokens")
    ∧ Calls env net (c.GetUserToken env dec id net).2 (str "GET")
        (c.AccountURL ++ str "/tokens/" ++ id)
    ∧ Calls env net (c.UpdateToken env dec id net).2 (str "PATCH")
        (c.AccountURL ++ str "/tokens/" ++ id)
    ∧ Calls env net (c.DeleteToken env id net).2 (str "DELETE")
        (c.AccountURL ++ str "/tokens/" ++ id)
    ∧ Calls env net (c.GetServers env dec net).2 (str "GET") (c.ComputeURL ++ str "/servers")
    ∧ Calls env net (c.CreateServer env dec x y z net).2 (str "POST")
        (c.ComputeURL ++ str "/servers")
    ∧ Calls env net (c.GetServer env dec id net).2 (str "GET")
        (c.ComputeURL ++ str "/servers/" ++ id)
    ∧ Calls env net (c.DeleteServer env id net).2 (str "DELETE")
        (c.ComputeURL ++ str "/servers/" ++ id)
    ∧ Calls env net (c.PerformServerAction env dec id x net).2 (str "POST")
        (c.ComputeURL ++ str "/servers/" ++ id ++ str "/action")
    ∧ Calls env net (c.GetVolumes env dec net).2 (str "GET") (c.ComputeURL ++ str "/volumes")
    ∧ Calls env net (c.CreateVolume env dec x y z size net).2 (str "POST")
        (c.ComputeURL ++ str "/volumes")
    ∧ Calls env net (c.GetVolume env dec id net).2 (str "GET")
        (c.ComputeURL ++ str "/volumes/" ++ id)
    ∧ Calls env net (c.DeleteVolume env id net).2 (str "DELETE")
        (c.ComputeURL ++ str "/volumes/" ++ id)
    ∧ Calls env net (c.GetImages env dec net).2 (str "GET") (c.ComputeURL ++ str "/images")
    ∧ Calls env net (c.GetImage env dec id net).2 (str "GET")
        (c.ComputeURL ++ str "/images/" ++ id)
    ∧ Calls env net (c.DeleteImage env id net).2 (str "DELETE")
        (c.ComputeURL ++ str "/images/" ++ id) := by
  refine ⟨?_, ?_, ?_, ?_, ?_, ?_, ?_, ?_, ?_, ?_, ?_, ?_, ?_, ?_, ?_, ?_, ?_, ?_, ?_, ?_⟩
  · simp only [OnlineLabsClient.GetUserInformations, url_users_id]
    exact getAPIResource_calls _ _ _ _ _
  · intro key hkey
    simp only [OnlineLabsClient.UploadPublicKey, hkey, url_users_id]
    exact patchAPIResource_calls _ _ _ _ _ _
  · simp only [OnlineLabsClient.GetUserOrganizations, url_organizations]
    exact getAPIResource_calls _ _ _ _ _
  · simp only [OnlineLabsClient.GetUserTokens, url_tokens]
    exact getAPIResource_calls _ _ _ _ _
  · simp only [OnlineLabsClient.CreateToken, url_tokens]
    exact postAPIResource_calls _ _ _ _ _ _
  · simp only [OnlineLabsClient.GetUserToken, url_tokens_id]
    exact getAPIResource_calls _ _ _ _ _
  · simp only [OnlineLabsClient.UpdateToken, url_tokens_id]
    exact patchAPIResource_calls _ _ _ _ _ _
  · simp only [OnlineLabsClient.DeleteToken, url_tokens_id]
    exact deleteAPIResource_calls _ _ _ _ _
  · simp only [OnlineLabsClient.GetServers, url_servers]
    exact getAPIResource_calls _ _ _ _ _
  · simp only [OnlineLabsClient.CreateServer, url_servers]
    exact postAPIResource_calls _ _ _ _ _ _
  · simp only [OnlineLabsClient.GetServer, url_servers_id]
    exact getAPIResource_calls _ _ _ _ _
  · simp only [OnlineLabsClient.DeleteServer, url_servers_id]
    exact deleteAPIResource_calls _ _ _ _ _
  · simp only [OnlineLabsClient.PerformServerAction, url_servers_id_action]
    exact postAPIResource_calls _ _ _ _ _ _
  · simp only [OnlineLabsClient.GetVolumes, url_volumes]
    exact getAPIResource_calls _ _ _ _ _
  · simp only [OnlineLabsClient.CreateVolume, url_volumes]
    exact postAPIResource_calls _ _ _ _ _ _
  · simp only [OnlineLabsClient.GetVolume, url_volumes_id]
    exact getAPIResource_calls _ _ _ _ _
  · simp only [OnlineLabsClient.DeleteVolume, url_volumes_id]
    exact deleteAPIResource_calls _ _ _ _ _
  · simp only [OnlineLabsClient.GetImages, url_images]
    exact getAPIResource_calls _ _ _ _ _
  · simp only [OnlineLabsClient.GetImage, url_images_id]
    exact getAPIResource_calls _ _ _ _ _
  · simp only [OnlineLabsClient.DeleteImage, url_images_id]
    exact deleteAPIResource_calls _ _ _ _ _

/-- Witness of C6: where every URL parses, `DeleteServer` on `abc` issues exactly one request,
a DELETE to `https://api.cloud.online.net/servers/abc`. -/
theorem endpoint_table_witness :
    ∃ req : Request,
      ((NewClient (cannedClient 204 []) (str "u") (str "tok") (str "o")).DeleteServer noFileEnv
          (str "abc") []).2 = [] ++ [req]
        ∧ req.Method = str "DELETE"
        ∧ req.URL = str "https://api.cloud.online.net/servers/abc" :=
  (endpoint_table (NewClient (cannedClient 204 []) (str "u") (str "tok") (str "o")) noFileEnv
    unitDecoder (str "abc") [] [] [] false 0 []).2.2.2.2.2.2.2.2.2.2.2.1.1 rfl

/-! ## UTF-8 decoding and encoding -/

theorem toNat_ofNat_lt (n : Nat) (h : n < 256) : (UInt8.ofNat n).toNat = n := by
  show n % 256 = n
  exact Nat.mod_eq_of_lt h

theorem ofNat_toNat (c : UInt8) : UInt8.ofNat c.toNat = c := by
  apply UInt8.ext
  rw [toNat_ofNat_lt _ (UInt8.toNat_lt c)]

theorem first_spec (b : Nat) :
    (b < 0x80 ∧ first b = 0xF0) ∨ (0x80 ≤ b ∧ b < 0xC2 ∧ first b = 0xF1)
    ∨ (0xC2 ≤ b ∧ b < 0xE0 ∧ first b = 0x02) ∨ (b = 0xE0 ∧ first b = 0x13)
    ∨ (0xE0 < b ∧ b < 0xF0 ∧ b ≠ 0xED ∧ first b = 0x03) ∨ (b = 0xED ∧ first b = 0x23)
    ∨ (b = 0xF0 ∧ first b = 0x34) ∨ (0xF0 < b ∧ b < 0xF4 ∧ first b = 0x04)
    ∨ (b = 0xF4 ∧ first b = 0x44) ∨ (0xF4 < b ∧ first b = 0xF1) := by
  unfold first
  by_cases h1 : b < 0x80
  · rw [if_pos h1]; exact Or.inl ⟨h1, rfl⟩
  rw [if_neg h1]
  by_cases h2 : b < 0xC2
  · rw [if_pos h2]; exact Or.inr (Or.inl ⟨by omega, h2, rfl⟩)
  rw [if_neg h2]
  by_cases h3 : b < 0xE0
  · rw [if_pos h3]; exact Or.inr (Or.inr (Or.inl ⟨by omega, h3, rfl⟩))
  rw [if_neg h3]
  by_cases h4 : b = 0xE0
  · rw [if_pos h4]; exact Or.inr (Or.inr (Or.inr (Or.inl ⟨h4, rfl⟩)))
  rw [if_neg h4]
  by_cases h5 : b < 0xED
  · rw [if_pos h5]
    exact Or.inr (Or.inr (Or.inr (Or.inr (Or.inl ⟨by omega, by omega, by omega, rfl⟩))))
  rw [if_neg h5]
  by_cases h6 : b = 0xED
  · rw [if_pos h6]; exact Or.inr (Or.inr (Or.inr (Or.inr (Or.inr (Or.inl ⟨h6, rfl⟩)))))
  rw [if_neg h6]
  by_cases h7 : b < 0xF0
  · rw [if_pos h7]
    exact Or.inr (Or.inr (Or.inr (Or.inr (Or.inl ⟨by omega, by omega, by omega, rfl⟩))))
  rw [if_neg h7]
  by_cases h8 : b = 0xF0
  · rw [if_pos h8]
    exact Or.inr (Or.inr (Or.inr (Or.inr (Or.inr (Or.inr (Or.inl ⟨h8, rfl⟩))))))
  rw [if_neg h8]
  by_cases h9 : b < 0xF4
  · rw [if_pos h9]
    exact Or.inr (Or.inr (Or.inr (Or.inr (Or.inr (Or.inr (Or.inr (Or.inl
      ⟨by omega, h9, rfl⟩)))))))
  rw [if_neg h9]
  by_cases h10 : b = 0xF4
  · rw [if_pos h10]
    exact Or.inr (Or.inr (Or.inr (Or.inr (Or.inr (Or.inr (Or.inr (Or.inr (Or.inl
      ⟨h10, rfl⟩))))))))
  rw [if_neg h10]
  exact Or.inr (Or.inr (Or.inr (Or.inr (Or.inr (Or.inr (Or.inr (Or.inr (Or.inr
    ⟨by omega, rfl⟩))))))))

theorem DecodeRuneInString_nil : DecodeRuneInString [] = (RuneError, 0) := rfl

theorem DecodeRuneInString_one (c0 : UInt8) (t : Bytes) (x : Nat) (hx : first c0.toNat = x)
    (h : x ≥ 0xF0) :
    DecodeRuneInString (c0 :: t) = (if x = 0xF0 then c0.toNat else RuneError, 1) := by
  subst hx
  simp only [DecodeRuneInString, if_pos h]

theorem DecodeRuneInString_short (c0 : UInt8) (x : Nat) (hx : first c0.toNat = x)
    (h : x < 0xF0) : DecodeRuneInString [c0] = (RuneError, 1) := by
  subst hx
  have h' : ¬ first c0.toNat ≥ 0xF0 := by omega
  simp only [DecodeRuneInString, if_neg h']
  split <;> rfl

theorem DecodeRuneInString_multi (c0 c1 : UInt8) (t1 : Bytes) (x : Nat)
    (hx : first c0.toNat = x) (h : x < 0xF0) :
    DecodeRuneInString (c0 :: c1 :: t1) =
      if (c0 :: c1 :: t1).length < x % 8 then (RuneError, 1)
      else if c1.toNat < (acceptRanges (x / 16)).1 ∨ (acceptRanges (x / 16)).2 < c1.toNat then
        (RuneError, 1)
      else if x % 8 ≤ 2 then (c0.toNat % 32 * 64 + c1.toNat % 64, 2)
      else
        match t1 with
        | [] => (RuneError, 1)
        | c2 :: t2 =>
          if c2.toNat < 0x80 ∨ 0xBF < c2.toNat then (RuneError, 1)
          else if x % 8 ≤ 3 then
            (c0.toNat % 16 * 4096 + c1.toNat % 64 * 64 + c2.toNat % 64, 3)
          else
            match t2 with
            | [] => (RuneError, 1)
            | c3 :: _ =>
              if c3.toNat < 0x80 ∨ 0xBF < c3.toNat then (RuneError, 1)
              else (c0.toNat % 8 * 262144 + c1.toNat % 64 * 4096 + c2.toNat % 64 * 64
                + c3.toNat % 64, 4) := by
  subst hx
  have h' : ¬ first c0.toNat ≥ 0xF0 := by omega
  simp only [DecodeRuneInString, if_neg h']
  rfl

theorem Decoded_of_eq {s : Bytes} {r w : Nat} {d : Nat × Nat} (h : d = (r, w))
    (hd : Decoded s r w) : Decoded s d.1 d.2 := by
  subst h; exact hd

/-- The decoding of a sequence with a leading byte of a multi-byte encoding: `sz` is the
length the leading byte announces, `lo` and `hi` bound the second byte. -/
theorem decoded_multi (c0 : UInt8) (t0 : Bytes) (x sz lo hi : Nat)
    (hx : first c0.toNat = x) (hlt : x < 0xF0) (hsz : x % 8 = sz)
    (hacc : acceptRanges (x / 16) = (lo, hi))
    (h2 : sz = 2 → 0xC2 ≤ c0.toNat ∧ c0.toNat < 0xE0 ∧ lo = 0x80 ∧ hi = 0xBF)
    (h3 : sz = 3 → 0xE0 ≤ c0.toNat ∧ c0.toNat < 0xF0 ∧ 0x80 ≤ lo ∧ hi ≤ 0xBF
      ∧ (c0.toNat = 0xE0 → 0xA0 ≤ lo) ∧ (c0.toNat = 0xED → hi ≤ 0x9F))
    (h4 : sz = 4 → 0xF0 ≤ c0.toNat ∧ c0.toNat ≤ 0xF4 ∧ 0x80 ≤ lo ∧ hi ≤ 0xBF
      ∧ (c0.toNat = 0xF0 → 0x90 ≤ lo) ∧ (c0.toNat = 0xF4 → hi ≤ 0x8F))
    (hsz24 : sz = 2 ∨ sz = 3 ∨ sz = 4) (h80 : 0x80 ≤ c0.toNat) :
    Decoded (c0 :: t0) (DecodeRuneInString (c0 :: t0)).1 (DecodeRuneInString (c0 :: t0)).2 := by
  match t0 with
  | [] =>
    rw [DecodeRuneInString_short c0 x hx hlt]
    exact Decoded.invalid c0 [] h80
  | c1 :: t1 =>
    rw [DecodeRuneInString_multi c0 c1 t1 x hx hlt, hsz, hacc]
    simp only [List.length_cons]
    by_cases hlen : t1.length + 1 + 1 < sz
    · rw [if_pos hlen]; exact Decoded.invalid c0 _ h80
    rw [if_neg hlen]
    by_cases hc1 : c1.toNat < lo ∨ hi < c1.toNat
    · rw [if_pos hc1]; exact Decoded.invalid c0 _ h80
    rw [if_neg hc1]
    by_cases hs2 : sz ≤ 2
    · rw [if_pos hs2]
      have := h2 (by omega)
      exact Decoded.two c0 c1 t1 (by omega) (by omega) (by omega) (by omega)
    rw [if_neg hs2]
    match t1 with
    | [] => exact Decoded.invalid c0 _ h80
    | c2 :: t2 =>
      simp only []
      by_cases hc2 : c2.toNat < 0x80 ∨ 0xBF < c2.toNat
      · rw [if_pos hc2]; exact Decoded.invalid c0 _ h80
      rw [if_neg hc2]
      by_cases hs3 : sz ≤ 3
      · rw [if_pos hs3]
        have := h3 (by omega)
        exact Decoded.three c0 c1 c2 t2 (by omega) (by omega) (by omega) (by omega)
          (by omega) (by omega) (by omega) (by omega)
      rw [if_neg hs3]
      match t2 with
      | [] => exact Decoded.invalid c0 _ h80
      | c3 :: t3 =>
        simp only []
        by_cases hc3 : c3.toNat < 0x80 ∨ 0xBF < c3.toNat
        · rw [if_pos hc3]; exact Decoded.invalid c0 _ h80
        rw [if_neg hc3]
        have := h4 (by omega)
        exact Decoded.four c0 c1 c2 c3 t3 (by omega) (by omega) (by omega) (by omega)
          (by omega) (by omega) (by omega) (by omega) (by omega) (by omega)

theorem DecodeRuneInString_decoded (s : Bytes) :
    Decoded s (DecodeRuneInString s).1 (DecodeRuneInString s).2 := by
  match s with
  | [] => exact Decoded.empty
  | c0 :: t0 =>
    rcases first_spec c0.toNat with h | h | h | h | h | h | h | h | h | h
    · rw [DecodeRuneInString_one c0 t0 _ h.2 (by omega)]
      exact Decoded.ascii c0 t0 h.1
    · rw [DecodeRuneInString_one c0 t0 _ h.2.2 (by omega)]
      exact Decoded.invalid c0 t0 h.1
    · exact decoded_multi c0 t0 0x02 2 0x80 0xBF h.2.2 (by omega) rfl rfl
        (fun _ => ⟨h.1, h.2.1, rfl, rfl⟩) (by omega) (by omega) (by omega) (by omega)
    · exact decoded_multi c0 t0 0x13 3 0xA0 0xBF h.2 (by omega) rfl rfl
        (by omega) (fun _ => by omega) (by omega) (by omega) (by omega)
    · exact decoded_multi c0 t0 0x03 3 0x80 0xBF h.2.2.2 (by omega) rfl rfl
        (by omega) (fun _ => by omega) (by omega) (by omega) (by omega)
    · exact decoded_multi c0 t0 0x23 3 0x80 0x9F h.2 (by omega) rfl rfl
        (by omega) (fun _ => by omega) (by omega) (by omega) (by omega)
    · exact decoded_multi c0 t0 0x34 4 0x90 0xBF h.2 (by omega) rfl rfl
        (by omega) (by omega) (fun _ => by omega) (by omega) (by omega)
    · exact decoded_multi c0 t0 0x04 4 0x80 0xBF h.2.2 (by omega) rfl rfl
        (by omega) (by omega) (fun _ => by omega) (by omega) (by omega)
    · exact decoded_multi c0 t0 0x44 4 0x80 0x8F h.2 (by omega) rfl rfl
        (by omega) (by omega) (fun _ => by omega) (by omega) (by omega)
    · rw [DecodeRuneInString_one c0 t0 _ h.2 (by omega)]
      exact Decoded.invalid c0 t0 (by omega)

theorem decode_ascii (c0 : UInt8) (t : Bytes) (h : c0.toNat < 0x80) :
    DecodeRuneInString (c0 :: t) = (c0.toNat, 1) := by
  rcases first_spec c0.toNat with h' | h' | h' | h' | h' | h' | h' | h' | h' | h'
  · rw [DecodeRuneInString_one c0 t _ h'.2 (by omega)]; rfl
  all_goals omega

/-- The decoding of a well-formed multi-byte sequence, computed along the source. -/
theorem decode_multi_eq (c0 c1 : UInt8) (t1 : Bytes) (x lo hi : Nat)
    (hx : first c0.toNat = x) (hlt : x < 0xF0) (hacc : acceptRanges (x / 16) = (lo, hi))
    (hlen : x % 8 ≤ t1.length + 2) (h1 : lo ≤ c1.toNat) (h1' : c1.toNat ≤ hi) :
    DecodeRuneInString (c0 :: c1 :: t1) =
      if x % 8 ≤ 2 then (c0.toNat % 32 * 64 + c1.toNat % 64, 2)
      else
        match t1 with
        | [] => (RuneError, 1)
        | c2 :: t2 =>
          if c2.toNat < 0x80 ∨ 0xBF < c2.toNat then (RuneError, 1)
          else if x % 8 ≤ 3 then
            (c0.toNat % 16 * 4096 + c1.toNat % 64 * 64 + c2.toNat % 64, 3)
          else
            match t2 with
            | [] => (RuneError, 1)
            | c3 :: _ =>
              if c3.toNat < 0x80 ∨ 0xBF < c3.toNat then (RuneError, 1)
              else (c0.toNat % 8 * 262144 + c1.toNat % 64 * 4096 + c2.toNat % 64 * 64
                + c3.toNat % 64, 4) := by
  rw [DecodeRuneInString_multi c0 c1 t1 x hx hlt, hacc]
  simp only [List.length_cons]
  rw [if_neg (by omega), if_neg (by omega)]

theorem decode_two (c0 c1 : UInt8) (t : Bytes) (h0 : 0xC2 ≤ c0.toNat) (h0' : c0.toNat < 0xE0)
    (h1 : 0x80 ≤ c1.toNat) (h1' : c1.toNat ≤ 0xBF) :
    DecodeRuneInString (c0 :: c1 :: t) = (c0.toNat % 32 * 64 + c1.toNat % 64, 2) := by
  rcases first_spec c0.toNat with h | h | h | h | h | h | h | h | h | h
  case inr.inr.inl =>
    rw [decode_multi_eq c0 c1 t 0x02 0x80 0xBF h.2.2 (by omega) rfl (by simp) h1 h1']
    rfl
  all_goals omega

theorem decode_three (c0 c1 c2 : UInt8) (t : Bytes) (h0 : 0xE0 ≤ c0.toNat)
    (h0' : c0.toNat < 0xF0) (h1 : 0x80 ≤ c1.toNat) (h1' : c1.toNat ≤ 0xBF)
    (hE0 : c0.toNat = 0xE0 → 0xA0 ≤ c1.toNat) (hED : c0.toNat = 0xED → c1.toNat ≤ 0x9F)
    (h2 : 0x80 ≤ c2.toNat) (h2' : c2.toNat ≤ 0xBF) :
    DecodeRuneInString (c0 :: c1 :: c2 :: t)
      = (c0.toNat % 16 * 4096 + c1.toNat % 64 * 64 + c2.toNat % 64, 3) := by
  have hc2 : ¬ (c2.toNat < 0x80 ∨ 0xBF < c2.toNat) := by omega
  rcases first_spec c0.toNat with h | h | h | h | h | h | h | h | h | h
  case inr.inr.inr.inl =>
    rw [decode_multi_eq c0 c1 (c2 :: t) 0x13 0xA0 0xBF h.2 (by omega) rfl (by simp)
      (by omega) h1']
    simp only [if_neg hc2]; rfl
  case inr.inr.inr.inr.inl =>
    rw [decode_multi_eq c0 c1 (c2 :: t) 0x03 0x80 0xBF h.2.2.2 (by omega) rfl (by simp)
      h1 h1']
    simp only [if_neg hc2]; rfl
  case inr.inr.inr.inr.inr.inl =>
    rw [decode_multi_eq c0 c1 (c2 :: t) 0x23 0x80 0x9F h.2 (by omega) rfl (by simp)
      h1 (by omega)]
    simp only [if_neg hc2]; rfl
  all_goals omega

theorem decode_four (c0 c1 c2 c3 : UInt8) (t : Bytes) (h0 : 0xF0 ≤ c0.toNat)
    (h0' : c0.toNat ≤ 0xF4) (h1 : 0x80 ≤ c1.toNat) (h1' : c1.toNat ≤ 0xBF)
    (hF0 : c0.toNat = 0xF0 → 0x90 ≤ c1.toNat) (hF4 : c0.toNat = 0xF4 → c1.toNat ≤ 0x8F)
    (h2 : 0x80 ≤ c2.toNat) (h2' : c2.toNat ≤ 0xBF) (h3 : 0x80 ≤ c3.toNat)
    (h3' : c3.toNat ≤ 0xBF) :
    DecodeRuneInString (c0 :: c1 :: c2 :: c3 :: t)
      = (c0.toNat % 8 * 262144 + c1.toNat % 64 * 4096 + c2.toNat % 64 * 64 + c3.toNat % 64,
          4) := by
  have hc2 : ¬ (c2.toNat < 0x80 ∨ 0xBF < c2.toNat) := by omega
  have hc3 : ¬ (c3.toNat < 0x80 ∨ 0xBF < c3.toNat) := by omega
  rcases first_spec c0.toNat with h | h | h | h | h | h | h | h | h | h
  case inr.inr.inr.inr.inr.inr.inl =>
    rw [decode_multi_eq c0 c1 (c2 :: c3 :: t) 0x34 0x90 0xBF h.2 (by omega) rfl (by simp)
      (by omega) h1']
    simp only [if_neg hc2, if_neg hc3]; rfl
  case inr.inr.inr.inr.inr.inr.inr.inl =>
    rw [decode_multi_eq c0 c1 (c2 :: c3 :: t) 0x04 0x80 0xBF h.2.2 (by omega) rfl (by simp)
      h1 h1']
    simp only [if_neg hc2, if_neg hc3]; rfl
  case inr.inr.inr.inr.inr.inr.inr.inr.inl =>
    rw [decode_multi_eq c0 c1 (c2 :: c3 :: t) 0x44 0x80 0x8F h.2 (by omega) rfl (by simp)
      h1 (by omega)]
    simp only [if_neg hc2, if_neg hc3]; rfl
  all_goals omega

theorem DecodeRuneInString_EncodeRune (r : Nat) (t : Bytes) (hr : ValidRune r) :
    DecodeRuneInString (EncodeRune r ++ t) = (r, (EncodeRune r).length) := by
  unfold ValidRune at hr
  unfold EncodeRune
  by_cases h1 : r < 0x80
  · rw [if_pos h1]
    simp only [List.singleton_append, List.length_singleton]
    rw [decode_ascii _ _ (by rw [toNat_ofNat_lt _ (by omega)]; exact h1),
      toNat_ofNat_lt _ (by omega)]
  rw [if_neg h1]
  by_cases h2 : r ≤ 0x7FF
  · rw [if_pos h2]
    simp only [List.cons_append, List.nil_append, List.length_cons, List.length_nil]
    have e0 : (UInt8.ofNat (0xC0 + r / 64)).toNat = 0xC0 + r / 64 :=
      toNat_ofNat_lt _ (by omega)
    have e1 : (UInt8.ofNat (0x80 + r % 64)).toNat = 0x80 + r % 64 :=
      toNat_ofNat_lt _ (by omega)
    rw [decode_two _ _ _ (by omega) (by omega) (by omega) (by omega), e0, e1]
    congr 1
    omega
  rw [if_neg h2]
  rw [if_neg (by omega)]
  by_cases h3 : r ≤ 0xFFFF
  · rw [if_pos h3]
    simp only [List.cons_append, List.nil_append, List.length_cons, List.length_nil]
    have e0 : (UInt8.ofNat (0xE0 + r / 4096)).toNat = 0xE0 + r / 4096 :=
      toNat_ofNat_lt _ (by omega)
    have e1 : (UInt8.ofNat (0x80 + r / 64 % 64)).toNat = 0x80 + r / 64 % 64 :=
      toNat_ofNat_lt _ (by omega)
    have e2 : (UInt8.ofNat (0x80 + r % 64)).toNat = 0x80 + r % 64 :=
      toNat_ofNat_lt _ (by omega)
    rw [decode_three _ _ _ _ (by omega) (by omega) (by omega) (by omega) (by omega) (by omega)
      (by omega) (by omega), e0, e1, e2]
    congr 1
    omega
  rw [if_neg h3]
  simp only [List.cons_append, List.nil_append, List.length_cons, List.length_nil]
  have e0 : (UInt8.ofNat (0xF0 + r / 262144)).toNat = 0xF0 + r / 262144 :=
    toNat_ofNat_lt _ (by omega)
  have e1 : (UInt8.ofNat (0x80 + r / 4096 % 64)).toNat = 0x80 + r / 4096 % 64 :=
    toNat_ofNat_lt _ (by omega)
  have e2 : (UInt8.ofNat (0x80 + r / 64 % 64)).toNat = 0x80 + r / 64 % 64 :=
    toNat_ofNat_lt _ (by omega)
  have e3 : (UInt8.ofNat (0x80 + r % 64)).toNat = 0x80 + r % 64 :=
    toNat_ofNat_lt _ (by omega)
  rw [decode_four _ _ _ _ _ (by omega) (by omega) (by omega) (by omega) (by omega) (by omega)
    (by omega) (by omega) (by omega) (by omega), e0, e1, e2, e3]
  congr 1
  omega

theorem cons_ofNat (c : UInt8) (n : Nat) (h : n = c.toNat) : UInt8.ofNat n = c := by
  subst h; exact ofNat_toNat c

/-- A decoding that is not the error answer `(RuneError, 1)` comes from the encoding of a
scalar value at the front of the bytes. -/
theorem Decoded_valid {s : Bytes} {r w : Nat} (hd : Decoded s r w)
    (hval : ¬ (r = RuneError ∧ w = 1)) (hne : s ≠ []) :
    ValidRune r ∧ w = (EncodeRune r).length ∧ ∃ t, s = EncodeRune r ++ t := by
  cases hd with
  | empty => exact absurd rfl hne
  | ascii c0 t h =>
    refine ⟨Or.inl (by omega), ?_, t, ?_⟩
    · unfold EncodeRune; rw [if_pos h]; rfl
    · unfold EncodeRune; rw [if_pos h, ofNat_toNat]; rfl
  | invalid c0 t h => exact absurd ⟨rfl, rfl⟩ hval
  | two c0 c1 t h0 h0' h1 h1' =>
    have hc0 := UInt8.toNat_lt c0
    have hc1 := UInt8.toNat_lt c1
    have e : EncodeRune (c0.toNat % 32 * 64 + c1.toNat % 64) = [c0, c1] := by
      unfold EncodeRune
      rw [if_neg (by omega), if_pos (by omega), cons_ofNat c0 _ (by omega),
        cons_ofNat c1 _ (by omega)]
    refine ⟨Or.inl (by omega), ?_, t, ?_⟩
    · rw [e]; rfl
    · rw [e]; rfl
  | three c0 c1 c2 t h0 h0' h1 h1' hE0 hED h2 h2' =>
    have hc0 := UInt8.toNat_lt c0
    have hc1 := UInt8.toNat_lt c1
    have hc2 := UInt8.toNat_lt c2
    have hv : ValidRune (c0.toNat % 16 * 4096 + c1.toNat % 64 * 64 + c2.toNat % 64) := by
      unfold ValidRune; omega
    have e : EncodeRune (c0.toNat % 16 * 4096 + c1.toNat % 64 * 64 + c2.toNat % 64)
        = [c0, c1, c2] := by
      unfold ValidRune at hv
      unfold EncodeRune
      rw [if_neg (by omega), if_neg (by omega), if_neg (by omega), if_pos (by omega),
        cons_ofNat c0 _ (by omega), cons_ofNat c1 _ (by omega), cons_ofNat c2 _ (by omega)]
    refine ⟨hv, ?_, t, ?_⟩
    · rw [e]; rfl
    · rw [e]; rfl
  | four c0 c1 c2 c3 t h0 h0' h1 h1' hF0 hF4 h2 h2' h3 h3' =>
    have hc0 := UInt8.toNat_lt c0
    have hc1 := UInt8.toNat_lt c1
    have hc2 := UInt8.toNat_lt c2
    have hc3 := UInt8.toNat_lt c3
    have hv : ValidRune (c0.toNat % 8 * 262144 + c1.toNat % 64 * 4096 + c2.toNat % 64 * 64
        + c3.toNat % 64) := by
      unfold ValidRune; omega
    have e : EncodeRune (c0.toNat % 8 * 262144 + c1.toNat % 64 * 4096 + c2.toNat % 64 * 64
        + c3.toNat % 64) = [c0, c1, c2, c3] := by
      unfold ValidRune at hv
      unfold EncodeRune
      rw [if_neg (by omega), if_neg (by omega), if_neg (by omega), if_neg (by omega),
        cons_ofNat c0 _ (by omega), cons_ofNat c1 _ (by omega), cons_ofNat c2 _ (by omega),
        cons_ofNat c3 _ (by omega)]
    refine ⟨hv, ?_, t, ?_⟩
    · rw [e]; rfl
    · rw [e]; rfl

theorem DecodeRuneInString_valid (s : Bytes) (hne : s ≠ [])
    (hval : ¬ ((DecodeRuneInString s).1 = RuneError ∧ (DecodeRuneInString s).2 = 1)) :
    ValidRune (DecodeRuneInString s).1
      ∧ (DecodeRuneInString s).2 = (EncodeRune (DecodeRuneInString s).1).length
      ∧ ∃ t, s = EncodeRune (DecodeRuneInString s).1 ++ t :=
  Decoded_valid (DecodeRuneInString_decoded s) hval hne

theorem DecodeRuneInString_width (s : Bytes) (hne : s ≠ []) :
    1 ≤ (DecodeRuneInString s).2 ∧ (DecodeRuneInString s).2 ≤ s.length
      ∧ (DecodeRuneInString s).2 ≤ 4 := by
  have hd := DecodeRuneInString_decoded s
  generalize (DecodeRuneInString s).1 = r at hd
  generalize (DecodeRuneInString s).2 = w at hd
  cases hd with
  | empty => exact absurd rfl hne
  | ascii c0 t h => simp
  | invalid c0 t h => simp
  | two c0 c1 t h0 h0' h1 h1' => simp
  | three c0 c1 c2 t h0 h0' h1 h1' hE0 hED h2 h2' => simp
  | four c0 c1 c2 c3 t h0 h0' h1 h1' hF0 hF4 h2 h2' h3 h3' => simp

theorem EncodeRune_length (r : Nat) : 1 ≤ (EncodeRune r).length ∧ (EncodeRune r).length ≤ 4 := by
  unfold EncodeRune
  split_ifs <;> simp

theorem EncodeRune_ne_nil (r : Nat) : EncodeRune r ≠ [] := by
  intro h
  have := (EncodeRune_length r).1
  rw [h] at this
  simp at this

/-! ## strings.TrimSpace -/

theorem IsSpace_RuneError : IsSpace RuneError = false := by decide

theorem SpaceText_nil : SpaceText [] := ⟨[], by simp, rfl⟩

theorem SpaceText_cons {r : Nat} {bs : Bytes} (hr : IsSpace r = true) (h : SpaceText bs) :
    SpaceText (EncodeRune r ++ bs) := by
  obtain ⟨rs, hrs, e⟩ := h
  refine ⟨r :: rs, ?_, ?_⟩
  · intro x hx
    rcases List.mem_cons.mp hx with h1 | h1
    · rw [h1]; exact hr
    · exact hrs x h1
  · rw [e]; rfl

theorem SpaceText_single {r : Nat} (hr : IsSpace r = true) : SpaceText (EncodeRune r) := by
  have := SpaceText_cons hr SpaceText_nil
  rwa [List.append_nil] at this

theorem SpaceText_append {as bs : Bytes} (ha : SpaceText as) (hb : SpaceText bs) :
    SpaceText (as ++ bs) := by
  obtain ⟨ra, hra, ea⟩ := ha
  obtain ⟨rb, hrb, eb⟩ := hb
  refine ⟨ra ++ rb, ?_, ?_⟩
  · intro x hx
    rcases List.mem_append.mp hx with h1 | h1
    · exact hra x h1
    · exact hrb x h1
  · rw [ea, eb, List.flatMap_append]

theorem scanRuneStart_le (s : Bytes) (lim : Nat) :
    ∀ n : Nat, scanRuneStart s lim n ≤ (n : Int) := by
  intro n
  induction n with
  | zero =>
    unfold scanRuneStart
    split
    · exact le_refl _
    · split <;> simp
  | succ n ih =>
    unfold scanRuneStart
    split
    · exact le_refl _
    · split
      · exact le_refl _
      · push_cast; omega

/-- What `DecodeLastRuneInString` returns on a non-empty string, by its last byte. -/
theorem DecodeLastRuneInString_spec (s : Bytes) (hne : s ≠ []) :
    ((s.getD (s.length - 1) 0).toNat < 0x80
        ∧ DecodeLastRuneInString s = ((s.getD (s.length - 1) 0).toNat, 1))
    ∨ (0x80 ≤ (s.getD (s.length - 1) 0).toNat
        ∧ (DecodeLastRuneInString s = (RuneError, 1)
          ∨ (1 ≤ (DecodeLastRuneInString s).2 ∧ (DecodeLastRuneInString s).2 ≤ s.length
            ∧ DecodeRuneInString (s.drop (s.length - (DecodeLastRuneInString s).2))
                = DecodeLastRuneInString s))) := by
  have hlen : s.length ≠ 0 := by
    intro h; exact hne (List.length_eq_zero.mp h)
  unfold DecodeLastRuneInString
  simp only [if_neg hlen, RuneSelf]
  by_cases hlast : (s.getD (s.length - 1) 0).toNat < 0x80
  · left
    rw [if_pos hlast]
    exact ⟨hlast, rfl⟩
  · right
    rw [if_neg hlast]
    refine ⟨by omega, ?_⟩
    have hst : (if (if s.length - 1 = 0 then (-1 : Int)
        else scanRuneStart s (s.length - 4) (s.length - 2)) < 0 then 0
        else (if s.length - 1 = 0 then (-1 : Int)
          else scanRuneStart s (s.length - 4) (s.length - 2)).toNat) < s.length := by
      by_cases h1 : s.length - 1 = 0
      · rw [if_pos h1]; simp; omega
      · rw [if_neg h1]
        split
        · omega
        · have h := scanRuneStart_le s (s.length - 4) (s.length - 2)
          omega
    generalize (if (if s.length - 1 = 0 then (-1 : Int)
      else scanRuneStart s (s.length - 4) (s.length - 2)) < 0 then 0
      else (if s.length - 1 = 0 then (-1 : Int)
        else scanRuneStart s (s.length - 4) (s.length - 2)).toNat) = st at hst
    by_cases hc : st + (DecodeRuneInString ((s.drop st).take (s.length - st))).2 ≠ s.length
    · left; rw [if_pos hc]
    · right
      rw [if_neg hc]
      have hst' : st + (DecodeRuneInString ((s.drop st).take (s.length - st))).2 = s.length := by
        omega
      have htake : (s.drop st).take (s.length - st) = s.drop st := by
        apply List.take_of_length_le
        simp
      rw [htake] at hst' ⊢
      refine ⟨by omega, by omega, ?_⟩
      have : s.length - (DecodeRuneInString (s.drop st)).2 = st := by omega
      rw [this]

theorem indexFunc_decode (c : UInt8) (t : Bytes) :
    (if c.toNat ≥ RuneSelf then DecodeRuneInString (c :: t) else (c.toNat, 1))
      = DecodeRuneInString (c :: t) := by
  unfold RuneSelf
  by_cases h : c.toNat ≥ 0x80
  · rw [if_pos h]
  · rw [if_neg h, decode_ascii c t (by omega)]

/-- A white space rune at the front of a string: the string starts with its encoding. -/
theorem space_front (s : Bytes) (hne : s ≠ [])
    (hsp : IsSpace (DecodeRuneInString s).1 = true) :
    ∃ t, s = EncodeRune (DecodeRuneInString s).1 ++ t
      ∧ s.drop (DecodeRuneInString s).2 = t ∧ t.length < s.length := by
  have hval : ¬ ((DecodeRuneInString s).1 = RuneError ∧ (DecodeRuneInString s).2 = 1) := by
    rintro ⟨h1, -⟩
    rw [h1, IsSpace_RuneError] at hsp
    exact Bool.noConfusion hsp
  obtain ⟨-, hw, t, ht⟩ := DecodeRuneInString_valid s hne hval
  refine ⟨t, ht, ?_, ?_⟩
  · rw [hw, congrArg (List.drop _) ht]
    exact List.drop_left _ _
  · have h1 := (EncodeRune_length (DecodeRuneInString s).1).1
    have h2 := congrArg List.length ht
    rw [List.length_append] at h2
    omega

theorem indexFuncFalse_spec (fuel : Nat) :
    ∀ (rest : Bytes) (start : Nat), rest.length ≤ fuel →
      (indexFuncFalse IsSpace fuel rest start = none ∧ SpaceText rest)
      ∨ ∃ pre post, rest = pre ++ post
          ∧ indexFuncFalse IsSpace fuel rest start = some (start + pre.length)
          ∧ SpaceText pre ∧ post ≠ [] ∧ IsSpace (DecodeRuneInString post).1 = false := by
  induction fuel with
  | zero =>
    intro rest start h
    have : rest = [] := List.length_eq_zero.mp (by omega)
    subst this
    exact Or.inl ⟨rfl, SpaceText_nil⟩
  | succ fuel ih =>
    intro rest start h
    match rest with
    | [] => exact Or.inl ⟨rfl, SpaceText_nil⟩
    | c :: t =>
      simp only [indexFuncFalse, indexFunc_decode]
      by_cases hsp : IsSpace (DecodeRuneInString (c :: t)).1 = false
      · right
        refine ⟨[], c :: t, rfl, ?_, SpaceText_nil, by simp, hsp⟩
        rw [if_pos hsp]; rfl
      · rw [if_neg hsp]
        have hsp' : IsSpace (DecodeRuneInString (c :: t)).1 = true := by
          simpa using hsp
        obtain ⟨t', ht', hdrop, hlen⟩ := space_front (c :: t) (by simp) hsp'
        rw [hdrop]
        have hle : t'.length ≤ fuel := by
          simp only [List.length_cons] at hlen h
          omega
        rcases ih t' (start + (DecodeRuneInString (c :: t)).2) hle with ⟨h1, h2⟩ | h1
        · left
          refine ⟨h1, ?_⟩
          rw [ht']
          exact SpaceText_cons hsp' h2
        · right
          obtain ⟨pre, post, e, hidx, hpre, hpost, hns⟩ := h1
          refine ⟨EncodeRune (DecodeRuneInString (c :: t)).1 ++ pre, post, ?_, ?_,
            SpaceText_cons hsp' hpre, hpost, hns⟩
          · rw [List.append_assoc, ← e]; exact ht'
          · rw [hidx, List.length_append]
            have hw := (DecodeRuneInString_valid (c :: t) (by simp) (by
              rintro ⟨h1, -⟩
              rw [h1, IsSpace_RuneError] at hsp'
              exact Bool.noConfusion hsp')).2.1
            rw [← hw]
            congr 1
            omega

/-- `TrimLeftFunc` with `IsSpace` removes a white space text from the front and what is left
does not start with white space. -/
theorem TrimLeftFunc_spec (s : Bytes) :
    ∃ pre, s = pre ++ TrimLeftFunc s IsSpace ∧ SpaceText pre
      ∧ IsSpace (DecodeRuneInString (TrimLeftFunc s IsSpace)).1 = false := by
  unfold TrimLeftFunc
  rcases indexFuncFalse_spec s.length s 0 (le_refl _) with ⟨h1, h2⟩ | h1
  · rw [h1]
    exact ⟨s, by simp, h2, IsSpace_RuneError⟩
  · obtain ⟨pre, post, e, hidx, hpre, -, hns⟩ := h1
    rw [hidx]
    have hd : s.drop (0 + pre.length) = post := by
      rw [Nat.zero_add, congrArg (List.drop _) e]
      exact List.drop_left _ _
    simp only [hd]
    exact ⟨pre, e, hpre, hns⟩

theorem space_valid {s : Bytes} (hsp : IsSpace (DecodeRuneInString s).1 = true) :
    ¬ ((DecodeRuneInString s).1 = RuneError ∧ (DecodeRuneInString s).2 = 1) := by
  rintro ⟨h1, -⟩
  rw [h1, IsSpace_RuneError] at hsp
  exact Bool.noConfusion hsp

/-- The last byte of a non-empty list, split off. -/
theorem take_append_last (u : Bytes) (hne : u ≠ []) :
    u = u.take (u.length - 1) ++ [u.getD (u.length - 1) 0] := by
  induction u with
  | nil => exact absurd rfl hne
  | cons a t ih =>
    match t with
    | [] => rfl
    | b :: t' =>
      have := ih (by simp)
      simp only [List.length_cons, Nat.add_sub_cancel] at this ⊢
      rw [List.take_succ_cons, List.cons_append, List.getD_cons_succ]
      exact congrArg (List.cons a) this

/-- A white space rune at the end of a string: the string ends with its encoding. -/
theorem space_back (u : Bytes) (hne : u ≠ [])
    (hsp : IsSpace (DecodeLastRuneInString u).1 = true) :
    1 ≤ (DecodeLastRuneInString u).2 ∧ (DecodeLastRuneInString u).2 ≤ u.length
      ∧ u = u.take (u.length - (DecodeLastRuneInString u).2)
          ++ EncodeRune (DecodeLastRuneInString u).1 := by
  have hlen : 0 < u.length := List.length_pos.mpr hne
  rcases DecodeLastRuneInString_spec u hne with ⟨hlast, hd⟩ | ⟨hlast, hd | ⟨-, hle, hd⟩⟩
  · rw [hd]
    refine ⟨le_refl _, hlen, ?_⟩
    have e : EncodeRune (u.getD (u.length - 1) 0).toNat = [u.getD (u.length - 1) 0] := by
      unfold EncodeRune
      rw [if_pos hlast, ofNat_toNat]
    simp only [e]
    exact take_append_last u hne
  · rw [hd, IsSpace_RuneError] at hsp
    exact Bool.noConfusion hsp
  · rw [← hd] at hsp
    have hne' : u.drop (u.length - (DecodeLastRuneInString u).2) ≠ [] := by
      intro h0
      rw [h0] at hsp
      exact Bool.noConfusion (IsSpace_RuneError ▸ hsp)
    obtain ⟨-, hw, t, ht⟩ := DecodeRuneInString_valid _ hne' (space_valid hsp)
    rw [hd] at hw ht
    have hl := congrArg List.length ht
    rw [List.length_drop, List.length_append, ← hw] at hl
    have ht0 : t = [] := List.length_eq_zero.mp (by omega)
    rw [ht0, List.append_nil] at ht
    have h1 := (EncodeRune_length (DecodeLastRuneInString u).1).1
    refine ⟨by omega, hle, ?_⟩
    rw [← ht]
    exact (List.take_append_drop _ _).symm

theorem lastIndexFuncFalse_spec (s : Bytes) (fuel : Nat) :
    ∀ i : Nat, i ≤ s.length → i ≤ fuel →
      (lastIndexFuncFalse IsSpace s fuel i = none ∧ SpaceText (s.take i))
      ∨ ∃ k suf, 0 < k ∧ k ≤ i ∧ s.take i = s.take k ++ suf ∧ SpaceText suf
          ∧ IsSpace (DecodeLastRuneInString (s.take k)).1 = false
          ∧ lastIndexFuncFalse IsSpace s fuel i
              = some (k - (DecodeLastRuneInString (s.take k)).2) := by
  induction fuel with
  | zero =>
    intro i _ hi
    have : i = 0 := by omega
    subst this
    exact Or.inl ⟨rfl, by rw [List.take_zero]; exact SpaceText_nil⟩
  | succ fuel ih =>
    intro i hlen hi
    unfold lastIndexFuncFalse
    by_cases h0 : i = 0
    · subst h0
      exact Or.inl ⟨by simp, by rw [List.take_zero]; exact SpaceText_nil⟩
    rw [if_neg h0]
    simp only []
    by_cases hsp : IsSpace (DecodeLastRuneInString (s.take i)).1 = false
    · right
      rw [if_pos hsp]
      exact ⟨i, [], by omega, le_refl _, by simp, SpaceText_nil, hsp, rfl⟩
    · rw [if_neg hsp]
      have hsp' : IsSpace (DecodeLastRuneInString (s.take i)).1 = true := by simpa using hsp
      have hul : (s.take i).length = i := by rw [List.length_take]; omega
      have hne : s.take i ≠ [] := by
        intro h; rw [h] at hul; simp at hul; omega
      obtain ⟨h1, h2, h3⟩ := space_back (s.take i) hne hsp'
      rw [hul] at h2 h3
      rw [List.take_take, Nat.min_eq_left (by omega)] at h3
      rcases ih (i - (DecodeLastRuneInString (s.take i)).2) (by omega) (by omega) with
        ⟨r1, r2⟩ | ⟨k, suf, hk, hki, e, hsuf, hns, hres⟩
      · left
        refine ⟨r1, ?_⟩
        rw [h3]
        exact SpaceText_append r2 (SpaceText_single hsp')
      · right
        refine ⟨k, suf ++ EncodeRune (DecodeLastRuneInString (s.take i)).1, hk, by omega, ?_,
          SpaceText_append hsuf (SpaceText_single hsp'), hns, hres⟩
        rw [← List.append_assoc, ← e]
        exact h3

/-- The first byte of an encoding is not a continuation byte. -/
theorem EncodeRune_head (r : Nat) :
    ∃ c t, EncodeRune r = c :: t ∧ (c.toNat < 0x80 ∨ 0xC0 ≤ c.toNat) := by
  unfold EncodeRune
  by_cases h1 : r < 0x80
  · rw [if_pos h1]
    exact ⟨_, _, rfl, Or.inl (by rw [toNat_ofNat_lt _ (by omega)]; exact h1)⟩
  rw [if_neg h1]
  by_cases h2 : r ≤ 0x7FF
  · rw [if_pos h2]
    exact ⟨_, _, rfl, Or.inr (by rw [toNat_ofNat_lt _ (by omega)]; omega)⟩
  rw [if_neg h2]
  by_cases h3 : r > 0x10FFFF ∨ (0xD800 ≤ r ∧ r ≤ 0xDFFF)
  · rw [if_pos h3]
    exact ⟨_, _, rfl, Or.inr (by decide)⟩
  rw [if_neg h3]
  by_cases h4 : r ≤ 0xFFFF
  · rw [if_pos h4]
    exact ⟨_, _, rfl, Or.inr (by rw [toNat_ofNat_lt _ (by omega)]; omega)⟩
  rw [if_neg h4]
  exact ⟨_, _, rfl, Or.inr (by rw [toNat_ofNat_lt _ (by omega)]; omega)⟩

theorem SpaceText_head {bs : Bytes} (h : SpaceText bs) :
    bs = [] ∨ ∃ c t, bs = c :: t ∧ (c.toNat < 0x80 ∨ 0xC0 ≤ c.toNat) := by
  obtain ⟨rs, -, e⟩ := h
  match rs with
  | [] => left; rw [e]; rfl
  | r :: rs' =>
    right
    obtain ⟨c, t, hc, hr⟩ := EncodeRune_head r
    refine ⟨c, t ++ rs'.flatMap EncodeRune, ?_, hr⟩
    rw [e, List.flatMap_cons, hc]; rfl

/-- A byte that is not followed by a continuation byte decodes with width 1. -/
theorem decode_width_one (c0 : UInt8) (t : Bytes)
    (ht : t = [] ∨ ∃ c t', t = c :: t' ∧ (c.toNat < 0x80 ∨ 0xC0 ≤ c.toNat)) :
    (DecodeRuneInString (c0 :: t)).2 = 1 := by
  have hd := DecodeRuneInString_decoded (c0 :: t)
  generalize (DecodeRuneInString (c0 :: t)).1 = r at hd
  generalize (DecodeRuneInString (c0 :: t)).2 = w at hd
  generalize hs : c0 :: t = s at hd
  cases hd with
  | empty => exact absurd hs (by simp)
  | ascii a u h => rfl
  | invalid a u h => rfl
  | two a b u _ _ h1 h1' =>
    injection hs with e1 e2
    rcases ht with ht | ⟨c, t', ht, hc⟩
    · rw [ht] at e2; exact absurd e2 (by simp)
    · rw [ht] at e2; injection e2 with e3 e4; subst e3; omega
  | three a b c2 u _ _ h1 h1' =>
    injection hs with e1 e2
    rcases ht with ht | ⟨c, t', ht, hc⟩
    · rw [ht] at e2; exact absurd e2 (by simp)
    · rw [ht] at e2; injection e2 with e3 e4; subst e3; omega
  | four a b c2 c3 u _ _ h1 h1' =>
    injection hs with e1 e2
    rcases ht with ht | ⟨c, t', ht, hc⟩
    · rw [ht] at e2; exact absurd e2 (by simp)
    · rw [ht] at e2; injection e2 with e3 e4; subst e3; omega

/-- `TrimRightFunc` with `IsSpace` removes a white space text from the end and what is left does
not end with white space. -/
theorem TrimRightFunc_spec (s : Bytes) :
    ∃ suf, s = TrimRightFunc s IsSpace ++ suf ∧ SpaceText suf
      ∧ IsSpace (DecodeLastRuneInString (TrimRightFunc s IsSpace)).1 = false := by
  unfold TrimRightFunc
  rcases lastIndexFuncFalse_spec s s.length s.length (le_refl _) (le_refl _) with
    ⟨r1, r2⟩ | ⟨k, suf, hk, hki, e, hsuf, hns, hres⟩
  · rw [r1]
    rw [List.take_length] at r2
    exact ⟨s, by simp, r2, IsSpace_RuneError⟩
  · rw [hres]
    rw [List.take_length] at e
    have hul : (s.take k).length = k := by rw [List.length_take]; omega
    have hne : s.take k ≠ [] := by
      intro h; rw [h] at hul; simp at hul; omega
    have hdrop : s.drop k = suf :=
      List.append_cancel_left ((List.take_append_drop k s).trans e)
    -- the result is `s.take k`
    suffices hres2 : (if (s.getD (k - (DecodeLastRuneInString (s.take k)).2) 0).toNat ≥ RuneSelf
        then s.take (k - (DecodeLastRuneInString (s.take k)).2
          + (DecodeRuneInString (s.drop (k - (DecodeLastRuneInString (s.take k)).2))).2)
        else s.take (k - (DecodeLastRuneInString (s.take k)).2 + 1)) = s.take k by
      simp only [hres2]
      exact ⟨suf, e, hsuf, hns⟩
    have hget : ∀ j, j < k → s.getD j 0 = (s.take k).getD j 0 := by
      intro j hj
      rw [List.getD_eq_getElem?_getD, List.getD_eq_getElem?_getD, List.getElem?_take_of_lt hj]
    have hlastget : (s.take k).getD ((s.take k).length - 1) 0 = s.getD (k - 1) 0 := by
      rw [hul, hget (k - 1) (by omega)]
    have hsplit : s.drop (k - 1) = s.getD (k - 1) 0 :: suf := by
      have hlt : k - 1 < s.length := by omega
      rw [← hdrop, List.drop_eq_getElem_cons hlt, List.getD_eq_getElem?_getD,
        List.getElem?_eq_getElem hlt]
      simp only [Option.getD_some]
      congr 2
      omega
    have hone : 0x80 ≤ (s.getD (k - 1) 0).toNat →
        (DecodeLastRuneInString (s.take k)).2 = 1 →
        (if (s.getD (k - (DecodeLastRuneInString (s.take k)).2) 0).toNat ≥ RuneSelf
          then s.take (k - (DecodeLastRuneInString (s.take k)).2
            + (DecodeRuneInString (s.drop (k - (DecodeLastRuneInString (s.take k)).2))).2)
          else s.take (k - (DecodeLastRuneInString (s.take k)).2 + 1)) = s.take k := by
      intro h80 h1
      rw [h1, if_pos (by unfold RuneSelf; exact h80), hsplit,
        decode_width_one _ _ (SpaceText_head hsuf)]
      congr 1
      omega
    rcases DecodeLastRuneInString_spec (s.take k) hne with
      ⟨hlast, hd⟩ | ⟨hlast, hd | ⟨hge, hle, hd⟩⟩
    · rw [hlastget] at hlast hd
      rw [hd]
      simp only []
      rw [if_neg (by unfold RuneSelf; omega)]
      congr 1
      omega
    · rw [hlastget] at hlast
      exact hone hlast (by rw [hd])
    · rw [hlastget] at hlast
      rw [hul] at hle hd
      by_cases hv : (DecodeLastRuneInString (s.take k)).1 = RuneError
          ∧ (DecodeLastRuneInString (s.take k)).2 = 1
      · exact hone hlast hv.2
      · have hne' : (s.take k).drop (k - (DecodeLastRuneInString (s.take k)).2) ≠ [] := by
          intro h0
          have h3 := congrArg List.length h0
          rw [List.length_drop, hul] at h3
          simp at h3
          omega
        have hv' : ¬ ((DecodeRuneInString ((s.take k).drop
              (k - (DecodeLastRuneInString (s.take k)).2))).1 = RuneError
            ∧ (DecodeRuneInString ((s.take k).drop
              (k - (DecodeLastRuneInString (s.take k)).2))).2 = 1) := by
          rw [hd]; exact hv
        obtain ⟨hvr, hw, t, ht⟩ := DecodeRuneInString_valid _ hne' hv'
        rw [hd] at hw ht hvr
        have hl := congrArg List.length ht
        rw [List.length_drop, List.length_append, ← hw, hul] at hl
        have ht0 : t = [] := List.length_eq_zero.mp (by omega)
        rw [ht0, List.append_nil] at ht
        have h1 := (EncodeRune_length (DecodeLastRuneInString (s.take k)).1).1
        -- the bytes from the start of the last rune on
        have hsd : s.drop (k - (DecodeLastRuneInString (s.take k)).2)
            = EncodeRune (DecodeLastRuneInString (s.take k)).1 ++ suf := by
          have h5 := congrArg (List.drop (k - (DecodeLastRuneInString (s.take k)).2)) e
          rw [List.drop_append_of_le_length (by rw [hul]; omega), ht] at h5
          exact h5
        have hdec := DecodeRuneInString_EncodeRune (DecodeLastRuneInString (s.take k)).1 suf hvr
        rw [← hsd, ← hw] at hdec
        by_cases h80 : (s.getD (k - (DecodeLastRuneInString (s.take k)).2) 0).toNat ≥ RuneSelf
        · rw [if_pos h80, hdec]
          congr 1
          omega
        · rw [if_neg h80]
          -- an ASCII first byte: the rune has width 1
          obtain ⟨c, u, hcu⟩ : ∃ c u, s.drop (k - (DecodeLastRuneInString (s.take k)).2)
              = c :: u := by
            cases hx : s.drop (k - (DecodeLastRuneInString (s.take k)).2) with
            | nil =>
              rw [hx] at hsd
              exact absurd hsd.symm (by
                intro h9
                exact EncodeRune_ne_nil _ (List.append_eq_nil.mp h9).1)
            | cons c u => exact ⟨c, u, rfl⟩
          have hc : s.getD (k - (DecodeLastRuneInString (s.take k)).2) 0 = c := by
            have hlt : k - (DecodeLastRuneInString (s.take k)).2 < s.length := by omega
            rw [List.drop_eq_getElem_cons hlt] at hcu
            injection hcu with e1 e2
            rw [List.getD_eq_getElem?_getD, List.getElem?_eq_getElem hlt]
            exact e1
          rw [hc] at h80
          unfold RuneSelf at h80
          rw [hcu, decode_ascii c u (by omega)] at hdec
          have : (DecodeLastRuneInString (s.take k)).2 = 1 := by
            have := congrArg Prod.snd hdec
            simpa using this.symm
          congr 1
          omega

/-- A white space rune at the front of a prefix is at the front of the whole string. -/
theorem space_front_append (a b : Bytes) (hsp : IsSpace (DecodeRuneInString a).1 = true) :
    IsSpace (DecodeRuneInString (a ++ b)).1 = true := by
  have hne : a ≠ [] := by
    intro h
    rw [h] at hsp
    exact Bool.noConfusion (IsSpace_RuneError ▸ hsp)
  obtain ⟨hv, -, t, ht⟩ := DecodeRuneInString_valid a hne (space_valid hsp)
  have e : a ++ b = EncodeRune (DecodeRuneInString a).1 ++ (t ++ b) := by
    rw [← List.append_assoc, ← ht]
  rw [e, DecodeRuneInString_EncodeRune _ _ hv]
  exact hsp

/-- `strings.TrimSpace` removes a white space text from the front and one from the end, and
what it returns neither starts nor ends with a white space rune. -/
theorem TrimSpace_spec (s : Bytes) :
    ∃ pre suf, s = pre ++ TrimSpace s ++ suf ∧ SpaceText pre ∧ SpaceText suf
      ∧ IsSpace (DecodeRuneInString (TrimSpace s)).1 = false
      ∧ IsSpace (DecodeLastRuneInString (TrimSpace s)).1 = false := by
  obtain ⟨pre, hpre, hsp, hfront⟩ := TrimLeftFunc_spec s
  obtain ⟨suf, hsuf, hss, hback⟩ := TrimRightFunc_spec (TrimLeftFunc s IsSpace)
  refine ⟨pre, suf, ?_, hsp, hss, ?_, hback⟩
  · unfold TrimSpace TrimFunc
    rw [List.append_assoc, ← hsuf]
    exact hpre
  · unfold TrimSpace TrimFunc
    cases hx : IsSpace (DecodeRuneInString (TrimRightFunc (TrimLeftFunc s IsSpace) IsSpace)).1
      with
    | false => rfl
    | true =>
      have := space_front_append _ suf hx
      rw [← hsuf, hfront] at this
      exact Bool.noConfusion this

/-! ## String literals of JSON -/

theorem ne_of_toNat_ne {a b : UInt8} (h : a.toNat ≠ b.toNat) : a ≠ b := by
  intro e; exact h (congrArg UInt8.toNat e)

theorem parseString_quote (F : Nat) (rest acc : Bytes) :
    parseString (F + 1) (34 :: rest) acc = some (acc, rest) := by
  simp [parseString]

theorem parseString_plain (F : Nat) (c : UInt8) (t acc : Bytes) (h34 : c ≠ 34) (h92 : c ≠ 92)
    (h32 : 32 ≤ c.toNat) (h80 : c.toNat < 0x80) :
    parseString (F + 1) (c :: t) acc = parseString F t (acc ++ [c]) := by
  have h1 : ¬ c.toNat < 32 := by omega
  have h2 : c.toNat < RuneSelf := h80
  simp only [parseString, if_neg h34, if_neg h92, if_neg h1, if_pos h2]

theorem parseString_same (F : Nat) (e : UInt8) (t acc : Bytes) (h : e = 34 ∨ e = 92 ∨ e = 47) :
    parseString (F + 1) (92 :: e :: t) acc = parseString F t (acc ++ [e]) := by
  have h1 : ¬ ((92 : UInt8) = 34) := by decide
  simp only [parseString, if_neg h1, if_true, if_pos h]

theorem parseString_letter (F : Nat) (e x : UInt8) (t acc : Bytes)
    (h : (e = 98 ∧ x = 8) ∨ (e = 102 ∧ x = 12) ∨ (e = 110 ∧ x = 10) ∨ (e = 114 ∧ x = 13)
      ∨ (e = 116 ∧ x = 9)) :
    parseString (F + 1) (92 :: e :: t) acc = parseString F t (acc ++ [x]) := by
  have h1 : ¬ ((92 : UInt8) = 34) := by decide
  rcases h with ⟨h, hx⟩ | ⟨h, hx⟩ | ⟨h, hx⟩ | ⟨h, hx⟩ | ⟨h, hx⟩ <;> subst h <;> subst hx <;>
    simp [parseString]

theorem parseString_u (F : Nat) (a b c d : UInt8) (t acc : Bytes) (rr : Nat)
    (hu : getu4 (92 :: 117 :: a :: b :: c :: d :: t) = some rr)
    (hns : ¬ (0xD800 ≤ rr ∧ rr < 0xE000)) :
    parseString (F + 1) (92 :: 117 :: a :: b :: c :: d :: t) acc
      = parseString F t (acc ++ EncodeRune rr) := by
  have h1 : ¬ ((92 : UInt8) = 34) := by decide
  have h2 : ¬ ((117 : UInt8) = 34 ∨ (117 : UInt8) = 92 ∨ (117 : UInt8) = 47) := by decide
  have h3 : ¬ ((117 : UInt8) = 98) := by decide
  have h4 : ¬ ((117 : UInt8) = 102) := by decide
  have h5 : ¬ ((117 : UInt8) = 110) := by decide
  have h6 : ¬ ((117 : UInt8) = 114) := by decide
  have h7 : ¬ ((117 : UInt8) = 116) := by decide
  simp only [parseString, if_neg h1, if_true, if_neg h2, if_neg h3, if_neg h4, if_neg h5,
    if_neg h6, if_neg h7, hu, if_neg hns, List.drop_succ_cons, List.drop_zero]

theorem parseString_rune (F : Nat) (c : UInt8) (t acc : Bytes) (h80 : 0x80 ≤ c.toNat) :
    parseString (F + 1) (c :: t) acc
      = parseString F ((c :: t).drop (DecodeRuneInString (c :: t)).2)
          (acc ++ EncodeRune (DecodeRuneInString (c :: t)).1) := by
  have h34 : c ≠ 34 := ne_of_toNat_ne (by
    have : (34 : UInt8).toNat = 34 := rfl
    omega)
  have h92 : c ≠ 92 := ne_of_toNat_ne (by
    have : (92 : UInt8).toNat = 92 := rfl
    omega)
  have h1 : ¬ c.toNat < 32 := by omega
  have h2 : ¬ c.toNat < RuneSelf := by unfold RuneSelf; omega
  simp only [parseString, if_neg h34, if_neg h92, if_neg h1, if_neg h2]

theorem hexVal_hexDigit (n : Nat) (h : n < 16) : hexVal (hexDigit n) = some n := by
  interval_cases n <;> rfl

theorem getu4_eq (a b c d : UInt8) (t : Bytes) (x y z w : Nat) (ha : hexVal a = some x)
    (hb : hexVal b = some y) (hc : hexVal c = some z) (hd : hexVal d = some w) :
    getu4 (92 :: 117 :: a :: b :: c :: d :: t) = some (x * 4096 + y * 256 + z * 16 + w) := by
  simp only [getu4, ha, hb, hc, hd]

theorem escapeString_nil (n : Nat) : escapeString n [] = [] := by
  cases n <;> rfl

theorem validLoop_nil (n : Nat) : validLoop n [] = true := by
  cases n <;> rfl

theorem validLoop_cons (n : Nat) (b : UInt8) (t : Bytes) (h : validLoop (n + 1) (b :: t) = true) :
    ¬ ((DecodeRuneInString (b :: t)).1 = RuneError ∧ (DecodeRuneInString (b :: t)).2 = 1)
      ∧ validLoop n ((b :: t).drop (DecodeRuneInString (b :: t)).2) = true := by
  simp only [validLoop] at h
  by_cases hv : (DecodeRuneInString (b :: t)).1 = RuneError
      ∧ (DecodeRuneInString (b :: t)).2 = 1
  · rw [if_pos hv] at h; exact Bool.noConfusion h
  · rw [if_neg hv] at h; exact ⟨hv, h⟩

/-- The text between the quotes that `appendString` writes for a well-formed string is read
back by `parseString` as that string. -/
theorem parseString_escapeString (n : Nat) :
    ∀ (s acc rest : Bytes) (F : Nat), s.length ≤ n → validLoop n s = true →
      (escapeString n s).length < F →
      parseString F (escapeString n s ++ 34 :: rest) acc = some (acc ++ s, rest) := by
  induction n with
  | zero =>
    intro s acc rest F hlen _ hF
    have hs : s = [] := List.length_eq_zero.mp (by omega)
    subst hs
    obtain ⟨F', rfl⟩ : ∃ F', F = F' + 1 := ⟨F - 1, by omega⟩
    rw [escapeString_nil, List.nil_append, parseString_quote, List.append_nil]
  | succ n ih =>
    intro s acc rest F hlen hvalid hF
    match s with
    | [] =>
      obtain ⟨F', rfl⟩ : ∃ F', F = F' + 1 := ⟨F - 1, by omega⟩
      rw [escapeString_nil, List.nil_append, parseString_quote, List.append_nil]
    | b :: t =>
      have hb := UInt8.toNat_lt b
      have htl : t.length ≤ n := by simp only [List.length_cons] at hlen; omega
      obtain ⟨hv, hvt⟩ := validLoop_cons n b t hvalid
      by_cases h80 : b.toNat < RuneSelf
      · -- an ASCII byte
        have h80' : b.toNat < 0x80 := h80
        rw [decode_ascii b t h80'] at hvt
        simp only [List.drop_succ_cons, List.drop_zero] at hvt
        by_cases hsafe : htmlSafe b = true
        · have e : escapeString (n + 1) (b :: t) = b :: escapeString n t := by
            simp only [escapeString, if_pos h80, if_pos hsafe]
          rw [e] at hF ⊢
          obtain ⟨F', rfl⟩ : ∃ F', F = F' + 1 := ⟨F - 1, by
            simp only [List.length_cons] at hF; omega⟩
          simp only [htmlSafe, Bool.and_eq_true, decide_eq_true_eq, Bool.not_eq_true',
            Bool.or_eq_false_iff, decide_eq_false_iff_not] at hsafe
          rw [List.cons_append, parseString_plain F' b _ acc hsafe.2.1.1.1.1 hsafe.2.1.1.1.2
            hsafe.1 h80', ih t (acc ++ [b]) rest F' htl hvt (by
              simp only [List.length_cons] at hF; omega)]
          simp
        · by_cases hq : b = 92 ∨ b = 34
          · have e : escapeString (n + 1) (b :: t) = 92 :: b :: escapeString n t := by
              simp only [escapeString, if_pos h80, if_neg hsafe, if_pos hq]
            rw [e] at hF ⊢
            obtain ⟨F', rfl⟩ : ∃ F', F = F' + 1 := ⟨F - 1, by
              simp only [List.length_cons] at hF; omega⟩
            rw [List.cons_append, List.cons_append, parseString_same F' b _ acc (by tauto),
              ih t (acc ++ [b]) rest F' htl hvt (by
                simp only [List.length_cons] at hF; omega)]
            simp
          · by_cases hl : b = 8 ∨ b = 12 ∨ b = 10 ∨ b = 13 ∨ b = 9
            · obtain ⟨e', he', hee⟩ : ∃ e' : UInt8,
                  escapeString (n + 1) (b :: t) = 92 :: e' :: escapeString n t
                  ∧ ((e' = 98 ∧ b = 8) ∨ (e' = 102 ∧ b = 12) ∨ (e' = 110 ∧ b = 10)
                    ∨ (e' = 114 ∧ b = 13) ∨ (e' = 116 ∧ b = 9)) := by
                rcases hl with h | h | h | h | h <;> subst h
                · exact ⟨98, rfl, by decide⟩
                · exact ⟨102, rfl, by decide⟩
                · exact ⟨110, rfl, by decide⟩
                · exact ⟨114, rfl, by decide⟩
                · exact ⟨116, rfl, by decide⟩
              rw [he'] at hF ⊢
              obtain ⟨F', rfl⟩ : ∃ F', F = F' + 1 := ⟨F - 1, by
                simp only [List.length_cons] at hF; omega⟩
              rw [List.cons_append, List.cons_append, parseString_letter F' e' b _ acc hee,
                ih t (acc ++ [b]) rest F' htl hvt (by
                  simp only [List.length_cons] at hF; omega)]
              simp
            · have e : escapeString (n + 1) (b :: t)
                  = 92 :: 117 :: 48 :: 48 :: hexDigit (b.toNat / 16)
                    :: hexDigit (b.toNat % 16) :: escapeString n t := by
                have h1 : ¬ b = 8 := by tauto
                have h2 : ¬ b = 12 := by tauto
                have h3 : ¬ b = 10 := by tauto
                have h4 : ¬ b = 13 := by tauto
                have h5 : ¬ b = 9 := by tauto
                simp only [escapeString, if_pos h80, if_neg hsafe, if_neg hq, if_neg h1,
                  if_neg h2, if_neg h3, if_neg h4, if_neg h5]
              rw [e] at hF ⊢
              obtain ⟨F', rfl⟩ : ∃ F', F = F' + 1 := ⟨F - 1, by
                simp only [List.length_cons] at hF; omega⟩
              have hu := getu4_eq 48 48 (hexDigit (b.toNat / 16)) (hexDigit (b.toNat % 16))
                (escapeString n t ++ 34 :: rest) 0 0 (b.toNat / 16) (b.toNat % 16) rfl rfl
                (hexVal_hexDigit _ (by omega)) (hexVal_hexDigit _ (by omega))
              have hval : 0 * 4096 + 0 * 256 + b.toNat / 16 * 16 + b.toNat % 16 = b.toNat := by
                omega
              rw [hval] at hu
              have henc : EncodeRune b.toNat = [b] := by
                unfold EncodeRune; rw [if_pos h80', ofNat_toNat]
              simp only [List.cons_append]
              rw [parseString_u F' _ _ _ _ _ acc b.toNat hu (by omega), henc,
                ih t (acc ++ [b]) rest F' htl hvt (by
                  simp only [List.length_cons] at hF; omega)]
              simp
      · -- the first byte of a rune above ASCII
        have h80' : 0x80 ≤ b.toNat := by unfold RuneSelf at h80; omega
        obtain ⟨hvr, hw, u, hu⟩ := DecodeRuneInString_valid (b :: t) (by simp) hv
        have hdrop : (b :: t).drop (DecodeRuneInString (b :: t)).2 = u := by
          rw [hw, congrArg (List.drop _) hu]
          exact List.drop_left _ _
        have htake : (b :: t).take (DecodeRuneInString (b :: t)).2
            = EncodeRune (DecodeRuneInString (b :: t)).1 := by
          rw [hw, congrArg (List.take _) hu]
          exact List.take_left _ _
        have hul : u.length ≤ n := by
          have h1 := congrArg List.length hu
          have h2 := (EncodeRune_length (DecodeRuneInString (b :: t)).1).1
          rw [List.length_append] at h1
          omega
        rw [hdrop] at hvt
        have hsplit : acc ++ b :: t
            = acc ++ EncodeRune (DecodeRuneInString (b :: t)).1 ++ u := by
          rw [List.append_assoc, ← hu]
        by_cases hls : (DecodeRuneInString (b :: t)).1 = 0x2028
            ∨ (DecodeRuneInString (b :: t)).1 = 0x2029
        · have e : escapeString (n + 1) (b :: t)
              = 92 :: 117 :: 50 :: 48 :: 50
                :: hexDigit ((DecodeRuneInString (b :: t)).1 % 16) :: escapeString n u := by
            simp only [escapeString, if_neg h80, if_neg hv, if_pos hls, hdrop]
            rfl
          rw [e] at hF ⊢
          obtain ⟨F', rfl⟩ : ∃ F', F = F' + 1 := ⟨F - 1, by
            simp only [List.length_cons] at hF; omega⟩
          have hu4 := getu4_eq 50 48 50 (hexDigit ((DecodeRuneInString (b :: t)).1 % 16))
            (escapeString n u ++ 34 :: rest) 2 0 2 ((DecodeRuneInString (b :: t)).1 % 16)
            rfl rfl rfl (hexVal_hexDigit _ (by omega))
          have hval : 2 * 4096 + 0 * 256 + 2 * 16 + (DecodeRuneInString (b :: t)).1 % 16
              = (DecodeRuneInString (b :: t)).1 := by omega
          rw [hval] at hu4
          simp only [List.cons_append]
          rw [parseString_u F' _ _ _ _ _ acc _ hu4 (by omega),
            ih u _ rest F' hul hvt (by simp only [List.length_cons] at hF; omega), hsplit]
        · have e : escapeString (n + 1) (b :: t)
              = EncodeRune (DecodeRuneInString (b :: t)).1 ++ escapeString n u := by
            simp only [escapeString, if_neg h80, if_neg hv, if_neg hls, hdrop, htake]
          rw [e] at hF ⊢
          obtain ⟨c, v, hcv, hc⟩ := EncodeRune_head (DecodeRuneInString (b :: t)).1
          have hcb : c = b := by
            have := hu
            rw [hcv] at this
            injection this with h1 _
            exact h1.symm
          subst hcb
          obtain ⟨F', rfl⟩ : ∃ F', F = F' + 1 := ⟨F - 1, by
            rw [List.length_append] at hF; omega⟩
          have hin : EncodeRune (DecodeRuneInString (c :: t)).1 ++ escapeString n u
              ++ 34 :: rest = c :: (v ++ escapeString n u ++ 34 :: rest) := by
            rw [hcv]; simp
          have hdec : DecodeRuneInString (c :: (v ++ escapeString n u ++ 34 :: rest))
              = DecodeRuneInString (c :: t) := by
            rw [← hin, List.append_assoc, DecodeRuneInString_EncodeRune _ _ hvr, ← hw]
          rw [hin, parseString_rune F' c _ acc h80', hdec, ← hin, hw, List.append_assoc,
            List.drop_left, ih u _ rest F' hul hvt (by
              rw [List.length_append] at hF
              have := (EncodeRune_length (DecodeRuneInString (c :: t)).1).1
              omega), hsplit]

/-! ## Reading what was written -/

theorem skipSpace_cons (c : UInt8) (t : Bytes) (h : isSpaceJSON c = false) :
    skipSpace (c :: t) = c :: t := by
  simp only [skipSpace, h]
  rfl

theorem quote_length (s : Bytes) : (quote s).length = (escapeString s.length s).length + 2 := by
  simp [quote]

theorem parseString_quote_tail (s rest : Bytes) (hs : ValidString s = true) :
    parseString ((escapeString s.length s ++ 34 :: rest).length + 1)
      (escapeString s.length s ++ 34 :: rest) [] = some (s, rest) := by
  have := parseString_escapeString s.length s [] rest
    ((escapeString s.length s ++ 34 :: rest).length + 1) (le_refl _) hs (by
      rw [List.length_append]; omega)
  rw [this, List.nil_append]

theorem parseValue_string (F : Nat) (t : Bytes) :
    parseValue (F + 1) (34 :: t) =
      match parseString (t.length + 1) t [] with
      | none => none
      | some (s, rest) => some (JSON.str s, rest) := by
  simp only [parseValue]
  rw [skipSpace_cons 34 _ (by decide)]
  simp only []
  rw [if_neg (by decide), if_neg (by decide)]
  simp only [if_true]

theorem parseValue_array (F : Nat) (c : UInt8) (t : Bytes) (hc : isSpaceJSON c = false)
    (h93 : c ≠ 93) :
    parseValue (F + 1) (91 :: c :: t) =
      match parseElements (parseValue F) (c :: t).length (c :: t) with
      | none => none
      | some (xs, rest) => some (JSON.arr xs, rest) := by
  simp only [parseValue]
  rw [skipSpace_cons 91 _ (by decide)]
  simp only []
  rw [if_neg (by decide)]
  simp only [if_true]
  rw [skipSpace_cons c _ hc]
  simp only []
  rw [if_neg h93]

theorem parseValue_object (F : Nat) (t : Bytes) :
    parseValue (F + 1) (123 :: 34 :: t) =
      match parseMembers (parseValue F) (34 :: t).length (34 :: t) with
      | none => none
      | some (kvs, rest) => some (JSON.obj kvs, rest) := by
  simp only [parseValue]
  rw [skipSpace_cons 123 _ (by decide)]
  simp only [if_true]
  rw [skipSpace_cons 34 _ (by decide)]
  simp only []
  rw [if_neg (by decide)]

theorem parseValue_object_empty (F : Nat) (t : Bytes) :
    parseValue (F + 1) (123 :: 125 :: t) = some (JSON.obj [], t) := by
  simp only [parseValue]
  rw [skipSpace_cons 123 _ (by decide)]
  simp only [if_true]
  rw [skipSpace_cons 125 _ (by decide)]
  rfl

theorem Reads_quote (s : Bytes) (hs : ValidString s = true) : Reads (quote s) (JSON.str s) := by
  intro fuel rest hfuel
  obtain ⟨F, rfl⟩ : ∃ F, fuel = F + 1 := ⟨fuel - 1, by rw [quote_length] at hfuel; omega⟩
  have e : quote s ++ rest = 34 :: (escapeString s.length s ++ 34 :: rest) := by
    simp [quote]
  rw [e, parseValue_string, parseString_quote_tail s rest hs]

theorem StartsValue_quote (s : Bytes) : StartsValue (quote s) :=
  ⟨34, _, rfl, by decide, by decide⟩

theorem Reads_true : Reads (str "true") (JSON.bool true) := by
  intro fuel rest hfuel
  obtain ⟨F, rfl⟩ : ∃ F, fuel = F + 1 := ⟨fuel - 1, by
    have : (str "true").length = 4 := rfl
    omega⟩
  rfl

theorem joinComma_cons_cons (x y : Bytes) (rest : List Bytes) :
    joinComma (x :: y :: rest) = x ++ 44 :: joinComma (y :: rest) := rfl

theorem joinComma_length_mem (xs : List Bytes) :
    ∀ x ∈ xs, x.length ≤ (joinComma xs).length := by
  induction xs with
  | nil => intro x hx; exact absurd hx (List.not_mem_nil _)
  | cons y ys ih =>
    intro x hx
    match ys with
    | [] =>
      rw [List.mem_singleton] at hx
      rw [hx]
      exact le_refl _
    | z :: zs =>
      rw [joinComma_cons_cons, List.length_append, List.length_cons]
      rcases List.mem_cons.mp hx with h | h
      · rw [h]; omega
      · have := ih x h
        omega

theorem joinComma_length_count (xs : List Bytes) (hne : ∀ x ∈ xs, x ≠ []) :
    xs.length ≤ (joinComma xs).length := by
  induction xs with
  | nil => exact Nat.zero_le _
  | cons y ys ih =>
    have hy : 1 ≤ y.length := by
      have := hne y (List.mem_cons_self _ _)
      exact Nat.one_le_iff_ne_zero.mpr (fun h => this (List.length_eq_zero.mp h))
    match ys with
    | [] => exact hy
    | z :: zs =>
      have := ih (fun x hx => hne x (List.mem_cons_of_mem _ hx))
      rw [joinComma_cons_cons, List.length_append]
      simp only [List.length_cons] at this ⊢
      omega

/-- The elements of an array, written with commas between them, are read as their trees. -/
theorem parseElements_join (value : Bytes → Option (JSON × Bytes)) (es : List (Bytes × JSON))
    (hne : es ≠ []) (hr : ∀ e ∈ es, ∀ rest, value (e.1 ++ rest) = some (e.2, rest)) :
    ∀ (n : Nat) (rest : Bytes), es.length ≤ n →
      parseElements value n (joinComma (es.map Prod.fst) ++ 93 :: rest)
        = some (es.map Prod.snd, rest) := by
  induction es with
  | nil => exact absurd rfl hne
  | cons e es ih =>
    intro n rest hn
    rw [List.length_cons] at hn
    obtain ⟨n', rfl⟩ : ∃ n', n = n' + 1 := ⟨n - 1, by omega⟩
    have he := hr e (List.mem_cons_self _ _)
    match es with
    | [] =>
      simp only [List.map_cons, List.map_nil, joinComma]
      simp only [parseElements]
      rw [he (93 :: rest)]
      simp only []
      rw [skipSpace_cons 93 _ (by decide)]
      simp only []
      rw [if_neg (by decide)]
      simp only [if_true]
    | e2 :: es' =>
      simp only [List.map_cons, joinComma_cons_cons]
      simp only [parseElements]
      rw [List.append_assoc, he _]
      simp only [List.cons_append]
      rw [skipSpace_cons 44 _ (by decide)]
      simp only [if_true]
      have := ih (by simp) (fun x hx => hr x (List.mem_cons_of_mem _ hx)) n' rest (by omega)
      simp only [List.map_cons] at this
      rw [this]

theorem StartsValue_ne_nil (bytes : Bytes) (h : StartsValue bytes) : bytes ≠ [] := by
  obtain ⟨c, t, h1, _, _⟩ := h
  rw [h1]
  exact List.cons_ne_nil _ _

theorem Reads_array (es : List (Bytes × JSON)) (hne : es ≠ [])
    (hr : ∀ e ∈ es, Reads e.1 e.2) (hs : ∀ e ∈ es, StartsValue e.1) :
    Reads (91 :: joinComma (es.map Prod.fst) ++ [93]) (JSON.arr (es.map Prod.snd)) := by
  intro fuel rest hfuel
  simp only [List.length_append, List.length_cons, List.length_nil] at hfuel
  obtain ⟨F, rfl⟩ : ∃ F, fuel = F + 1 := ⟨fuel - 1, by omega⟩
  have hj : ∃ c t, joinComma (es.map Prod.fst) = c :: t ∧ isSpaceJSON c = false ∧ c ≠ 93 := by
    match es with
    | [] => exact absurd rfl hne
    | [e] =>
      obtain ⟨c, t, h1, h2, h3⟩ := hs e (List.mem_cons_self _ _)
      exact ⟨c, t, by simp [joinComma, h1], h2, h3⟩
    | e :: e2 :: es' =>
      obtain ⟨c, t, h1, h2, h3⟩ := hs e (List.mem_cons_self _ _)
      exact ⟨c, t ++ 44 :: joinComma ((e2 :: es').map Prod.fst), by
        simp only [List.map_cons, joinComma_cons_cons, h1]; rfl, h2, h3⟩
  obtain ⟨c, t, hct, hc, h93⟩ := hj
  have hcount : es.length ≤ (joinComma (es.map Prod.fst)).length := by
    have := joinComma_length_count (es.map Prod.fst) (by
      intro x hx
      obtain ⟨e, he, rfl⟩ := List.mem_map.mp hx
      exact StartsValue_ne_nil _ (hs e he))
    rw [List.length_map] at this
    exact this
  have hvalue : ∀ e ∈ es, ∀ rest, parseValue F (e.1 ++ rest) = some (e.2, rest) := by
    intro e he rest
    have := joinComma_length_mem (es.map Prod.fst) e.1 (List.mem_map.mpr ⟨e, he, rfl⟩)
    exact hr e he F rest (by omega)
  have e : (91 :: joinComma (es.map Prod.fst) ++ [93]) ++ rest
      = 91 :: c :: (t ++ 93 :: rest) := by
    rw [hct]; simp
  have e2 : joinComma (es.map Prod.fst) ++ 93 :: rest = c :: (t ++ 93 :: rest) := by
    rw [hct]; rfl
  have hp := parseElements_join (parseValue F) es hne hvalue
    (joinComma (es.map Prod.fst) ++ 93 :: rest).length rest (by
      rw [List.length_append]; omega)
  rw [e, parseValue_array F c _ hc h93, ← e2, hp]

/-- The members of an object, written with commas between them, are read as keys with their
trees. -/
theorem parseMembers_join (value : Bytes → Option (JSON × Bytes))
    (ms : List (Bytes × Bytes × JSON)) (hne : ms ≠ [])
    (hk : ∀ m ∈ ms, ValidString m.1 = true)
    (hr : ∀ m ∈ ms, ∀ rest, value (m.2.1 ++ rest) = some (m.2.2, rest)) :
    ∀ (n : Nat) (rest : Bytes), ms.length ≤ n →
      parseMembers value n (joinComma (ms.map (fun m => member m.1 m.2.1)) ++ 125 :: rest)
        = some (ms.map (fun m => (m.1, m.2.2)), rest) := by
  induction ms with
  | nil => exact absurd rfl hne
  | cons m ms ih =>
    intro n rest hn
    rw [List.length_cons] at hn
    obtain ⟨n', rfl⟩ : ∃ n', n = n' + 1 := ⟨n - 1, by omega⟩
    have hm := hr m (List.mem_cons_self _ _)
    have hkey := hk m (List.mem_cons_self _ _)
    have hstep : ∀ (tail : Bytes) (c2 : UInt8) (t2 : Bytes), tail = c2 :: t2 →
        isSpaceJSON c2 = false →
        parseMembers value (n' + 1) (member m.1 m.2.1 ++ tail) =
          if c2 = 44 then
            match parseMembers value n' t2 with
            | none => none
            | some (kvs, rest2) => some ((m.1, m.2.2) :: kvs, rest2)
          else if c2 = 125 then some ([(m.1, m.2.2)], t2)
          else none := by
      intro tail c2 t2 htail hc2
      have e : member m.1 m.2.1 ++ tail
          = 34 :: (escapeString m.1.length m.1 ++ 34 :: (58 :: (m.2.1 ++ tail))) := by
        simp [member, quote]
      rw [e]
      simp only [parseMembers]
      rw [skipSpace_cons 34 _ (by decide)]
      simp only [if_true]
      rw [parseString_quote_tail m.1 _ hkey]
      simp only []
      rw [skipSpace_cons 58 _ (by decide)]
      simp only [if_true]
      rw [hm tail]
      simp only []
      rw [htail, skipSpace_cons c2 _ hc2]
    match ms with
    | [] =>
      simp only [List.map_cons, List.map_nil, joinComma]
      rw [hstep (125 :: rest) 125 rest rfl (by decide)]
      rw [if_neg (by decide)]
      simp only [if_true]
    | m2 :: ms' =>
      simp only [List.map_cons, joinComma_cons_cons]
      rw [List.append_assoc]
      simp only [List.cons_append]
      rw [hstep _ 44 _ rfl (by decide)]
      simp only [if_true]
      have := ih (by simp) (fun x hx => hk x (List.mem_cons_of_mem _ hx))
        (fun x hx => hr x (List.mem_cons_of_mem _ hx)) n' rest (by omega)
      simp only [List.map_cons] at this
      rw [this]

theorem member_head (key value : Bytes) : ∃ t, member key value = 34 :: t :=
  ⟨_, rfl⟩

theorem member_length (key value : Bytes) : value.length < (member key value).length := by
  simp only [member, List.length_append, List.length_cons]
  omega

/-- An object written member by member is read as the list of its keys and trees. -/
theorem Reads_object (ms : List (Bytes × Bytes × JSON))
    (hk : ∀ m ∈ ms, ValidString m.1 = true) (hr : ∀ m ∈ ms, Reads m.2.1 m.2.2) :
    Reads (123 :: joinComma (ms.map (fun m => member m.1 m.2.1)) ++ [125])
      (JSON.obj (ms.map (fun m => (m.1, m.2.2)))) := by
  intro fuel rest hfuel
  simp only [List.length_append, List.length_cons, List.length_nil] at hfuel
  obtain ⟨F, rfl⟩ : ∃ F, fuel = F + 1 := ⟨fuel - 1, by omega⟩
  match ms with
  | [] =>
    simp only [List.map_nil, joinComma, List.nil_append, List.cons_append]
    exact parseValue_object_empty F rest
  | m :: ms' =>
    have hj : ∃ t, joinComma ((m :: ms').map (fun m => member m.1 m.2.1)) = 34 :: t := by
      match ms' with
      | [] => exact ⟨_, rfl⟩
      | m2 :: ms'' => exact ⟨_, rfl⟩
    obtain ⟨t, ht⟩ := hj
    have hcount : (m :: ms').length
        ≤ (joinComma ((m :: ms').map (fun m => member m.1 m.2.1))).length := by
      have := joinComma_length_count ((m :: ms').map (fun m => member m.1 m.2.1)) (by
        intro x hx
        obtain ⟨e, _, rfl⟩ := List.mem_map.mp hx
        obtain ⟨t', ht'⟩ := member_head e.1 e.2.1
        rw [ht']
        exact List.cons_ne_nil _ _)
      rw [List.length_map] at this
      exact this
    have hvalue : ∀ e ∈ m :: ms', ∀ rest,
        parseValue F (e.2.1 ++ rest) = some (e.2.2, rest) := by
      intro e he rest
      have h1 := joinComma_length_mem ((m :: ms').map (fun m => member m.1 m.2.1))
        (member e.1 e.2.1) (List.mem_map.mpr ⟨e, he, rfl⟩)
      have h2 := member_length e.1 e.2.1
      exact hr e he F rest (by omega)
    have e : (123 :: joinComma ((m :: ms').map (fun m => member m.1 m.2.1)) ++ [125]) ++ rest
        = 123 :: 34 :: (t ++ 125 :: rest) := by
      rw [ht]; simp
    have e2 : joinComma ((m :: ms').map (fun m => member m.1 m.2.1)) ++ 125 :: rest
        = 34 :: (t ++ 125 :: rest) := by
      rw [ht]; rfl
    have hp := parseMembers_join (parseValue F) (m :: ms') (by simp) hk hvalue
      (joinComma ((m :: ms').map (fun m => member m.1 m.2.1)) ++ 125 :: rest).length rest (by
        rw [List.length_append]; omega)
    rw [e, parseValue_object F _, ← e2, hp]

/-! ## The server envelope -/

theorem stringField_eq (key s : Bytes) :
    stringField key s = (stringEntry key s).map Entry.text := by
  unfold stringField stringEntry
  split <;> rfl

theorem stringEntry_ok (key s : Bytes) (hk : ValidString key = true)
    (hs : ValidString s = true) :
    ∀ m ∈ stringEntry key s, ValidString m.1 = true ∧ Reads m.2.1 m.2.2 := by
  intro m hm
  unfold stringEntry at hm
  split at hm
  · simp at hm
  · simp only [List.mem_singleton] at hm
    subst hm
    exact ⟨hk, Reads_quote s hs⟩

theorem marshalPublicIP_eq (p : PublicIP) :
    marshalPublicIP p = 123 :: joinComma ((publicIPEntries p).map Entry.text) ++ [125] := by
  unfold marshalPublicIP publicIPEntries
  rw [stringField_eq, stringField_eq, List.map_append, List.map_append]
  cases p.Dynamic <;> rfl

theorem publicIPEntries_ok (p : PublicIP) (hp : p.Valid) :
    ∀ m ∈ publicIPEntries p, ValidString m.1 = true ∧ Reads m.2.1 m.2.2 := by
  intro m hm
  unfold publicIPEntries at hm
  rcases List.mem_append.mp hm with h | h
  · rcases List.mem_append.mp h with h | h
    · exact stringEntry_ok _ _ (by decide) hp.1 m h
    · split at h
      · simp only [List.mem_singleton] at h
        subst h
        exact ⟨(by decide : ValidString (str "dynamic") = true), Reads_true⟩
      · simp at h
  · exact stringEntry_ok _ _ (by decide) hp.2 m h

theorem Reads_entries (ms : List Entry)
    (h : ∀ m ∈ ms, ValidString m.1 = true ∧ Reads m.2.1 m.2.2) :
    Reads (123 :: joinComma (ms.map Entry.text) ++ [125]) (JSON.obj (ms.map Entry.tree)) :=
  Reads_object ms (fun m hm => (h m hm).1) (fun m hm => (h m hm).2)

theorem Reads_marshalPublicIP (p : PublicIP) (hp : p.Valid) :
    Reads (marshalPublicIP p) (publicIPTree p) := by
  rw [marshalPublicIP_eq]
  exact Reads_entries _ (publicIPEntries_ok p hp)

theorem Reads_marshalStrings (xs : List Bytes) (hne : xs ≠ [])
    (hv : ∀ t ∈ xs, ValidString t = true) :
    Reads (marshalStrings xs) (JSON.arr (xs.map JSON.str)) := by
  have h := Reads_array (xs.map (fun t => (quote t, JSON.str t))) (by simpa using hne)
    (by
      intro e he
      obtain ⟨t, ht, rfl⟩ := List.mem_map.mp he
      exact Reads_quote t (hv t ht))
    (by
      intro e he
      obtain ⟨t, _, rfl⟩ := List.mem_map.mp he
      exact StartsValue_quote t)
  simp only [List.map_map] at h
  exact h

theorem marshalServer_eq (s : Server) :
    marshalServer s = 123 :: joinComma ((serverEntries s).map Entry.text) ++ [125] := by
  unfold marshalServer serverEntries
  simp only [stringField_eq, List.map_append]
  by_cases h : s.Tags = []
  · simp only [h, if_true]; rfl
  · simp only [h, if_false]; rfl

theorem serverEntries_ok (s : Server) (hs : s.Valid) :
    ∀ m ∈ serverEntries s, ValidString m.1 = true ∧ Reads m.2.1 m.2.2 := by
  obtain ⟨h1, h2, h3, h4, h5, h6, h7, h8, h9⟩ := hs
  intro m hm
  unfold serverEntries at hm
  simp only [List.mem_append] at hm
  rcases hm with (((((((h | h) | h) | h) | h) | h) | h) | h) | h
  · exact stringEntry_ok _ _ (by decide) h1 m h
  · exact stringEntry_ok _ _ (by decide) h2 m h
  · exact stringEntry_ok _ _ (by decide) h3 m h
  · exact stringEntry_ok _ _ (by decide) h4 m h
  · exact stringEntry_ok _ _ (by decide) h5 m h
  · exact stringEntry_ok _ _ (by decide) h6 m h
  · simp only [List.mem_singleton] at h
    subst h
    exact ⟨(by decide : ValidString (str "public_ip") = true), Reads_marshalPublicIP _ h7⟩
  · exact stringEntry_ok _ _ (by decide) h8 m h
  · split at h
    · simp at h
    · rename_i hne
      simp only [List.mem_singleton] at h
      subst h
      exact ⟨(by decide : ValidString (str "tags") = true), Reads_marshalStrings _ hne h9⟩

theorem Reads_marshalServer (s : Server) (hs : s.Valid) :
    Reads (marshalServer s) (serverTree s) := by
  rw [marshalServer_eq]
  exact Reads_entries _ (serverEntries_ok s hs)

theorem Reads_marshalServerResponse (r : ServerResponse) (hr : r.Server.Valid) :
    Reads (marshalServerResponse r) (serverResponseTree r) := by
  have h := Reads_entries [(str "server", marshalServer r.Server, serverTree r.Server)] (by
    intro m hm
    simp only [List.mem_singleton] at hm
    subst hm
    exact ⟨(by decide : ValidString (str "server") = true), Reads_marshalServer _ hr⟩)
  exact h

theorem parseJSON_marshalServerResponse (r : ServerResponse) (hr : r.Server.Valid) :
    parseJSON (marshalServerResponse r) = some (serverResponseTree r) := by
  unfold parseJSON
  have h := Reads_marshalServerResponse r hr ((marshalServerResponse r).length + 1) []
    (by omega)
  rw [List.append_nil] at h
  rw [h]
  rfl

theorem decodeMembers_append {σ : Type} (names : List Bytes)
    (field : Nat → JSON → σ → Option GoError → σ × Option GoError)
    (a b : List (Bytes × JSON)) :
    ∀ (cur : σ) (saved : Option GoError),
      decodeMembers names field (a ++ b) cur saved
        = decodeMembers names field b (decodeMembers names field a cur saved).1
            (decodeMembers names field a cur saved).2 := by
  induction a with
  | nil => intro cur saved; rfl
  | cons kv a ih =>
    intro cur saved
    obtain ⟨key, v⟩ := kv
    simp only [List.cons_append, decodeMembers]
    split
    · exact ih _ _
    · exact ih _ _

theorem decodeMembers_one {σ : Type} (names : List Bytes)
    (field : Nat → JSON → σ → Option GoError → σ × Option GoError)
    (key : Bytes) (v : JSON) (i : Nat) (hi : fieldIndex names key = some i) (cur : σ)
    (saved : Option GoError) :
    decodeMembers names field [(key, v)] cur saved = field i v cur saved := by
  simp only [decodeMembers, hi]

/-- An optional string entry decoded into a field that is still empty stores the string. -/
theorem decode_stringEntry {σ : Type} (names : List Bytes)
    (field : Nat → JSON → σ → Option GoError → σ × Option GoError)
    (key : Bytes) (i : Nat) (hi : fieldIndex names key = some i) (set : σ → Bytes → σ)
    (hfield : ∀ (s : Bytes) (cur : σ) (saved : Option GoError),
      field i (JSON.str s) cur saved = (set cur s, saved))
    (s : Bytes) (cur : σ) (saved : Option GoError) (hcur : set cur [] = cur) :
    decodeMembers names field ((stringEntry key s).map Entry.tree) cur saved
      = (set cur s, saved) := by
  unfold stringEntry
  by_cases h : s = []
  · rw [if_pos h, h, hcur]; rfl
  · rw [if_neg h]
    simp only [List.map_cons, List.map_nil, Entry.tree]
    rw [decodeMembers_one names field key _ i hi, hfield]

theorem decode_publicIP (p : PublicIP) (saved : Option GoError) :
    decodeStruct publicIPNames publicIPField (publicIPTree p) PublicIP.zero saved
      = (p, saved) := by
  unfold publicIPTree publicIPEntries decodeStruct
  simp only [List.map_append, decodeMembers_append]
  rw [decode_stringEntry publicIPNames publicIPField (str "id") 0 (by decide)
    (fun c s => { c with ID := s }) (fun _ _ _ => rfl) p.ID PublicIP.zero saved rfl]
  simp only []
  have hdyn : decodeMembers publicIPNames publicIPField
      ((if p.Dynamic then [(str "dynamic", str "true", JSON.bool true)] else []).map Entry.tree)
      { PublicIP.zero with ID := p.ID } saved
      = ({ ID := p.ID, Dynamic := p.Dynamic, Address := [] }, saved) := by
    cases p.Dynamic
    · rfl
    · simp only [if_true, List.map_cons, List.map_nil, Entry.tree]
      rw [decodeMembers_one publicIPNames publicIPField _ _ 1 (by decide)]
      rfl
  rw [hdyn]
  simp only []
  rw [decode_stringEntry publicIPNames publicIPField (str "address") 2 (by decide)
    (fun c s => { c with Address := s }) (fun _ _ _ => rfl) p.Address _ saved rfl]

theorem decodeElements_strings (xs : List Bytes) (saved : Option GoError) :
    ∀ mem : List Bytes,
      decodeElements [] decodeString (xs.map JSON.str) mem saved = (xs, saved) := by
  induction xs with
  | nil => intro mem; rfl
  | cons x xs ih =>
    intro mem
    simp only [List.map_cons, decodeElements, decodeString, ih]

theorem decode_tags (tags : List Bytes) (c : ServerCell) (saved : Option GoError)
    (hc : c.server.Tags = []) (hs : c.spareTags = []) :
    decodeMembers serverNames serverField
        ((if tags = [] then []
          else [(str "tags", marshalStrings tags, JSON.arr (tags.map JSON.str))]).map
            Entry.tree) c saved
      = ({ server := { c.server with Tags := tags }, spareTags := [] }, saved) := by
  by_cases h : tags = []
  · rw [if_pos h, h]
    obtain ⟨sv, sp⟩ := c
    simp only at hc hs
    subst hs
    obtain ⟨a1, a2, a3, a4, a5, a6, a7, a8, a9⟩ := sv
    simp only at hc
    subst hc
    rfl
  · rw [if_neg h]
    simp only [List.map_cons, List.map_nil, Entry.tree]
    rw [decodeMembers_one serverNames serverField _ _ 8 (by decide)]
    match tags with
    | [] => exact absurd rfl h
    | t :: ts =>
      simp only [serverField, decodeSlice, List.map_cons, hc, hs, List.append_nil]
      have := decodeElements_strings (t :: ts) saved []
      simp only [List.map_cons] at this
      rw [this]
      simp

theorem decode_server (s : Server) (saved : Option GoError) :
    decodeServer (serverTree s) ServerCell.zero saved
      = ({ server := s, spareTags := [] }, saved) := by
  unfold decodeServer serverTree serverEntries decodeStruct
  simp only [List.map_append, decodeMembers_append]
  rw [decode_stringEntry serverNames serverField (str "id") 0 (by decide)
    (fun c v => { c with server := { c.server with ID := v } }) (fun _ _ _ => rfl)
    s.ID ServerCell.zero saved rfl]
  simp only []
  rw [decode_stringEntry serverNames serverField (str "name") 1 (by decide)
    (fun c v => { c with server := { c.server with Name := v } }) (fun _ _ _ => rfl)
    s.Name _ saved rfl]
  simp only []
  rw [decode_stringEntry serverNames serverField (str "organization") 2 (by decide)
    (fun c v => { c with server := { c.server with Organization := v } }) (fun _ _ _ => rfl)
    s.Organization _ saved rfl]
  simp only []
  rw [decode_stringEntry serverNames serverField (str "creation_date") 3 (by decide)
    (fun c v => { c with server := { c.server with CreationDate := v } }) (fun _ _ _ => rfl)
    s.CreationDate _ saved rfl]
  simp only []
  rw [decode_stringEntry serverNames serverField (str "modification_date") 4 (by decide)
    (fun c v => { c with server := { c.server with ModificationDate := v } })
    (fun _ _ _ => rfl) s.ModificationDate _ saved rfl]
  simp only []
  rw [decode_stringEntry serverNames serverField (str "arch") 5 (by decide)
    (fun c v => { c with server := { c.server with Arch := v } }) (fun _ _ _ => rfl)
    s.Arch _ saved rfl]
  simp only [List.map_cons, List.map_nil, Entry.tree]
  rw [decodeMembers_one serverNames serverField (str "public_ip") _ 6 (by decide)]
  have hip : ∀ c : ServerCell, c.server.PublicIP = PublicIP.zero →
      serverField 6 (publicIPTree s.PublicIP) c saved
        = ({ c with server := { c.server with PublicIP := s.PublicIP } }, saved) := by
    intro c hc
    simp only [serverField, hc, decode_publicIP]
  rw [hip _ rfl]
  simp only []
  rw [decode_stringEntry serverNames serverField (str "state") 7 (by decide)
    (fun c v => { c with server := { c.server with State := v } }) (fun _ _ _ => rfl)
    s.State _ saved rfl]
  simp only []
  rw [decode_tags s.Tags _ saved rfl rfl]

/-- `json.Unmarshal` of what `json.Marshal` wrote for a response with well-formed strings
gives the response back, without an error. -/
theorem unmarshal_marshal (r : ServerResponse) (hr : r.Server.Valid) :
    unmarshalServerResponse (marshalServerResponse r) = (r, none) := by
  unfold unmarshalServerResponse
  rw [parseJSON_marshalServerResponse r hr]
  simp only [serverResponseTree, decodeStruct]
  rw [decodeMembers_one [str "server"] _ (str "server") _ 0 (by decide), decode_server]

/-! ## The key upload and the round trip of the server envelope -/

/-- Counterexample to C4 as stated: for the key file of the spec's example the body of the
request is not the compact text without blanks; and a key file that starts with a blank gives
the same body as one that does not, the leading blank is removed as well. -/
theorem UploadPublicKey_compact_body_differs :
    ((NewClient (cannedClient 200 (str "\x7b\x7d")) (str "u") (str "tok")
        (str "o")).UploadPublicKey keyFileEnv unitDecoder (str "u") (str "id_rsa.pub") []).2.map
        (fun r => r.Body)
      ≠ [some (str "\x7b\"ssh_public_keys\":[\x7b\"key\":\"ssh-rsa AAAA...\"\x7d]\x7d")]
    ∧ UploadPublicKeyBody (str " ssh-rsa AAAA...\n") = UploadPublicKeyBody (str "ssh-rsa AAAA...")
    ∧ TrimSpace (str " ssh-rsa AAAA...\n") ≠ str " ssh-rsa AAAA..." := by
  refine ⟨by decide, by decide, by decide⟩

/-- C4, amended. For a readable key file with content `k`, `UploadPublicKey` removes the white
space at both ends of `k`, leading as well as trailing (`strings.TrimSpace`: what is removed
is white space only, and what is left neither starts nor ends with white space), and sends it
in the format of the source, which has a blank after each colon; when the URL parses, exactly
one request is issued, a PATCH to `AccountURL/users/{id}` with this body. For the content
`ssh-rsa AAAA...` with a newline the body is
`{"ssh_public_keys": [{"key": "ssh-rsa AAAA..."}]}`. -/
theorem UploadPublicKey_request {R : Type} (c : OnlineLabsClient) (env : Env)
    (dec : Decoder R) (userid keyPath k : Bytes) (net : Net)
    (hread : env.ReadFile keyPath = Except.ok k)
    (hurl : env.parseURL (c.AccountURL ++ str "/users/" ++ userid) = none) :
    IssuesOne net (c.UploadPublicKey env dec userid keyPath net).2 (str "PATCH")
        (c.AccountURL ++ str "/users/" ++ userid)
        (some (str "\x7b\"ssh_public_keys\": [\x7b\"key\": \"" ++ TrimSpace k
          ++ str "\"\x7d]\x7d"))
    ∧ (∃ pre suf, k = pre ++ TrimSpace k ++ suf ∧ SpaceText pre ∧ SpaceText suf
        ∧ IsSpace (DecodeRuneInString (TrimSpace k)).1 = false
        ∧ IsSpace (DecodeLastRuneInString (TrimSpace k)).1 = false)
    ∧ UploadPublicKeyBody (str "ssh-rsa AAAA...\n")
        = str "\x7b\"ssh_public_keys\": [\x7b\"key\": \"ssh-rsa AAAA...\"\x7d]\x7d" := by
  refine ⟨?_, TrimSpace_spec k, by decide⟩
  simp only [OnlineLabsClient.UploadPublicKey, hread, url_users_id]
  rw [patchAPIResource_net _ _ _ _ _ _ hurl, UploadPublicKeyBody_eq]
  exact IssuesOne_built _ _ _ _ _

/-- Witness of C4: the key file of the spec's example, uploaded for user `u1`. -/
theorem UploadPublicKey_request_witness :
    IssuesOne []
      ((NewClient (cannedClient 200 (str "\x7b\x7d")) (str "u") (str "tok")
        (str "o")).UploadPublicKey keyFileEnv unitDecoder (str "u1") (str "id_rsa.pub") []).2
      (str "PATCH") (str "https://account.cloud.online.net/users/u1")
      (some (str "\x7b\"ssh_public_keys\": [\x7b\"key\": \"ssh-rsa AAAA...\"\x7d]\x7d")) := by
  have h := (UploadPublicKey_request (NewClient (cannedClient 200 (str "\x7b\x7d")) (str "u")
    (str "tok") (str "o")) keyFileEnv unitDecoder (str "u1") (str "id_rsa.pub")
    (str "ssh-rsa AAAA...\n") [] rfl rfl).1
  have e : TrimSpace (str "ssh-rsa AAAA...\n") = str "ssh-rsa AAAA..." := by decide
  rw [e] at h
  exact h

/-- Counterexample to C9 as stated: a string that is not UTF-8 does not come back. The name
`0xFF` is written as `\ufffd` and read back as the three bytes of U+FFFD. -/
theorem GetServerFromJSON_bad_name :
    marshalServerResponse badNameServer
        = str "\x7b\"server\":\x7b\"name\":\"\\ufffd\",\"public_ip\":\x7b\x7d\x7d\x7d"
    ∧ GetServerFromJSON (marshalServerResponse badNameServer)
        = (some { Server := { Server.zero with Name := [0xEF, 0xBF, 0xBD] } }, none)
    ∧ GetServerFromJSON (marshalServerResponse badNameServer) ≠ (some badNameServer, none) := by
  refine ⟨by decide, by decide, by decide⟩

/-- C9, amended. For every `ServerResponse` whose strings, the string fields and the tags, are
well-formed UTF-8, `GetServerFromJSON` of its JSON text returns no error and the same
structure; and on every input for which `json.Unmarshal` returns an error, `GetServerFromJSON`
and `GetServersFromJSON` return that error with a nil result. -/
theorem GetServerFromJSON_roundtrip (s : ServerResponse) (hs : s.Server.Valid) :
    GetServerFromJSON (marshalServerResponse s) = (some s, none)
    ∧ (∀ (b : Bytes) (err : GoError), (unmarshalServerResponse b).2 = some err →
        GetServerFromJSON b = (none, some err))
    ∧ (∀ (b : Bytes) (err : GoError), (unmarshalServersResponse b).2 = some err →
        GetServersFromJSON b = (none, some err)) := by
  refine ⟨?_, ?_, ?_⟩
  · simp only [GetServerFromJSON, unmarshal_marshal s hs]
  · intro b err h
    simp only [GetServerFromJSON, h]
  · intro b err h
    simp only [GetServersFromJSON, h]

theorem sampleServer_valid : sampleServer.Server.Valid := by
  refine ⟨by decide, by decide, by decide, by decide, by decide, by decide,
    ⟨by decide, by decide⟩, by decide, ?_⟩
  intro t ht
  simp only [sampleServer, List.mem_cons, List.mem_singleton, List.not_mem_nil, or_false] at ht
  rcases ht with h | h <;> subst h <;> decide

/-- Witness of C9: the round trip of a server with every field populated; a text in which the
name is a string and the id a number, which `json.Unmarshal` decodes in part before it
reports the mismatch, and a text that breaks off: both give a nil result with the error. -/
theorem GetServerFromJSON_roundtrip_witness :
    sampleServer.Server.Valid
    ∧ GetServerFromJSON (marshalServerResponse sampleServer) = (some sampleServer, none)
    ∧ (unmarshalServerResponse (str "\x7b\"server\": \x7b\"name\": \"x\", \"id\": 5\x7d\x7d")).1.Server.Name
        = str "x"
    ∧ GetServerFromJSON (str "\x7b\"server\": \x7b\"name\": \"x\", \"id\": 5\x7d\x7d")
        = (none, some typeError)
    ∧ GetServersFromJSON (str "\x7b\"servers\": [") = (none, some syntaxError) :=
  ⟨sampleServer_valid, (GetServerFromJSON_roundtrip sampleServer sampleServer_valid).1,
    by decide,
    (GetServerFromJSON_roundtrip sampleServer sampleServer_valid).2.1 _ _ (by decide),
    (GetServerFromJSON_roundtrip sampleServer sampleServer_valid).2.2 _ _ (by decide)⟩

/-- C10. `CreateServer` inserts its arguments without escaping: for all arguments the body is
the text of the format with the three arguments copied in byte for byte, and this is the body
of the one request issued when the URL parses. So the arguments
`(x", "organization": "y, z, i)`, whose name holds double quotes, and
`(x, y", "organization": "z, i)` differ and produce the same request body,
`{"name": "x", "organization": "y", "organization": "z", "image": "i", "tags": ["docker-machine"]}`,
and so the same request; a JSON reader finds the name `x` in it, not the name that was passed;
and for the name `"` the body is not a JSON text at all. -/
theorem CreateServer_body_not_injective {R : Type} (c : OnlineLabsClient) (env : Env)
    (dec : Decoder R) (net : Net) :
    (∀ name organization image : Bytes,
      CreateServerBody name organization image
          = str "\x7b\"name\": \"" ++ name ++ str "\", \"organization\": \"" ++ organization
            ++ str "\", \"image\": \"" ++ image ++ str "\", \"tags\": [\"docker-machine\"]\x7d"
      ∧ (env.parseURL (c.ComputeURL ++ str "/servers") = none →
          IssuesOne net (c.CreateServer env dec name organization image net).2 (str "POST")
            (c.ComputeURL ++ str "/servers")
            (some (CreateServerBody name organization image))))
    ∧ (str "x\", \"organization\": \"y", str "z", str "i")
        ≠ (str "x", str "y\", \"organization\": \"z", str "i")
    ∧ (34 : UInt8) ∈ str "x\", \"organization\": \"y"
    ∧ CreateServerBody (str "x\", \"organization\": \"y") (str "z") (str "i") = str
        "\x7b\"name\": \"x\", \"organization\": \"y\", \"organization\": \"z\", \"image\": \"i\", \"tags\": [\"docker-machine\"]\x7d"
    ∧ CreateServerBody (str "x") (str "y\", \"organization\": \"z") (str "i") = str
        "\x7b\"name\": \"x\", \"organization\": \"y\", \"organization\": \"z\", \"image\": \"i\", \"tags\": [\"docker-machine\"]\x7d"
    ∧ CreateServerBody (str "x\", \"organization\": \"y") (str "z") (str "i")
        = CreateServerBody (str "x") (str "y\", \"organization\": \"z") (str "i")
    ∧ (c.CreateServer env dec (str "x\", \"organization\": \"y") (str "z") (str "i") net).2
        = (c.CreateServer env dec (str "x") (str "y\", \"organization\": \"z") (str "i") net).2
    ∧ parseJSON (CreateServerBody (str "x\", \"organization\": \"y") (str "z") (str "i"))
        = some (JSON.obj [(str "name", JSON.str (str "x")),
            (str "organization", JSON.str (str "y")), (str "organization", JSON.str (str "z")),
            (str "image", JSON.str (str "i")),
            (str "tags", JSON.arr [JSON.str (str "docker-machine")])])
    ∧ parseJSON (CreateServerBody (str "\"") (str "z") (str "i")) = none := by
  have hbody : CreateServerBody (str "x\", \"organization\": \"y") (str "z") (str "i")
      = CreateServerBody (str "x") (str "y\", \"organization\": \"z") (str "i") := by decide
  refine ⟨fun name organization image => ⟨CreateServerBody_eq name organization image,
    fun hurl => ?_⟩, by decide, by decide, by decide, by decide, hbody, ?_, by rfl, by rfl⟩
  · simp only [OnlineLabsClient.CreateServer, url_servers]
    rw [postAPIResource_net _ _ _ _ _ _ hurl]
    exact IssuesOne_built _ _ _ _ _
  · simp only [OnlineLabsClient.CreateServer, hbody]

end OnlineLabs
